import Mathlib

set_option linter.unusedSectionVars false

/-!
# RoadObject mesh generation (libOpenDRIVE, `RoadObject.cpp`)

A shallow embedding of `RoadObject::get_cylinder`, `RoadObject::get_box` and
`RoadObject::get_mesh`.

Modelling conventions.

* `double` is modelled by a linearly ordered field `α` with exact arithmetic
  (instantiated at `ℝ` for the analytic statements and at `ℚ` for evaluation).
  Infinities and NaN produced by arithmetic are outside the model.
* Where the rounding of a `double` sum decides what the code does (the counter
  of the loop over `s` and its bound `s_end`), the definitions with the suffix
  `_rnd` take the rounding as a parameter `rnd`; `binary64_round` is the
  rounding of IEEE 754 binary64, and with `rnd` the identity they are the exact
  definitions.
* A `double` field that the source tests with `isnan` (the "not specified"
  sentinel of `RoadObjectRepeat`) is an `Option α`, `none` standing for NaN.
* `<cmath>` (`cos`, `sin`, `acos`, `M_PI`) is a parameter `Libm α`, so that a
  statement can be made for the exact functions with the constant π or with
  the `double` constant `M_PI = 884279719003555 / 2 ^ 48`.
* `std::weak_ptr<Road>` is an `Option (Road α)`; `lock()` failing is `none`.
* `size_t` / index arithmetic is done in `Nat`; the statements that matter show
  that no subtraction is ever applied below its subtrahend.
* The two `for` loops over a `double` counter may run forever, so they take a
  fuel argument and the functions return a `Result` with a `div` outcome.
-/

namespace odr

/-- Vec3D is `std::array<double, 3>`. -/
structure Vec3D (α : Type) where
  x : α
  y : α
  z : α
deriving DecidableEq, Repr

/-- Mat3D is a 3x3 matrix, stored by rows. -/
structure Mat3D (α : Type) where
  r0 : Vec3D α
  r1 : Vec3D α
  r2 : Vec3D α

/-- Mesh3D keeps the vertex list and the triangle index list. -/
structure Mesh3D (α : Type) where
  vertices : List (Vec3D α)
  indices : List Nat
deriving DecidableEq, Repr

/-- Outcome of a call: a value, a thrown `std::runtime_error`, or no return. -/
inductive Result (β : Type) where
  | ok (v : β)
  | fail (what : String)
  | div
deriving DecidableEq, Repr

/-- The functions and constant of `<cmath>` used by the source. -/
structure Libm (α : Type) where
  cos : α → α
  sin : α → α
  acos : α → α
  M_PI : α

/-- Road: the two members of the owning road that `get_mesh` touches. -/
structure Road (α : Type) where
  length : α
  get_xyz : α → α → α → Vec3D α

/-- RoadObjectRepeat, fields in constructor order. -/
structure RoadObjectRepeat (α : Type) where
  s0 : Option α
  length : α
  distance : α
  t_start : Option α
  t_end : Option α
  width_start : Option α
  width_end : Option α
  height_start : Option α
  height_end : Option α
  z_offset_start : Option α
  z_offset_end : Option α

/-- RoadObject: the members read by `get_mesh`. -/
structure RoadObject (α : Type) where
  s0 : α
  t0 : α
  z0 : α
  length : α
  width : α
  height : α
  radius : α
  hdg : α
  pitch : α
  roll : α
  repeats : List (RoadObjectRepeat α)
  road : Option (Road α)

section Defs

variable {α : Type} [LinearOrderedField α]

/-- Modelled from the spec: `Mesh3D::add_mesh` (Mesh.h is not part of the
sources): append the other mesh's vertices, then its indices shifted by the
vertex count before the append. -/
def add_mesh (self other : Mesh3D α) : Mesh3D α :=
  let idx_offset := self.vertices.length
  { vertices := self.vertices ++ other.vertices
    indices := self.indices ++ other.indices.map (fun idx => idx + idx_offset) }

/-- Modelled from the spec: `MatVecMultiplication` (Math.hpp is not part of
the sources): the product of a 3x3 matrix and a vector. -/
def MatVecMultiplication (m : Mat3D α) (v : Vec3D α) : Vec3D α :=
  { x := m.r0.x * v.x + m.r0.y * v.y + m.r0.z * v.z
    y := m.r1.x * v.x + m.r1.y * v.y + m.r1.z * v.z
    z := m.r2.x * v.x + m.r2.y * v.y + m.r2.z * v.z }

/-- Modelled from the spec: `add` (Math.hpp is not part of the sources):
componentwise sum, the translation of a point. -/
def add (a b : Vec3D α) : Vec3D α :=
  { x := a.x + b.x, y := a.y + b.y, z := a.z + b.z }

/-- The argument handed to `std::acos` in `get_cylinder` (line 16). -/
def acos_arg (radius eps : α) : α :=
  (radius * radius - 4 * radius * eps + 2 * eps * eps) / (radius * radius)

/-- The local `eps_angle` of `get_cylinder`; `eps` is the already halved
tolerance. -/
def eps_angle (M : Libm α) (radius eps : α) : α :=
  if radius ≤ eps then M.M_PI / 6 else M.acos (acos_arg radius eps)

/-- The loop `for (double alpha = 0; alpha < 2 * M_PI; alpha += eps_angle)`,
started at `alpha`, collecting the pushed values. -/
def angles_loop (M_PI step : α) : Nat → α → Option (List α)
  | 0, _ => none
  | fuel + 1, alpha =>
    if alpha < 2 * M_PI then
      (angles_loop M_PI step fuel (alpha + step)).map (fun rest => alpha :: rest)
    else some []

/-- The local vector `angles` of `get_cylinder`, `eps` being the caller's
tolerance. -/
def angles (M : Libm α) (fuel : Nat) (eps radius : α) : Option (List α) :=
  let eps := (1 / 2 : α) * eps
  (angles_loop M.M_PI (eps_angle M radius eps) fuel 0).map (fun as => as ++ [2 * M.M_PI])

/-- The two index patches appended for one sector, as a function of `cur_idx`. -/
def cylinder_patch (cur_idx : Nat) : List Nat :=
  [0, cur_idx - 1, cur_idx - 3, 1, cur_idx - 2, cur_idx] ++
    [cur_idx, cur_idx - 2, cur_idx - 3, cur_idx, cur_idx - 3, cur_idx - 1]

/-- Body of the loop `for (const double& alpha : angles)` of `get_cylinder`. -/
def cylinder_step (M : Libm α) (radius height : α) (mesh : Mesh3D α) (alpha : α) : Mesh3D α :=
  let circle_pt_bottom : Vec3D α := ⟨radius * M.cos alpha, radius * M.sin alpha, 0⟩
  let circle_pt_top : Vec3D α := ⟨radius * M.cos alpha, radius * M.sin alpha, height⟩
  let vertices := mesh.vertices ++ [circle_pt_bottom] ++ [circle_pt_top]
  if vertices.length > 5 then
    let cur_idx := vertices.length - 1
    { vertices := vertices, indices := mesh.indices ++ cylinder_patch cur_idx }
  else
    { vertices := vertices, indices := mesh.indices }

/-- `RoadObject::get_cylinder(eps, radius, height)`. -/
def get_cylinder (M : Libm α) (fuel : Nat) (eps radius height : α) : Result (Mesh3D α) :=
  let cylinder_mesh : Mesh3D α := { vertices := [⟨0, 0, 0⟩, ⟨0, 0, height⟩], indices := [] }
  match angles M fuel eps radius with
  | none => Result.div
  | some as => Result.ok (as.foldl (cylinder_step M radius height) cylinder_mesh)

/-- `RoadObject::get_box(w, l, h)`. -/
def get_box (w l h : α) : Mesh3D α :=
  { vertices := [⟨l / 2, w / 2, 0⟩,
                 ⟨(-l) / 2, w / 2, 0⟩,
                 ⟨(-l) / 2, (-w) / 2, 0⟩,
                 ⟨l / 2, (-w) / 2, 0⟩,
                 ⟨l / 2, w / 2, h⟩,
                 ⟨(-l) / 2, w / 2, h⟩,
                 ⟨(-l) / 2, (-w) / 2, h⟩,
                 ⟨l / 2, (-w) / 2, h⟩]
    indices := [0, 3, 1, 3, 2, 1, 4, 5, 7, 7, 5, 6, 7, 6, 3, 3, 6, 2, 5, 4, 1, 1, 4, 0,
                0, 4, 7, 7, 3, 0, 1, 6, 5, 1, 2, 6] }

/-- The conditional `(isnan(a) || isnan(b)) ? base : a + progress * (b - a)`. -/
def interpolate (a b : Option α) (base progress : α) : α :=
  match a, b with
  | some va, some vb => va + progress * (vb - va)
  | _, _ => base

/-- The local `progress` of `get_mesh` (line 82). -/
def progress (s_start s_end s : α) : α :=
  if s_start = s_end then 1 else (s - s_start) / (s_end - s_start)

/-- The primitive selection of `get_mesh` (lines 95 to 103). -/
def single_road_obj_mesh (M : Libm α) (fuel : Nat) (obj : RoadObject α)
    (eps width_s height_s : α) : Result (Mesh3D α) :=
  if obj.radius > 0 then get_cylinder M fuel eps obj.radius height_s
  else if width_s > 0 ∧ obj.length > 0 then Result.ok (get_box width_s obj.length height_s)
  else Result.ok { vertices := [], indices := [] }

/-- The three assignments to `pt_uvz` of `get_mesh` (lines 108 to 110). -/
def transform_pt (rot_mat : Mat3D α) (road_ptr : Road α) (s t_s z_s : α) (pt_uvz : Vec3D α) :
    Vec3D α :=
  let p1 := MatVecMultiplication rot_mat pt_uvz
  let p2 := add p1 ⟨s, t_s, z_s⟩
  road_ptr.get_xyz (max (min p2.x road_ptr.length) 0) p2.y p2.z

/-- One instance of `get_mesh`: the body of the loop over `s` up to the call
of `add_mesh`, giving the transformed instance mesh. -/
def instance_mesh (M : Libm α) (fuel : Nat) (obj : RoadObject α) (road_ptr : Road α)
    (rot_mat : Mat3D α) (eps : α) (rep : RoadObjectRepeat α) (s_start s_end s : α) :
    Result (Mesh3D α) :=
  let pr := progress s_start s_end s
  let t_s := interpolate rep.t_start rep.t_end obj.t0 pr
  let z_s := interpolate rep.z_offset_start rep.z_offset_end obj.z0 pr
  let height_s := interpolate rep.height_start rep.height_end obj.height pr
  let width_s := interpolate rep.width_start rep.width_end obj.width pr
  match single_road_obj_mesh M fuel obj eps width_s height_s with
  | Result.ok m =>
    Result.ok { vertices := m.vertices.map (transform_pt rot_mat road_ptr s t_s z_s)
                indices := m.indices }
  | Result.fail e => Result.fail e
  | Result.div => Result.div

/-- The loop `for (double s = s_start; s <= s_end; s += repeat.distance)`,
started at `s` with the accumulated mesh `acc`. The sum `s + repeat.distance`
is exact here; `sample_loop_rnd` is the same loop with the sum rounded. -/
def sample_loop (M : Libm α) (cfuel : Nat) (obj : RoadObject α) (road_ptr : Road α)
    (rot_mat : Mat3D α) (eps : α) (rep : RoadObjectRepeat α) (s_start s_end : α) :
    Nat → α → Mesh3D α → Result (Mesh3D α)
  | 0, _, _ => Result.div
  | fuel + 1, s, acc =>
    if s ≤ s_end then
      match instance_mesh M cfuel obj road_ptr rot_mat eps rep s_start s_end s with
      | Result.ok m =>
        sample_loop M cfuel obj road_ptr rot_mat eps rep s_start s_end fuel
          (s + rep.distance) (add_mesh acc m)
      | Result.fail e => Result.fail e
      | Result.div => Result.div
    else Result.ok acc

/-- The local `obj_len` of `get_mesh` (line 74). -/
def obj_len (obj : RoadObject α) (rep : RoadObjectRepeat α) : α :=
  if rep.length > 0 then rep.length else obj.length

/-- The local `s_start` of `get_mesh` (line 75). -/
def s_start (obj : RoadObject α) (rep : RoadObjectRepeat α) : α :=
  match rep.s0 with
  | none => obj.s0
  | some v => v

/-- The local `s_end` of `get_mesh` (line 76), the sum being exact; `s_end_rnd`
is the same value with the sum rounded. -/
def s_end (obj : RoadObject α) (road_ptr : Road α) (rep : RoadObjectRepeat α) : α :=
  s_start obj rep + min (obj_len obj rep) road_ptr.length

/-- The loop `for (const RoadObjectRepeat& repeat : repeats_copy)`. -/
def repeats_loop (M : Libm α) (fuel : Nat) (obj : RoadObject α) (road_ptr : Road α)
    (rot_mat : Mat3D α) (eps : α) : List (RoadObjectRepeat α) → Mesh3D α → Result (Mesh3D α)
  | [], acc => Result.ok acc
  | rep :: rest, acc =>
    if rep.distance ≠ 0 then
      match sample_loop M fuel obj road_ptr rot_mat eps rep (s_start obj rep)
          (s_end obj road_ptr rep) fuel (s_start obj rep) acc with
      | Result.ok acc2 => repeats_loop M fuel obj road_ptr rot_mat eps rest acc2
      | Result.fail e => Result.fail e
      | Result.div => Result.div
    else repeats_loop M fuel obj road_ptr rot_mat eps rest acc

/-- The span pushed onto an empty `repeats_copy` (line 67):
`{NAN, 0, 1, NAN, NAN, NAN, NAN, NAN, NAN, NAN, NAN}`. -/
def default_repeat : RoadObjectRepeat α :=
  ⟨none, 0, 1, none, none, none, none, none, none, none, none⟩

/-- The local `repeats_copy` of `get_mesh` (lines 65 to 67). -/
def repeats_copy (obj : RoadObject α) : List (RoadObjectRepeat α) :=
  if obj.repeats.isEmpty then obj.repeats ++ [default_repeat] else obj.repeats

/-- `RoadObject::get_mesh(eps)`. `EulerAnglesToMatrix` (Math.hpp) is a
parameter. -/
def get_mesh (M : Libm α) (EulerAnglesToMatrix : α → α → α → Mat3D α) (fuel : Nat)
    (obj : RoadObject α) (eps : α) : Result (Mesh3D α) :=
  match obj.road with
  | none => Result.fail "could not access parent road for road object"
  | some road_ptr =>
    let rot_mat := EulerAnglesToMatrix obj.roll obj.pitch obj.hdg
    repeats_loop M fuel obj road_ptr rot_mat eps (repeats_copy obj) { vertices := [], indices := [] }

/-- The index list cut into triangles, three indices at a time. -/
def triangles : List Nat → List (Nat × Nat × Nat)
  | a :: b :: c :: rest => (a, b, c) :: triangles rest
  | _ => []

/-- A mesh is well formed when its index list is made of triples and every
index points at a vertex. -/
def Mesh3D.WellFormed (m : Mesh3D α) : Prop :=
  3 ∣ m.indices.length ∧ ∀ i ∈ m.indices, i < m.vertices.length


/-- Component-wise difference of two points. -/
def sub (a b : Vec3D α) : Vec3D α :=
  { x := a.x - b.x, y := a.y - b.y, z := a.z - b.z }

/-- Cross product. -/
def cross (a b : Vec3D α) : Vec3D α :=
  { x := a.y * b.z - a.z * b.y, y := a.z * b.x - a.x * b.z, z := a.x * b.y - a.y * b.x }

/-- Dot product. -/
def dot (a b : Vec3D α) : α :=
  a.x * b.x + a.y * b.y + a.z * b.z

/-- The vertex an index points at (the origin when out of range). -/
def Mesh3D.vertex (m : Mesh3D α) (i : Nat) : Vec3D α :=
  m.vertices.getD i ⟨0, 0, 0⟩

/-- The normal `(v1 - v0) × (v2 - v0)` of a triangle of a mesh. -/
def Mesh3D.normal (m : Mesh3D α) (t : Nat × Nat × Nat) : Vec3D α :=
  cross (sub (m.vertex t.2.1) (m.vertex t.1)) (sub (m.vertex t.2.2) (m.vertex t.1))

/-- The six faces of the box. -/
inductive BoxFace where
  | xPos | xNeg | yPos | yNeg | zBottom | zTop
deriving DecidableEq, Repr

/-- A point lies on the plane of a face of the box of width `w`, length `l`,
height `h`. -/
def on_face (w l h : α) (f : BoxFace) (v : Vec3D α) : Bool :=
  match f with
  | BoxFace.xPos => decide (v.x = l / 2)
  | BoxFace.xNeg => decide (v.x = (-l) / 2)
  | BoxFace.yPos => decide (v.y = w / 2)
  | BoxFace.yNeg => decide (v.y = (-w) / 2)
  | BoxFace.zBottom => decide (v.z = 0)
  | BoxFace.zTop => decide (v.z = h)

/-- All three vertices of a triangle lie on the plane of the face. -/
def tri_on_face (w l h : α) (m : Mesh3D α) (f : BoxFace) (t : Nat × Nat × Nat) : Bool :=
  on_face w l h f (m.vertex t.1) && on_face w l h f (m.vertex t.2.1) &&
    on_face w l h f (m.vertex t.2.2)

/-- The two vertices pushed for one sampled angle (lines 25 to 28). -/
def circle_pts (M : Libm α) (radius height alpha : α) : List (Vec3D α) :=
  [⟨radius * M.cos alpha, radius * M.sin alpha, 0⟩,
   ⟨radius * M.cos alpha, radius * M.sin alpha, height⟩]

/-- The mesh `get_cylinder` builds from a given list of sampled angles, in
closed form: the two poles, a pair of vertices per angle, and one patch per
sector, the sector `j` being emitted with `cur_idx = 2 * j + 5`. -/
def cylinder_of_angles (M : Libm α) (radius height : α) (as : List α) : Mesh3D α :=
  { vertices := [⟨0, 0, 0⟩, ⟨0, 0, height⟩] ++ as.flatMap (circle_pts M radius height)
    indices := (List.range (as.length - 1)).flatMap (fun j => cylinder_patch (2 * j + 5)) }

/-- A triangle whose three indices lie on the same cap: the bottom cap holds
the even indices (pole 0 and the bottom ring), the top cap the odd ones. -/
def is_cap_triangle (t : Nat × Nat × Nat) : Prop :=
  t.1 % 2 = t.2.1 % 2 ∧ t.1 % 2 = t.2.2 % 2

/-- The vector `angles` in closed form when the loop makes `n` rounds: the
multiples `0 + i * step` for `i < n`, then `2 * M_PI`. -/
def sampled_angles (M_PI step : α) (n : Nat) : List α :=
  (List.range n).map (fun i : Nat => 0 + (i : α) * step) ++ [2 * M_PI]

/-- A road whose evaluator is the identity: the reference line is the x axis. -/
def straight_road (length : α) : Road α :=
  { length := length, get_xyz := fun s t h => ⟨s, t, h⟩ }

/-- The rotation matrix of zero roll, pitch and heading. -/
def no_rotation : α → α → α → Mat3D α :=
  fun _ _ _ => ⟨⟨1, 0, 0⟩, ⟨0, 1, 0⟩, ⟨0, 0, 1⟩⟩

/-- The object of the single-box example: `s0 = 10`, `t0 = 0`, `z0 = 0`,
`width = 1`, `height = 2`, `radius = 0`, no repeat, on a road of length 50;
its length is left open. -/
def example_box_object (length : α) : RoadObject α :=
  { s0 := 10, t0 := 0, z0 := 0, length := length, width := 1, height := 2, radius := 0,
    hdg := 0, pitch := 0, roll := 0, repeats := [], road := some (straight_road 50) }

/-- The mesh expected for `example_box_object` when it is instantiated once:
the box of width 1 and height 2 placed at `s = 10`. -/
def example_box_mesh (length : α) : Mesh3D α :=
  { vertices := (get_box 1 length 2).vertices.map
      (transform_pt (no_rotation 0 0 0) (straight_road 50) 10 0 0)
    indices := (get_box 1 length 2).indices }

/-- The stations visited by the loop
`for (double s = s_start; s <= s_end; s += repeat.distance)`, started at `s`:
the control flow of `sample_loop` on its own. -/
def stations_loop (s_end distance : α) : Nat → α → Option (List α)
  | 0, _ => none
  | fuel + 1, s =>
    if s ≤ s_end then
      (stations_loop s_end distance fuel (s + distance)).map (fun rest => s :: rest)
    else some []

/-- The instances `inst s` of the given stations, merged in order into `acc`
with `add_mesh`; an instance that does not return stops the merge. -/
def span_fold (inst : α → Result (Mesh3D α)) : List α → Mesh3D α → Result (Mesh3D α)
  | [], acc => Result.ok acc
  | s :: rest, acc =>
    match inst s with
    | Result.ok m => span_fold inst rest (add_mesh acc m)
    | Result.fail e => Result.fail e
    | Result.div => Result.div

/-- The stations `s_start + k * distance` for `k < n`, in increasing `k`. -/
def stations (s_start distance : α) (n : Nat) : List α :=
  (List.range n).map (fun k : Nat => s_start + (k : α) * distance)

/-- The span of the repeat example: `s0 = 0`, `length = 20`, `distance = 5`,
nothing interpolated. -/
def example_repeat : RoadObjectRepeat α :=
  ⟨some 0, 20, 5, none, none, none, none, none, none, none, none⟩

/-- An object with the single span `example_repeat` on a straight road of
length 100: a box of width 1, length 1, height 2. -/
def example_repeat_object : RoadObject α :=
  { s0 := 0, t0 := 0, z0 := 0, length := 1, width := 1, height := 2, radius := 0,
    hdg := 0, pitch := 0, roll := 0, repeats := [example_repeat],
    road := some (straight_road 100) }

/-- The default-constructed span: `s0` not given, `length = 0`, `distance = 0`. -/
def zero_distance_repeat : RoadObjectRepeat α :=
  ⟨none, 0, 0, none, none, none, none, none, none, none, none⟩

/-- The object with every span of distance 0 taken out of its repeat list. -/
def without_zero_spans (obj : RoadObject α) : RoadObject α :=
  { obj with repeats := obj.repeats.filter (fun rep => decide (rep.distance ≠ 0)) }

/-- Two objects agree on the placement and size members read inside the loops
of `get_mesh`. -/
def same_placement (a b : RoadObject α) : Prop :=
  a.s0 = b.s0 ∧ a.t0 = b.t0 ∧ a.z0 = b.z0 ∧ a.length = b.length ∧ a.width = b.width ∧
    a.height = b.height ∧ a.radius = b.radius

/-- The example box of length 1/2 whose repeat list holds the single span
`zero_distance_repeat`. -/
def zero_span_box_object : RoadObject α :=
  { example_box_object (1 / 2) with repeats := [zero_distance_repeat] }

/-- The example box of length 1/2 with the span `zero_distance_repeat`
followed by the span `example_repeat`. -/
def mixed_span_box_object : RoadObject α :=
  { example_box_object (1 / 2) with repeats := [zero_distance_repeat, example_repeat] }

/-- A span stepping backwards: `s0 = 0`, `length = 20`, `distance = -5`. -/
def negative_distance_repeat : RoadObjectRepeat α :=
  ⟨some 0, 20, -5, none, none, none, none, none, none, none, none⟩

/-- An object with neither radius nor length (`radius = 0`, `length = 0`,
`width = 1`, `height = 2`) carrying the span `negative_distance_repeat`, on a
straight road of length 100. -/
def flat_object_negative_span : RoadObject α :=
  { s0 := 0, t0 := 0, z0 := 0, length := 0, width := 1, height := 2, radius := 0,
    hdg := 0, pitch := 0, roll := 0, repeats := [negative_distance_repeat],
    road := some (straight_road 100) }

/-- The example box of length 1 carrying the span `negative_distance_repeat`. -/
def box_object_negative_span : RoadObject α :=
  { example_box_object 1 with repeats := [negative_distance_repeat] }

/-- A road that agrees with `straight_road` on `[0, length]` and folds every
other station back into that interval. -/
def clamped_road (length : α) : Road α :=
  { length := length, get_xyz := fun s t h => ⟨max (min s length) 0, t, h⟩ }

/-- Index of the bottom vertex pushed for the sampled angle number `i`. -/
def bottom_idx (i : Nat) : Nat := 2 + 2 * i

/-- Index of the top vertex pushed for the sampled angle number `i`. -/
def top_idx (i : Nat) : Nat := 3 + 2 * i

/-- The four triangles of the sector between the sampled angles `i` and
`i + 1`: bottom cap, top cap, and the two halves of the wall quad. -/
def sector_triangles (i : Nat) : List (Nat × Nat × Nat) :=
  [(0, bottom_idx (i + 1), bottom_idx i),
   (1, top_idx i, top_idx (i + 1)),
   (top_idx (i + 1), top_idx i, bottom_idx i),
   (top_idx (i + 1), bottom_idx i, bottom_idx (i + 1))]

/-- The closed triangle with corners `a`, `b`, `c` holds the point `p`: `p`
is a combination of the corners with weights that are not negative and add up
to 1. -/
def in_triangle (a b c p : Vec3D α) : Prop :=
  ∃ u v t : α, 0 ≤ u ∧ 0 ≤ v ∧ 0 ≤ t ∧ u + v + t = 1 ∧
    p.x = u * a.x + v * b.x + t * c.x ∧
    p.y = u * a.y + v * b.y + t * c.y ∧
    p.z = u * a.z + v * b.z + t * c.z

/-- A point of the face `f` of the box: on the plane of the face and inside
the bounds of the box. -/
def on_box_face (w l h : α) (f : BoxFace) (p : Vec3D α) : Prop :=
  on_face w l h f p = true ∧ (-l) / 2 ≤ p.x ∧ p.x ≤ l / 2 ∧ (-w) / 2 ≤ p.y ∧ p.y ≤ w / 2 ∧
    0 ≤ p.z ∧ p.z ≤ h

/-- The outward normal of a face of the box, of length the area of the face. -/
def face_area_normal (w l h : α) (f : BoxFace) : Vec3D α :=
  match f with
  | BoxFace.xPos => ⟨w * h, 0, 0⟩
  | BoxFace.xNeg => ⟨-(w * h), 0, 0⟩
  | BoxFace.yPos => ⟨0, l * h, 0⟩
  | BoxFace.yNeg => ⟨0, -(l * h), 0⟩
  | BoxFace.zBottom => ⟨0, 0, -(l * w)⟩
  | BoxFace.zTop => ⟨0, 0, l * w⟩

/-- The stations visited by the loop
`for (double s = s_start; s <= s_end; s += repeat.distance)`, started at `s`,
when the sum `s + repeat.distance` is rounded by `rnd` to a value of the type
of `s` before it is stored: the control flow of `sample_loop_rnd` on its
own. -/
def stations_loop_rnd (rnd : α → α) (s_end distance : α) : Nat → α → Option (List α)
  | 0, _ => none
  | fuel + 1, s =>
    if s ≤ s_end then
      (stations_loop_rnd rnd s_end distance fuel (rnd (s + distance))).map
        (fun rest => s :: rest)
    else some []

/-- The loop `for (double s = s_start; s <= s_end; s += repeat.distance)`,
started at `s` with the accumulated mesh `acc`, the sum `s + repeat.distance`
being rounded by `rnd` before it is stored in `s`. -/
def sample_loop_rnd (rnd : α → α) (M : Libm α) (cfuel : Nat) (obj : RoadObject α)
    (road_ptr : Road α) (rot_mat : Mat3D α) (eps : α) (rep : RoadObjectRepeat α)
    (s_start s_end : α) : Nat → α → Mesh3D α → Result (Mesh3D α)
  | 0, _, _ => Result.div
  | fuel + 1, s, acc =>
    if s ≤ s_end then
      match instance_mesh M cfuel obj road_ptr rot_mat eps rep s_start s_end s with
      | Result.ok m =>
        sample_loop_rnd rnd M cfuel obj road_ptr rot_mat eps rep s_start s_end fuel
          (rnd (s + rep.distance)) (add_mesh acc m)
      | Result.fail e => Result.fail e
      | Result.div => Result.div
    else Result.ok acc

/-- The local `s_end` of `get_mesh` (line 76), the sum being rounded by
`rnd`. -/
def s_end_rnd (rnd : α → α) (obj : RoadObject α) (road_ptr : Road α)
    (rep : RoadObjectRepeat α) : α :=
  rnd (s_start obj rep + min (obj_len obj rep) road_ptr.length)

/-- The loop `for (const RoadObjectRepeat& repeat : repeats_copy)` over the
rounded loop over `s`. -/
def repeats_loop_rnd (rnd : α → α) (M : Libm α) (fuel : Nat) (obj : RoadObject α)
    (road_ptr : Road α) (rot_mat : Mat3D α) (eps : α) :
    List (RoadObjectRepeat α) → Mesh3D α → Result (Mesh3D α)
  | [], acc => Result.ok acc
  | rep :: rest, acc =>
    if rep.distance ≠ 0 then
      match sample_loop_rnd rnd M fuel obj road_ptr rot_mat eps rep (s_start obj rep)
          (s_end_rnd rnd obj road_ptr rep) fuel (s_start obj rep) acc with
      | Result.ok acc2 => repeats_loop_rnd rnd M fuel obj road_ptr rot_mat eps rest acc2
      | Result.fail e => Result.fail e
      | Result.div => Result.div
    else repeats_loop_rnd rnd M fuel obj road_ptr rot_mat eps rest acc

/-- `RoadObject::get_mesh(eps)` with the sums that drive the loop over `s`
(`s_end` of line 76 and `s += repeat.distance` of line 80) rounded by `rnd`.
With `rnd` the identity this is `get_mesh`. -/
def get_mesh_rnd (rnd : α → α) (M : Libm α) (EulerAnglesToMatrix : α → α → α → Mat3D α)
    (fuel : Nat) (obj : RoadObject α) (eps : α) : Result (Mesh3D α) :=
  match obj.road with
  | none => Result.fail "could not access parent road for road object"
  | some road_ptr =>
    let rot_mat := EulerAnglesToMatrix obj.roll obj.pitch obj.hdg
    repeats_loop_rnd rnd M fuel obj road_ptr rot_mat eps (repeats_copy obj)
      { vertices := [], indices := [] }

/-- The integer nearest to `x`, the even one of the two when `x` lies half way
between two integers. -/
def round_ties_even [FloorRing α] (x : α) : ℤ :=
  if x - ⌊x⌋ < 1 / 2 then ⌊x⌋
  else if 1 / 2 < x - ⌊x⌋ then ⌊x⌋ + 1
  else if ⌊x⌋ % 2 = 0 then ⌊x⌋ else ⌊x⌋ + 1

/-- The value a `double` operation stores for the exact result `q`: the
nearest number with a significand of 53 bits, ties going to the even
significand (the default rounding of IEEE 754 binary64). The range of the
exponent is not bounded: overflow and subnormal numbers are left out. -/
def binary64_round [FloorRing α] (q : α) : α :=
  if q = 0 then 0
  else (round_ties_even (q / (2 : α) ^ (Int.log 2 |q| - 52)) : α)
    * (2 : α) ^ (Int.log 2 |q| - 52)

/-- The span `s0 = 0`, `length = 1`, `distance = 0.1`: the distance is the
`double` nearest to 0.1, which is `3602879701896397 / 2 ^ 55`. -/
def tenth_repeat : RoadObjectRepeat α :=
  ⟨some 0, 1, 3602879701896397 / 36028797018963968, none, none, none, none, none, none, none,
    none⟩

/-- An object with the single span `tenth_repeat` on a straight road of length
100: a box of width 1, length 1, height 2. -/
def tenth_repeat_object : RoadObject α :=
  { s0 := 0, t0 := 0, z0 := 0, length := 1, width := 1, height := 2, radius := 0,
    hdg := 0, pitch := 0, roll := 0, repeats := [tenth_repeat],
    road := some (straight_road 100) }

/-- The eleven values the counter `s` takes on the span `tenth_repeat` in
binary64 arithmetic: 0, 0.1, 0.2, 0.30000000000000004, 0.4, 0.5, 0.6, 0.7,
0.7999999999999999, 0.8999999999999999, 0.9999999999999999. -/
def tenth_stations : List α :=
  [0, 3602879701896397 / 36028797018963968, 3602879701896397 / 18014398509481984,
    1351079888211149 / 4503599627370496, 3602879701896397 / 9007199254740992, 1 / 2,
    5404319552844595 / 9007199254740992, 3152519739159347 / 4503599627370496,
    7205759403792793 / 9007199254740992, 2026619832316723 / 2251799813685248,
    9007199254740991 / 9007199254740992]
end Defs

/-! ## Failure: the dangling road -/

section Fail

variable {α : Type} [LinearOrderedField α]

theorem get_cylinder_ne_fail (M : Libm α) (fuel : Nat) (eps radius height : α) (what : String) :
    get_cylinder M fuel eps radius height ≠ Result.fail what := by
  unfold get_cylinder
  split <;> simp

theorem single_road_obj_mesh_ne_fail (M : Libm α) (fuel : Nat) (obj : RoadObject α)
    (eps width_s height_s : α) (what : String) :
    single_road_obj_mesh M fuel obj eps width_s height_s ≠ Result.fail what := by
  unfold single_road_obj_mesh
  split
  · exact get_cylinder_ne_fail _ _ _ _ _ _
  · split <;> simp

theorem instance_mesh_ne_fail (M : Libm α) (fuel : Nat) (obj : RoadObject α) (road_ptr : Road α)
    (rot_mat : Mat3D α) (eps : α) (rep : RoadObjectRepeat α) (s_start s_end s : α)
    (what : String) :
    instance_mesh M fuel obj road_ptr rot_mat eps rep s_start s_end s ≠ Result.fail what := by
  unfold instance_mesh
  intro h
  dsimp only at h
  split at h
  · simp at h
  · next e he => exact single_road_obj_mesh_ne_fail _ _ _ _ _ _ _ he
  · simp at h

theorem sample_loop_ne_fail (M : Libm α) (cfuel : Nat) (obj : RoadObject α) (road_ptr : Road α)
    (rot_mat : Mat3D α) (eps : α) (rep : RoadObjectRepeat α) (s_start s_end : α) (what : String) :
    ∀ (fuel : Nat) (s : α) (acc : Mesh3D α),
      sample_loop M cfuel obj road_ptr rot_mat eps rep s_start s_end fuel s acc
        ≠ Result.fail what := by
  intro fuel
  induction fuel with
  | zero => intro s acc; simp [sample_loop]
  | succ n ih =>
    intro s acc h
    unfold sample_loop at h
    split at h
    · split at h
      · exact ih _ _ h
      · next e he => exact instance_mesh_ne_fail _ _ _ _ _ _ _ _ _ _ _ he
      · simp at h
    · simp at h

theorem repeats_loop_ne_fail (M : Libm α) (fuel : Nat) (obj : RoadObject α) (road_ptr : Road α)
    (rot_mat : Mat3D α) (eps : α) (what : String) :
    ∀ (reps : List (RoadObjectRepeat α)) (acc : Mesh3D α),
      repeats_loop M fuel obj road_ptr rot_mat eps reps acc ≠ Result.fail what := by
  intro reps
  induction reps with
  | nil => intro acc; simp [repeats_loop]
  | cons rep rest ih =>
    intro acc h
    unfold repeats_loop at h
    split at h
    · split at h
      · exact ih _ h
      · next e he => exact sample_loop_ne_fail _ _ _ _ _ _ _ _ _ _ _ _ _ he
      · simp at h
    · exact ih _ h

/-- C1: `get_mesh` throws the dangling-road `runtime_error` whenever the
weak reference to the road does not resolve, whatever the fuel, the tolerance,
the other fields and the repeat list are, and it throws (this or any other
error) in no other case. -/
theorem get_mesh_fail_iff_road_expired (M : Libm α) (EulerAnglesToMatrix : α → α → α → Mat3D α)
    (fuel : Nat) (obj : RoadObject α) (eps : α) :
    (get_mesh M EulerAnglesToMatrix fuel obj eps
        = Result.fail "could not access parent road for road object" ↔ obj.road = none) ∧
    (∀ what, get_mesh M EulerAnglesToMatrix fuel obj eps = Result.fail what ↔
        (obj.road = none ∧ what = "could not access parent road for road object")) := by
  unfold get_mesh
  cases hr : obj.road with
  | none => simp [eq_comm]
  | some road_ptr =>
    simp only [reduceCtorEq, iff_false, false_and]
    exact ⟨repeats_loop_ne_fail _ _ _ _ _ _ _ _ _, fun what => repeats_loop_ne_fail _ _ _ _ _ _ _ _ _⟩

end Fail

/-! ## The box -/

section Box

variable {α : Type} [LinearOrderedField α]

/-- C3: `get_box w l h` has exactly 8 vertices and 36 indices, every index is
below 8, and the vertices are exactly the eight corners `(±l/2, ±w/2, 0)`,
`(±l/2, ±w/2, h)`, listed in the order of the source. -/
theorem get_box_vertices_indices (w l h : α) :
    (get_box w l h).vertices.length = 8 ∧
    (get_box w l h).indices.length = 36 ∧
    (∀ i ∈ (get_box w l h).indices, i < 8) ∧
    (get_box w l h).vertices =
      [⟨l / 2, w / 2, 0⟩, ⟨-(l / 2), w / 2, 0⟩, ⟨-(l / 2), -(w / 2), 0⟩, ⟨l / 2, -(w / 2), 0⟩,
       ⟨l / 2, w / 2, h⟩, ⟨-(l / 2), w / 2, h⟩, ⟨-(l / 2), -(w / 2), h⟩, ⟨l / 2, -(w / 2), h⟩] ∧
    (∀ v : Vec3D α, v ∈ (get_box w l h).vertices ↔
      (v.x = l / 2 ∨ v.x = -(l / 2)) ∧ (v.y = w / 2 ∨ v.y = -(w / 2)) ∧ (v.z = 0 ∨ v.z = h)) := by
  refine ⟨rfl, rfl, ?_, ?_, ?_⟩
  · intro i hi
    simp [get_box] at hi
    omega
  · simp [get_box, neg_div]
  · intro v
    obtain ⟨x, y, z⟩ := v
    simp only [get_box, List.mem_cons, List.mem_singleton, Vec3D.mk.injEq, neg_div]
    constructor
    · rintro (h | h | h | h | h | h | h | h | h) <;> simp_all
    · rintro ⟨hx | hx, hy | hy, hz | hz⟩ <;> simp [hx, hy, hz]


theorem get_box_triangles (w l h : α) :
    triangles (get_box w l h).indices =
      [(0, 3, 1), (3, 2, 1), (4, 5, 7), (7, 5, 6), (7, 6, 3), (3, 6, 2),
       (5, 4, 1), (1, 4, 0), (0, 4, 7), (7, 3, 0), (1, 6, 5), (1, 2, 6)] := rfl

theorem get_box_vertex (w l h : α) :
    (get_box w l h).vertex 0 = ⟨l / 2, w / 2, 0⟩ ∧
    (get_box w l h).vertex 1 = ⟨(-l) / 2, w / 2, 0⟩ ∧
    (get_box w l h).vertex 2 = ⟨(-l) / 2, (-w) / 2, 0⟩ ∧
    (get_box w l h).vertex 3 = ⟨l / 2, (-w) / 2, 0⟩ ∧
    (get_box w l h).vertex 4 = ⟨l / 2, w / 2, h⟩ ∧
    (get_box w l h).vertex 5 = ⟨(-l) / 2, w / 2, h⟩ ∧
    (get_box w l h).vertex 6 = ⟨(-l) / 2, (-w) / 2, h⟩ ∧
    (get_box w l h).vertex 7 = ⟨l / 2, (-w) / 2, h⟩ :=
  ⟨rfl, rfl, rfl, rfl, rfl, rfl, rfl, rfl⟩

theorem get_box_face_covered_xPos (w l h : α) (hw : 0 < w) (hl : 0 < l) (hh : 0 < h)
    (p : Vec3D α) (hp : on_box_face w l h BoxFace.xPos p) :
    ∃ t ∈ triangles (get_box w l h).indices,
      tri_on_face w l h (get_box w l h) BoxFace.xPos t = true ∧
      in_triangle ((get_box w l h).vertex t.1) ((get_box w l h).vertex t.2.1)
        ((get_box w l h).vertex t.2.2) p := by
  have hmem : ∀ t : Nat × Nat × Nat,
      t ∈ [(0, 3, 1), (3, 2, 1), (4, 5, 7), (7, 5, 6), (7, 6, 3), (3, 6, 2),
        (5, 4, 1), (1, 4, 0), (0, 4, 7), (7, 3, 0), (1, 6, 5), (1, 2, 6)] →
      t ∈ triangles (get_box w l h).indices := by
    intro t ht
    rw [get_box_triangles]
    exact ht
  obtain ⟨v0, v1, v2, v3, v4, v5, v6, v7⟩ := get_box_vertex w l h
  obtain ⟨x, y, z⟩ := p
  obtain ⟨hf, hx1, hx2, hy1, hy2, hz1, hz2⟩ := hp
  simp only at hx1 hx2 hy1 hy2 hz1 hz2
  have hX1 : -(1 / 2) ≤ (x / l) := by
    rw [le_div_iff₀ hl]
    linarith
  have hX2 : (x / l) ≤ 1 / 2 := by
    rw [div_le_iff₀ hl]
    linarith
  have hY1 : -(1 / 2) ≤ (y / w) := by
    rw [le_div_iff₀ hw]
    linarith
  have hY2 : (y / w) ≤ 1 / 2 := by
    rw [div_le_iff₀ hw]
    linarith
  have hZ1 : -(1 / 2) ≤ ((z - h / 2) / h) := by
    rw [le_div_iff₀ hh]
    linarith
  have hZ2 : ((z - h / 2) / h) ≤ 1 / 2 := by
    rw [div_le_iff₀ hh]
    linarith
  have ex : x / l * l = x := div_mul_cancel₀ x hl.ne'
  have ey : y / w * w = y := div_mul_cancel₀ y hw.ne'
  have ez : (z - h / 2) / h * h = z - h / 2 := div_mul_cancel₀ _ hh.ne'
  unfold in_triangle
  simp only [on_face, decide_eq_true_eq] at hf
  by_cases hc : 0 ≤ (y / w) + ((z - h / 2) / h)
  · refine ⟨(0, 4, 7), hmem _ (by decide), ?_,
      1 / 2 - ((z - h / 2) / h), (y / w) + ((z - h / 2) / h), 1 / 2 - (y / w), ?_, ?_, ?_, ?_, ?_, ?_, ?_⟩
    · simp only [tri_on_face, on_face, v0, v4, v7, decide_True, Bool.and_self]
    · linarith
    · linarith
    · linarith
    · ring
    · simp only [v0, v4, v7]
      rw [hf]
      ring1
    · simp only [v0, v4, v7]
      linear_combination -ey
    · simp only [v0, v4, v7]
      linear_combination -ez
  · have hc2 : 0 ≤ -(y / w) + -((z - h / 2) / h) := by
      have := not_le.mp hc
      linarith
    refine ⟨(7, 3, 0), hmem _ (by decide), ?_,
      1 / 2 - -((z - h / 2) / h), -(y / w) + -((z - h / 2) / h), 1 / 2 - -(y / w), ?_, ?_, ?_, ?_, ?_, ?_, ?_⟩
    · simp only [tri_on_face, on_face, v7, v3, v0, decide_True, Bool.and_self]
    · linarith
    · linarith
    · linarith
    · ring
    · simp only [v7, v3, v0]
      rw [hf]
      ring1
    · simp only [v7, v3, v0]
      linear_combination -ey
    · simp only [v7, v3, v0]
      linear_combination -ez

theorem get_box_face_covered_xNeg (w l h : α) (hw : 0 < w) (hl : 0 < l) (hh : 0 < h)
    (p : Vec3D α) (hp : on_box_face w l h BoxFace.xNeg p) :
    ∃ t ∈ triangles (get_box w l h).indices,
      tri_on_face w l h (get_box w l h) BoxFace.xNeg t = true ∧
      in_triangle ((get_box w l h).vertex t.1) ((get_box w l h).vertex t.2.1)
        ((get_box w l h).vertex t.2.2) p := by
  have hmem : ∀ t : Nat × Nat × Nat,
      t ∈ [(0, 3, 1), (3, 2, 1), (4, 5, 7), (7, 5, 6), (7, 6, 3), (3, 6, 2),
        (5, 4, 1), (1, 4, 0), (0, 4, 7), (7, 3, 0), (1, 6, 5), (1, 2, 6)] →
      t ∈ triangles (get_box w l h).indices := by
    intro t ht
    rw [get_box_triangles]
    exact ht
  obtain ⟨v0, v1, v2, v3, v4, v5, v6, v7⟩ := get_box_vertex w l h
  obtain ⟨x, y, z⟩ := p
  obtain ⟨hf, hx1, hx2, hy1, hy2, hz1, hz2⟩ := hp
  simp only at hx1 hx2 hy1 hy2 hz1 hz2
  have hX1 : -(1 / 2) ≤ (x / l) := by
    rw [le_div_iff₀ hl]
    linarith
  have hX2 : (x / l) ≤ 1 / 2 := by
    rw [div_le_iff₀ hl]
    linarith
  have hY1 : -(1 / 2) ≤ (y / w) := by
    rw [le_div_iff₀ hw]
    linarith
  have hY2 : (y / w) ≤ 1 / 2 := by
    rw [div_le_iff₀ hw]
    linarith
  have hZ1 : -(1 / 2) ≤ ((z - h / 2) / h) := by
    rw [le_div_iff₀ hh]
    linarith
  have hZ2 : ((z - h / 2) / h) ≤ 1 / 2 := by
    rw [div_le_iff₀ hh]
    linarith
  have ex : x / l * l = x := div_mul_cancel₀ x hl.ne'
  have ey : y / w * w = y := div_mul_cancel₀ y hw.ne'
  have ez : (z - h / 2) / h * h = z - h / 2 := div_mul_cancel₀ _ hh.ne'
  unfold in_triangle
  simp only [on_face, decide_eq_true_eq] at hf
  by_cases hc : 0 ≤ (y / w) + ((z - h / 2) / h)
  · refine ⟨(1, 6, 5), hmem _ (by decide), ?_,
      1 / 2 - ((z - h / 2) / h), 1 / 2 - (y / w), (y / w) + ((z - h / 2) / h), ?_, ?_, ?_, ?_, ?_, ?_, ?_⟩
    · simp only [tri_on_face, on_face, v1, v6, v5, decide_True, Bool.and_self]
    · linarith
    · linarith
    · linarith
    · ring
    · simp only [v1, v6, v5]
      rw [hf]
      ring1
    · simp only [v1, v6, v5]
      linear_combination -ey
    · simp only [v1, v6, v5]
      linear_combination -ez
  · have hc2 : 0 ≤ -(y / w) + -((z - h / 2) / h) := by
      have := not_le.mp hc
      linarith
    refine ⟨(1, 2, 6), hmem _ (by decide), ?_,
      1 / 2 - -(y / w), -(y / w) + -((z - h / 2) / h), 1 / 2 - -((z - h / 2) / h), ?_, ?_, ?_, ?_, ?_, ?_, ?_⟩
    · simp only [tri_on_face, on_face, v1, v2, v6, decide_True, Bool.and_self]
    · linarith
    · linarith
    · linarith
    · ring
    · simp only [v1, v2, v6]
      rw [hf]
      ring1
    · simp only [v1, v2, v6]
      linear_combination -ey
    · simp only [v1, v2, v6]
      linear_combination -ez

theorem get_box_face_covered_yPos (w l h : α) (hw : 0 < w) (hl : 0 < l) (hh : 0 < h)
    (p : Vec3D α) (hp : on_box_face w l h BoxFace.yPos p) :
    ∃ t ∈ triangles (get_box w l h).indices,
      tri_on_face w l h (get_box w l h) BoxFace.yPos t = true ∧
      in_triangle ((get_box w l h).vertex t.1) ((get_box w l h).vertex t.2.1)
        ((get_box w l h).vertex t.2.2) p := by
  have hmem : ∀ t : Nat × Nat × Nat,
      t ∈ [(0, 3, 1), (3, 2, 1), (4, 5, 7), (7, 5, 6), (7, 6, 3), (3, 6, 2),
        (5, 4, 1), (1, 4, 0), (0, 4, 7), (7, 3, 0), (1, 6, 5), (1, 2, 6)] →
      t ∈ triangles (get_box w l h).indices := by
    intro t ht
    rw [get_box_triangles]
    exact ht
  obtain ⟨v0, v1, v2, v3, v4, v5, v6, v7⟩ := get_box_vertex w l h
  obtain ⟨x, y, z⟩ := p
  obtain ⟨hf, hx1, hx2, hy1, hy2, hz1, hz2⟩ := hp
  simp only at hx1 hx2 hy1 hy2 hz1 hz2
  have hX1 : -(1 / 2) ≤ (x / l) := by
    rw [le_div_iff₀ hl]
    linarith
  have hX2 : (x / l) ≤ 1 / 2 := by
    rw [div_le_iff₀ hl]
    linarith
  have hY1 : -(1 / 2) ≤ (y / w) := by
    rw [le_div_iff₀ hw]
    linarith
  have hY2 : (y / w) ≤ 1 / 2 := by
    rw [div_le_iff₀ hw]
    linarith
  have hZ1 : -(1 / 2) ≤ ((z - h / 2) / h) := by
    rw [le_div_iff₀ hh]
    linarith
  have hZ2 : ((z - h / 2) / h) ≤ 1 / 2 := by
    rw [div_le_iff₀ hh]
    linarith
  have ex : x / l * l = x := div_mul_cancel₀ x hl.ne'
  have ey : y / w * w = y := div_mul_cancel₀ y hw.ne'
  have ez : (z - h / 2) / h * h = z - h / 2 := div_mul_cancel₀ _ hh.ne'
  unfold in_triangle
  simp only [on_face, decide_eq_true_eq] at hf
  by_cases hc : 0 ≤ -(x / l) + ((z - h / 2) / h)
  · refine ⟨(5, 4, 1), hmem _ (by decide), ?_,
      -(x / l) + ((z - h / 2) / h), 1 / 2 - -(x / l), 1 / 2 - ((z - h / 2) / h), ?_, ?_, ?_, ?_, ?_, ?_, ?_⟩
    · simp only [tri_on_face, on_face, v5, v4, v1, decide_True, Bool.and_self]
    · linarith
    · linarith
    · linarith
    · ring
    · simp only [v5, v4, v1]
      linear_combination -ex
    · simp only [v5, v4, v1]
      rw [hf]
      ring1
    · simp only [v5, v4, v1]
      linear_combination -ez
  · have hc2 : 0 ≤ (x / l) + -((z - h / 2) / h) := by
      have := not_le.mp hc
      linarith
    refine ⟨(1, 4, 0), hmem _ (by decide), ?_,
      1 / 2 - (x / l), 1 / 2 - -((z - h / 2) / h), (x / l) + -((z - h / 2) / h), ?_, ?_, ?_, ?_, ?_, ?_, ?_⟩
    · simp only [tri_on_face, on_face, v1, v4, v0, decide_True, Bool.and_self]
    · linarith
    · linarith
    · linarith
    · ring
    · simp only [v1, v4, v0]
      linear_combination -ex
    · simp only [v1, v4, v0]
      rw [hf]
      ring1
    · simp only [v1, v4, v0]
      linear_combination -ez

theorem get_box_face_covered_yNeg (w l h : α) (hw : 0 < w) (hl : 0 < l) (hh : 0 < h)
    (p : Vec3D α) (hp : on_box_face w l h BoxFace.yNeg p) :
    ∃ t ∈ triangles (get_box w l h).indices,
      tri_on_face w l h (get_box w l h) BoxFace.yNeg t = true ∧
      in_triangle ((get_box w l h).vertex t.1) ((get_box w l h).vertex t.2.1)
        ((get_box w l h).vertex t.2.2) p := by
  have hmem : ∀ t : Nat × Nat × Nat,
      t ∈ [(0, 3, 1), (3, 2, 1), (4, 5, 7), (7, 5, 6), (7, 6, 3), (3, 6, 2),
        (5, 4, 1), (1, 4, 0), (0, 4, 7), (7, 3, 0), (1, 6, 5), (1, 2, 6)] →
      t ∈ triangles (get_box w l h).indices := by
    intro t ht
    rw [get_box_triangles]
    exact ht
  obtain ⟨v0, v1, v2, v3, v4, v5, v6, v7⟩ := get_box_vertex w l h
  obtain ⟨x, y, z⟩ := p
  obtain ⟨hf, hx1, hx2, hy1, hy2, hz1, hz2⟩ := hp
  simp only at hx1 hx2 hy1 hy2 hz1 hz2
  have hX1 : -(1 / 2) ≤ (x / l) := by
    rw [le_div_iff₀ hl]
    linarith
  have hX2 : (x / l) ≤ 1 / 2 := by
    rw [div_le_iff₀ hl]
    linarith
  have hY1 : -(1 / 2) ≤ (y / w) := by
    rw [le_div_iff₀ hw]
    linarith
  have hY2 : (y / w) ≤ 1 / 2 := by
    rw [div_le_iff₀ hw]
    linarith
  have hZ1 : -(1 / 2) ≤ ((z - h / 2) / h) := by
    rw [le_div_iff₀ hh]
    linarith
  have hZ2 : ((z - h / 2) / h) ≤ 1 / 2 := by
    rw [div_le_iff₀ hh]
    linarith
  have ex : x / l * l = x := div_mul_cancel₀ x hl.ne'
  have ey : y / w * w = y := div_mul_cancel₀ y hw.ne'
  have ez : (z - h / 2) / h * h = z - h / 2 := div_mul_cancel₀ _ hh.ne'
  unfold in_triangle
  simp only [on_face, decide_eq_true_eq] at hf
  by_cases hc : 0 ≤ (x / l) + ((z - h / 2) / h)
  · refine ⟨(7, 6, 3), hmem _ (by decide), ?_,
      (x / l) + ((z - h / 2) / h), 1 / 2 - (x / l), 1 / 2 - ((z - h / 2) / h), ?_, ?_, ?_, ?_, ?_, ?_, ?_⟩
    · simp only [tri_on_face, on_face, v7, v6, v3, decide_True, Bool.and_self]
    · linarith
    · linarith
    · linarith
    · ring
    · simp only [v7, v6, v3]
      linear_combination -ex
    · simp only [v7, v6, v3]
      rw [hf]
      ring1
    · simp only [v7, v6, v3]
      linear_combination -ez
  · have hc2 : 0 ≤ -(x / l) + -((z - h / 2) / h) := by
      have := not_le.mp hc
      linarith
    refine ⟨(3, 6, 2), hmem _ (by decide), ?_,
      1 / 2 - -(x / l), 1 / 2 - -((z - h / 2) / h), -(x / l) + -((z - h / 2) / h), ?_, ?_, ?_, ?_, ?_, ?_, ?_⟩
    · simp only [tri_on_face, on_face, v3, v6, v2, decide_True, Bool.and_self]
    · linarith
    · linarith
    · linarith
    · ring
    · simp only [v3, v6, v2]
      linear_combination -ex
    · simp only [v3, v6, v2]
      rw [hf]
      ring1
    · simp only [v3, v6, v2]
      linear_combination -ez

theorem get_box_face_covered_zBottom (w l h : α) (hw : 0 < w) (hl : 0 < l) (hh : 0 < h)
    (p : Vec3D α) (hp : on_box_face w l h BoxFace.zBottom p) :
    ∃ t ∈ triangles (get_box w l h).indices,
      tri_on_face w l h (get_box w l h) BoxFace.zBottom t = true ∧
      in_triangle ((get_box w l h).vertex t.1) ((get_box w l h).vertex t.2.1)
        ((get_box w l h).vertex t.2.2) p := by
  have hmem : ∀ t : Nat × Nat × Nat,
      t ∈ [(0, 3, 1), (3, 2, 1), (4, 5, 7), (7, 5, 6), (7, 6, 3), (3, 6, 2),
        (5, 4, 1), (1, 4, 0), (0, 4, 7), (7, 3, 0), (1, 6, 5), (1, 2, 6)] →
      t ∈ triangles (get_box w l h).indices := by
    intro t ht
    rw [get_box_triangles]
    exact ht
  obtain ⟨v0, v1, v2, v3, v4, v5, v6, v7⟩ := get_box_vertex w l h
  obtain ⟨x, y, z⟩ := p
  obtain ⟨hf, hx1, hx2, hy1, hy2, hz1, hz2⟩ := hp
  simp only at hx1 hx2 hy1 hy2 hz1 hz2
  have hX1 : -(1 / 2) ≤ (x / l) := by
    rw [le_div_iff₀ hl]
    linarith
  have hX2 : (x / l) ≤ 1 / 2 := by
    rw [div_le_iff₀ hl]
    linarith
  have hY1 : -(1 / 2) ≤ (y / w) := by
    rw [le_div_iff₀ hw]
    linarith
  have hY2 : (y / w) ≤ 1 / 2 := by
    rw [div_le_iff₀ hw]
    linarith
  have hZ1 : -(1 / 2) ≤ ((z - h / 2) / h) := by
    rw [le_div_iff₀ hh]
    linarith
  have hZ2 : ((z - h / 2) / h) ≤ 1 / 2 := by
    rw [div_le_iff₀ hh]
    linarith
  have ex : x / l * l = x := div_mul_cancel₀ x hl.ne'
  have ey : y / w * w = y := div_mul_cancel₀ y hw.ne'
  have ez : (z - h / 2) / h * h = z - h / 2 := div_mul_cancel₀ _ hh.ne'
  unfold in_triangle
  simp only [on_face, decide_eq_true_eq] at hf
  by_cases hc : 0 ≤ (x / l) + (y / w)
  · refine ⟨(0, 3, 1), hmem _ (by decide), ?_,
      (x / l) + (y / w), 1 / 2 - (y / w), 1 / 2 - (x / l), ?_, ?_, ?_, ?_, ?_, ?_, ?_⟩
    · simp only [tri_on_face, on_face, v0, v3, v1, decide_True, Bool.and_self]
    · linarith
    · linarith
    · linarith
    · ring
    · simp only [v0, v3, v1]
      linear_combination -ex
    · simp only [v0, v3, v1]
      linear_combination -ey
    · simp only [v0, v3, v1]
      rw [hf]
      ring1
  · have hc2 : 0 ≤ -(x / l) + -(y / w) := by
      have := not_le.mp hc
      linarith
    refine ⟨(3, 2, 1), hmem _ (by decide), ?_,
      1 / 2 - -(x / l), -(x / l) + -(y / w), 1 / 2 - -(y / w), ?_, ?_, ?_, ?_, ?_, ?_, ?_⟩
    · simp only [tri_on_face, on_face, v3, v2, v1, decide_True, Bool.and_self]
    · linarith
    · linarith
    · linarith
    · ring
    · simp only [v3, v2, v1]
      linear_combination -ex
    · simp only [v3, v2, v1]
      linear_combination -ey
    · simp only [v3, v2, v1]
      rw [hf]
      ring1

theorem get_box_face_covered_zTop (w l h : α) (hw : 0 < w) (hl : 0 < l) (hh : 0 < h)
    (p : Vec3D α) (hp : on_box_face w l h BoxFace.zTop p) :
    ∃ t ∈ triangles (get_box w l h).indices,
      tri_on_face w l h (get_box w l h) BoxFace.zTop t = true ∧
      in_triangle ((get_box w l h).vertex t.1) ((get_box w l h).vertex t.2.1)
        ((get_box w l h).vertex t.2.2) p := by
  have hmem : ∀ t : Nat × Nat × Nat,
      t ∈ [(0, 3, 1), (3, 2, 1), (4, 5, 7), (7, 5, 6), (7, 6, 3), (3, 6, 2),
        (5, 4, 1), (1, 4, 0), (0, 4, 7), (7, 3, 0), (1, 6, 5), (1, 2, 6)] →
      t ∈ triangles (get_box w l h).indices := by
    intro t ht
    rw [get_box_triangles]
    exact ht
  obtain ⟨v0, v1, v2, v3, v4, v5, v6, v7⟩ := get_box_vertex w l h
  obtain ⟨x, y, z⟩ := p
  obtain ⟨hf, hx1, hx2, hy1, hy2, hz1, hz2⟩ := hp
  simp only at hx1 hx2 hy1 hy2 hz1 hz2
  have hX1 : -(1 / 2) ≤ (x / l) := by
    rw [le_div_iff₀ hl]
    linarith
  have hX2 : (x / l) ≤ 1 / 2 := by
    rw [div_le_iff₀ hl]
    linarith
  have hY1 : -(1 / 2) ≤ (y / w) := by
    rw [le_div_iff₀ hw]
    linarith
  have hY2 : (y / w) ≤ 1 / 2 := by
    rw [div_le_iff₀ hw]
    linarith
  have hZ1 : -(1 / 2) ≤ ((z - h / 2) / h) := by
    rw [le_div_iff₀ hh]
    linarith
  have hZ2 : ((z - h / 2) / h) ≤ 1 / 2 := by
    rw [div_le_iff₀ hh]
    linarith
  have ex : x / l * l = x := div_mul_cancel₀ x hl.ne'
  have ey : y / w * w = y := div_mul_cancel₀ y hw.ne'
  have ez : (z - h / 2) / h * h = z - h / 2 := div_mul_cancel₀ _ hh.ne'
  unfold in_triangle
  simp only [on_face, decide_eq_true_eq] at hf
  by_cases hc : 0 ≤ (x / l) + (y / w)
  · refine ⟨(4, 5, 7), hmem _ (by decide), ?_,
      (x / l) + (y / w), 1 / 2 - (x / l), 1 / 2 - (y / w), ?_, ?_, ?_, ?_, ?_, ?_, ?_⟩
    · simp only [tri_on_face, on_face, v4, v5, v7, decide_True, Bool.and_self]
    · linarith
    · linarith
    · linarith
    · ring
    · simp only [v4, v5, v7]
      linear_combination -ex
    · simp only [v4, v5, v7]
      linear_combination -ey
    · simp only [v4, v5, v7]
      rw [hf]
      ring1
  · have hc2 : 0 ≤ -(x / l) + -(y / w) := by
      have := not_le.mp hc
      linarith
    refine ⟨(7, 5, 6), hmem _ (by decide), ?_,
      1 / 2 - -(x / l), 1 / 2 - -(y / w), -(x / l) + -(y / w), ?_, ?_, ?_, ?_, ?_, ?_, ?_⟩
    · simp only [tri_on_face, on_face, v7, v5, v6, decide_True, Bool.and_self]
    · linarith
    · linarith
    · linarith
    · ring
    · simp only [v7, v5, v6]
      linear_combination -ex
    · simp only [v7, v5, v6]
      linear_combination -ey
    · simp only [v7, v5, v6]
      rw [hf]
      ring1

/-- Every point of a face of the box lies in one of the two triangles of
that face. -/
theorem get_box_faces_covered (w l h : α) (hw : 0 < w) (hl : 0 < l) (hh : 0 < h) (f : BoxFace)
    (p : Vec3D α) (hp : on_box_face w l h f p) :
    ∃ t ∈ triangles (get_box w l h).indices,
      tri_on_face w l h (get_box w l h) f t = true ∧
      in_triangle ((get_box w l h).vertex t.1) ((get_box w l h).vertex t.2.1)
        ((get_box w l h).vertex t.2.2) p := by
  cases f with
  | xPos => exact get_box_face_covered_xPos w l h hw hl hh p hp
  | xNeg => exact get_box_face_covered_xNeg w l h hw hl hh p hp
  | yPos => exact get_box_face_covered_yPos w l h hw hl hh p hp
  | yNeg => exact get_box_face_covered_yNeg w l h hw hl hh p hp
  | zBottom => exact get_box_face_covered_zBottom w l h hw hl hh p hp
  | zTop => exact get_box_face_covered_zTop w l h hw hl hh p hp

/-- Every triangle of `get_box` that lies on the plane of a face has the
normal `(v1 - v0) × (v2 - v0)` equal to the outward normal of that face scaled
to the area of the face, so the triangle has half the area of its face. -/
theorem get_box_face_normals (w l h : α) (hw : 0 < w) (hl : 0 < l) (hh : 0 < h)
    (f : BoxFace) (t : Nat × Nat × Nat) (ht : t ∈ triangles (get_box w l h).indices)
    (hon : tri_on_face w l h (get_box w l h) f t = true) :
    (get_box w l h).normal t = face_area_normal w l h f := by
  have hl1 : (-l) / 2 ≠ l / 2 := by
    intro e; linarith
  have hl2 : l / 2 ≠ (-l) / 2 := fun e => hl1 e.symm
  have hw1 : (-w) / 2 ≠ w / 2 := by
    intro e; linarith
  have hw2 : w / 2 ≠ (-w) / 2 := fun e => hw1 e.symm
  have hh1 : h ≠ 0 := ne_of_gt hh
  have hh2 : (0 : α) ≠ h := ne_of_lt hh
  obtain ⟨v0, v1, v2, v3, v4, v5, v6, v7⟩ := get_box_vertex w l h
  rw [get_box_triangles] at ht
  simp only [List.mem_cons, List.mem_singleton, List.not_mem_nil, or_false] at ht
  rcases ht with e | e | e | e | e | e | e | e | e | e | e | e <;> subst e <;> cases f <;>
    first
    | (exfalso
       simp only [tri_on_face, on_face, v0, v1, v2, v3, v4, v5, v6, v7, hl1, hl2,
         hw1, hw2, hh1, hh2, decide_True, decide_False, Bool.and_true, Bool.and_false,
         Bool.true_and, Bool.false_and, Bool.and_self, Bool.false_eq_true] at hon
       done)
    | (simp only [Mesh3D.normal, face_area_normal, v0, v1, v2, v3, v4, v5, v6, v7, cross, sub,
         Vec3D.mk.injEq]
       refine ⟨?_, ?_, ?_⟩ <;> ring)

/-- C4: for positive `w`, `l`, `h` the index list of `get_box` makes 12
triangles; each of the six face planes carries exactly two of them; the
normal `(v1 - v0) × (v2 - v0)` of every triangle points away from the centre
`(0, 0, h/2)`, seen from each of its three vertices; the normal of a triangle
on a face is the outward normal of that face scaled to the area of the face,
so each of the two triangles has half the area of its face; and every point of
every face of the box lies in one of the triangles on that face, so the
triangles leave no part of a face open. -/
theorem get_box_faces_winding (w l h : α) (hw : 0 < w) (hl : 0 < l) (hh : 0 < h) :
    (triangles (get_box w l h).indices).length = 12 ∧
    (∀ f : BoxFace,
      ((triangles (get_box w l h).indices).filter
        (tri_on_face w l h (get_box w l h) f)).length = 2) ∧
    (∀ t ∈ triangles (get_box w l h).indices,
      0 < dot ((get_box w l h).normal t) (sub ((get_box w l h).vertex t.1) ⟨0, 0, h / 2⟩) ∧
      0 < dot ((get_box w l h).normal t) (sub ((get_box w l h).vertex t.2.1) ⟨0, 0, h / 2⟩) ∧
      0 < dot ((get_box w l h).normal t) (sub ((get_box w l h).vertex t.2.2) ⟨0, 0, h / 2⟩)) ∧
    (∀ f : BoxFace, ∀ t ∈ triangles (get_box w l h).indices,
      tri_on_face w l h (get_box w l h) f t = true →
        (get_box w l h).normal t = face_area_normal w l h f) ∧
    (∀ (f : BoxFace) (p : Vec3D α), on_box_face w l h f p →
      ∃ t ∈ triangles (get_box w l h).indices,
        tri_on_face w l h (get_box w l h) f t = true ∧
        in_triangle ((get_box w l h).vertex t.1) ((get_box w l h).vertex t.2.1)
          ((get_box w l h).vertex t.2.2) p) := by
  have hl1 : (-l) / 2 ≠ l / 2 := by
    intro e; linarith
  have hl2 : l / 2 ≠ (-l) / 2 := fun e => hl1 e.symm
  have hw1 : (-w) / 2 ≠ w / 2 := by
    intro e; linarith
  have hw2 : w / 2 ≠ (-w) / 2 := fun e => hw1 e.symm
  have hh1 : h ≠ 0 := ne_of_gt hh
  have hh2 : (0 : α) ≠ h := ne_of_lt hh
  obtain ⟨v0, v1, v2, v3, v4, v5, v6, v7⟩ := get_box_vertex w l h
  refine ⟨rfl, ?_, ?_, ?_, ?_⟩
  · intro f
    rw [get_box_triangles]
    cases f <;>
      simp only [List.filter, tri_on_face, on_face, v0, v1, v2, v3, v4, v5, v6, v7, hl1, hl2,
        hw1, hw2, hh1, hh2, decide_True, decide_False, Bool.and_true, Bool.and_false,
        Bool.true_and, Bool.false_and, List.length_cons, List.length_nil, Bool.and_self]
  · intro t ht
    have hwl : 0 < w * l := mul_pos hw hl
    have hwh : 0 < w * h := mul_pos hw hh
    have hlh : 0 < l * h := mul_pos hl hh
    rw [get_box_triangles] at ht
    simp only [List.mem_cons, List.mem_singleton, List.not_mem_nil, or_false] at ht
    rcases ht with h | h | h | h | h | h | h | h | h | h | h | h <;> subst h <;>
      simp only [Mesh3D.normal, v0, v1, v2, v3, v4, v5, v6, v7, cross, sub, dot] <;>
      refine ⟨?_, ?_, ?_⟩ <;> ring_nf <;> positivity
  · intro f t ht hon
    exact get_box_face_normals w l h hw hl hh f t ht hon
  · intro f p hp
    exact get_box_faces_covered w l h hw hl hh f p hp

/-- Witness of C4: width 2, length 4, height 3. -/
theorem get_box_faces_winding_witness :
    (0 : ℚ) < 2 ∧ (0 : ℚ) < 4 ∧ (0 : ℚ) < 3 ∧
    (triangles (get_box (2 : ℚ) 4 3).indices).length = 12 ∧
    (∀ f : BoxFace,
      ((triangles (get_box (2 : ℚ) 4 3).indices).filter
        (tri_on_face (2 : ℚ) 4 3 (get_box (2 : ℚ) 4 3) f)).length = 2) ∧
    (∀ t ∈ triangles (get_box (2 : ℚ) 4 3).indices,
      0 < dot ((get_box (2 : ℚ) 4 3).normal t) (sub ((get_box (2 : ℚ) 4 3).vertex t.1) ⟨0, 0, (3 : ℚ) / 2⟩) ∧
      0 < dot ((get_box (2 : ℚ) 4 3).normal t) (sub ((get_box (2 : ℚ) 4 3).vertex t.2.1) ⟨0, 0, (3 : ℚ) / 2⟩) ∧
      0 < dot ((get_box (2 : ℚ) 4 3).normal t) (sub ((get_box (2 : ℚ) 4 3).vertex t.2.2) ⟨0, 0, (3 : ℚ) / 2⟩)) ∧
    (∀ f : BoxFace, ∀ t ∈ triangles (get_box (2 : ℚ) 4 3).indices,
      tri_on_face (2 : ℚ) 4 3 (get_box (2 : ℚ) 4 3) f t = true →
        (get_box (2 : ℚ) 4 3).normal t = face_area_normal (2 : ℚ) 4 3 f) ∧
    (∀ (f : BoxFace) (p : Vec3D ℚ), on_box_face (2 : ℚ) 4 3 f p →
      ∃ t ∈ triangles (get_box (2 : ℚ) 4 3).indices,
        tri_on_face (2 : ℚ) 4 3 (get_box (2 : ℚ) 4 3) f t = true ∧
        in_triangle ((get_box (2 : ℚ) 4 3).vertex t.1) ((get_box (2 : ℚ) 4 3).vertex t.2.1)
          ((get_box (2 : ℚ) 4 3).vertex t.2.2) p) :=
  ⟨by norm_num, by norm_num, by norm_num,
    get_box_faces_winding 2 4 3 (by norm_num) (by norm_num) (by norm_num)⟩

end Box

/-! ## The cylinder: index structure -/

section Cylinder

variable {α : Type} [LinearOrderedField α]

theorem length_flatMap_circle_pts (M : Libm α) (radius height : α) (as : List α) :
    (as.flatMap (circle_pts M radius height)).length = 2 * as.length := by
  induction as with
  | nil => rfl
  | cons a rest ih =>
    simp only [List.flatMap_cons, List.length_append, ih, List.length_cons]
    simp [circle_pts]
    omega

theorem cylinder_of_angles_length (M : Libm α) (radius height : α) (as : List α) :
    (cylinder_of_angles M radius height as).vertices.length = 2 + 2 * as.length := by
  simp only [cylinder_of_angles, List.length_append, length_flatMap_circle_pts,
    List.length_cons, List.length_nil]

/-- Folding `cylinder_step` over the sampled angles gives the closed form. -/
theorem foldl_cylinder_step (M : Libm α) (radius height : α) (as : List α) :
    as.foldl (cylinder_step M radius height)
        { vertices := [⟨0, 0, 0⟩, ⟨0, 0, height⟩], indices := [] }
      = cylinder_of_angles M radius height as := by
  induction as using List.reverseRecOn with
  | nil => rfl
  | append_singleton as a ih =>
    rw [List.foldl_append, ih]
    have hlen := cylinder_of_angles_length M radius height as
    simp only [List.foldl_cons, List.foldl_nil, cylinder_step]
    have hl2 : ((cylinder_of_angles M radius height as).vertices ++
        [(⟨radius * M.cos a, radius * M.sin a, 0⟩ : Vec3D α)] ++
        [(⟨radius * M.cos a, radius * M.sin a, height⟩ : Vec3D α)]).length
        = 2 * as.length + 4 := by
      simp only [List.length_append, hlen, List.length_singleton]
      omega
    rw [hl2]
    rcases Nat.eq_zero_or_pos as.length with h0 | hpos
    · have : as = [] := List.length_eq_zero.mp h0
      subst this
      simp [cylinder_of_angles, circle_pts]
    · have hgt : 2 * as.length + 4 > 5 := by omega
      rw [if_pos hgt]
      obtain ⟨k, hk⟩ : ∃ k, as.length = k + 1 := ⟨as.length - 1, by omega⟩
      simp only [cylinder_of_angles, List.length_append, List.length_singleton, hk,
        Nat.add_sub_cancel, List.range_succ, List.flatMap_append, List.flatMap_cons,
        List.flatMap_nil, List.append_nil, circle_pts, List.append_assoc, List.cons_append,
        List.nil_append, Mesh3D.mk.injEq, true_and]
      have : 2 * (k + 1) + 4 - 1 = 2 * k + 5 := by omega
      rw [this]

/-- `get_cylinder` returns exactly when the angle loop ends, and then it
returns the closed form built on the sampled angles. -/
theorem get_cylinder_eq_ok_iff (M : Libm α) (fuel : Nat) (eps radius height : α) (m : Mesh3D α) :
    get_cylinder M fuel eps radius height = Result.ok m ↔
      ∃ as, angles M fuel eps radius = some as ∧ m = cylinder_of_angles M radius height as := by
  unfold get_cylinder
  cases h : angles M fuel eps radius with
  | none => simp
  | some as => simp [foldl_cylinder_step, eq_comm]

theorem mem_cylinder_patch_lt (c n : Nat) (h1 : 1 ≤ c) (hc : c < n) :
    ∀ i ∈ cylinder_patch c, i < n := by
  intro i hi
  simp [cylinder_patch] at hi
  omega

theorem cylinder_of_angles_indices_length (M : Libm α) (radius height : α) (as : List α) :
    (cylinder_of_angles M radius height as).indices.length = 12 * (as.length - 1) := by
  simp only [cylinder_of_angles]
  generalize as.length - 1 = n
  induction n with
  | zero => rfl
  | succ n ih =>
    rw [List.range_succ, List.flatMap_append, List.length_append, ih]
    simp [cylinder_patch]
    omega

theorem cylinder_of_angles_wellFormed (M : Libm α) (radius height : α) (as : List α) :
    (cylinder_of_angles M radius height as).WellFormed := by
  refine ⟨?_, ?_⟩
  · rw [cylinder_of_angles_indices_length]
    exact ⟨4 * (as.length - 1), by ring⟩
  · intro i hi
    rw [cylinder_of_angles_length]
    simp only [cylinder_of_angles, List.mem_flatMap, List.mem_range] at hi
    obtain ⟨j, hj, hij⟩ := hi
    exact mem_cylinder_patch_lt (2 * j + 5) _ (by omega) (by omega) i hij

theorem triangles_append_patch (l : List Nat) (c : Nat) :
    ∀ (n : Nat), l.length = 3 * n →
      triangles (l ++ cylinder_patch c) = triangles l ++ triangles (cylinder_patch c) := by
  intro n
  induction n generalizing l with
  | zero =>
    intro h
    have : l = [] := List.length_eq_zero.mp (by omega)
    subst this
    simp [triangles]
  | succ n ih =>
    intro h
    match l, h with
    | a :: b :: c' :: rest, h =>
      have hr : rest.length = 3 * n := by
        simp only [List.length_cons] at h
        omega
      have hih := ih rest hr
      show (a, b, c') :: triangles (rest ++ cylinder_patch c)
        = (a, b, c') :: (triangles rest ++ triangles (cylinder_patch c))
      rw [hih]

theorem triangles_flatMap_patch (cs : List Nat) :
    triangles (cs.flatMap cylinder_patch) = cs.flatMap (fun c => triangles (cylinder_patch c)) := by
  induction cs using List.reverseRecOn with
  | nil => rfl
  | append_singleton cs c ih =>
    have hlen : (cs.flatMap cylinder_patch).length = 3 * (4 * cs.length) := by
      clear ih
      induction cs with
      | nil => rfl
      | cons a rest ih2 =>
        simp only [List.flatMap_cons, List.length_append, ih2, List.length_cons]
        simp [cylinder_patch]
        omega
    simp only [List.flatMap_append, List.flatMap_cons, List.flatMap_nil, List.append_nil]
    rw [triangles_append_patch _ _ _ hlen, ih]

/-- Of the four triangles of a patch emitted with an odd `cur_idx ≥ 5`, the
two that lie on a cap contain the pole of that cap. -/
theorem cap_triangle_of_patch (j : Nat) (t : Nat × Nat × Nat)
    (ht : t ∈ triangles (cylinder_patch (2 * j + 5))) (hcap : is_cap_triangle t) :
    t.1 = 0 ∨ t.1 = 1 := by
  simp only [cylinder_patch, List.cons_append, List.nil_append, triangles, List.mem_cons,
    List.mem_singleton, List.not_mem_nil, or_false] at ht
  unfold is_cap_triangle at hcap
  rcases ht with h | h | h | h <;> subst h <;> simp at hcap ⊢ <;> omega

theorem circle_pts_z (M : Libm α) (radius height : α) :
    ∀ (as : List α) (i : Nat) (v : Vec3D α),
      (as.flatMap (circle_pts M radius height))[i]? = some v →
      v.z = if i % 2 = 0 then 0 else height := by
  intro as
  induction as with
  | nil => intro i v h; simp at h
  | cons a rest ih =>
    intro i v h
    match i with
    | 0 =>
      simp [circle_pts] at h
      simp [← h]
    | 1 =>
      simp [circle_pts] at h
      simp [← h]
    | j + 2 =>
      have hj : (rest.flatMap (circle_pts M radius height))[j]? = some v := by
        simpa [circle_pts] using h
      have := ih j v hj
      rw [this]
      have hmod : (j + 2) % 2 = j % 2 := by omega
      rw [hmod]

/-- The structure of the mesh built on a list of sampled angles: the poles
come first, the indices are triples that point at vertices, every patch was
emitted with a `cur_idx` between 5 and the last vertex index (so that
`cur_idx - 3` is a true difference), a triangle lying on a cap starts with the
pole of that cap, and the vertices of even index lie in the plane `z = 0`,
those of odd index in the plane `z = height`. -/
theorem cylinder_of_angles_structure (M : Libm α) (radius height : α) (as : List α) :
    (cylinder_of_angles M radius height as).vertices[0]? = some ⟨0, 0, 0⟩ ∧
    (cylinder_of_angles M radius height as).vertices[1]? = some ⟨0, 0, height⟩ ∧
    3 ∣ (cylinder_of_angles M radius height as).indices.length ∧
    (∀ i ∈ (cylinder_of_angles M radius height as).indices,
      i < (cylinder_of_angles M radius height as).vertices.length) ∧
    (∃ cs : List Nat,
      (cylinder_of_angles M radius height as).indices = cs.flatMap cylinder_patch ∧
      ∀ c ∈ cs, 5 ≤ c ∧ c < (cylinder_of_angles M radius height as).vertices.length) ∧
    (∀ t ∈ triangles (cylinder_of_angles M radius height as).indices,
      is_cap_triangle t → t.1 = 0 ∨ t.1 = 1) ∧
    (∀ (i : Nat) (v : Vec3D α), (cylinder_of_angles M radius height as).vertices[i]? = some v →
      v.z = if i % 2 = 0 then 0 else height) := by
  have hwf := cylinder_of_angles_wellFormed M radius height as
  have hidx : (cylinder_of_angles M radius height as).indices
      = ((List.range (as.length - 1)).map (fun j => 2 * j + 5)).flatMap cylinder_patch := by
    simp [cylinder_of_angles, List.flatMap_map]
  refine ⟨by simp [cylinder_of_angles], by simp [cylinder_of_angles], hwf.1, hwf.2,
    ⟨_, hidx, ?_⟩, ?_, ?_⟩
  · intro c hc
    rw [cylinder_of_angles_length]
    simp only [List.mem_map, List.mem_range] at hc
    obtain ⟨j, hj, rfl⟩ := hc
    omega
  · intro t ht hcap
    rw [hidx, triangles_flatMap_patch] at ht
    simp only [List.mem_flatMap, List.mem_map, List.mem_range] at ht
    obtain ⟨c, ⟨j, _, rfl⟩, htc⟩ := ht
    exact cap_triangle_of_patch j t htc hcap
  · intro i v h
    match i with
    | 0 =>
      simp [cylinder_of_angles] at h
      simp [← h]
    | 1 =>
      simp [cylinder_of_angles] at h
      simp [← h]
    | j + 2 =>
      have hj : (as.flatMap (circle_pts M radius height))[j]? = some v := by
        simpa [cylinder_of_angles] using h
      rw [circle_pts_z M radius height as j v hj]
      have hmod : (j + 2) % 2 = j % 2 := by omega
      rw [hmod]

end Cylinder

/-! ## Well-formedness of the merged mesh -/

section WellFormed

variable {α : Type} [LinearOrderedField α]

theorem wellFormed_empty : (⟨[], []⟩ : Mesh3D α).WellFormed :=
  ⟨⟨0, rfl⟩, fun i hi => absurd hi (List.not_mem_nil i)⟩

theorem get_box_wellFormed (w l h : α) : (get_box w l h).WellFormed := by
  refine ⟨⟨12, rfl⟩, ?_⟩
  intro i hi
  simp [get_box] at hi ⊢
  omega

theorem add_mesh_wellFormed (a b : Mesh3D α) (ha : a.WellFormed) (hb : b.WellFormed) :
    (add_mesh a b).WellFormed := by
  obtain ⟨⟨ka, hka⟩, ha2⟩ := ha
  obtain ⟨⟨kb, hkb⟩, hb2⟩ := hb
  refine ⟨⟨ka + kb, ?_⟩, ?_⟩
  · simp only [add_mesh, List.length_append, List.length_map, hka, hkb]
    ring
  · intro i hi
    simp only [add_mesh, List.mem_append, List.mem_map, List.length_append] at hi ⊢
    rcases hi with hi | ⟨j, hj, rfl⟩
    · have := ha2 i hi
      omega
    · have := hb2 j hj
      omega

theorem single_road_obj_mesh_wellFormed (M : Libm α) (fuel : Nat) (obj : RoadObject α)
    (eps width_s height_s : α) (m : Mesh3D α)
    (h : single_road_obj_mesh M fuel obj eps width_s height_s = Result.ok m) : m.WellFormed := by
  unfold single_road_obj_mesh at h
  split at h
  · obtain ⟨as, _, rfl⟩ := (get_cylinder_eq_ok_iff _ _ _ _ _ _).mp h
    exact cylinder_of_angles_wellFormed _ _ _ _
  · split at h
    · cases h
      exact get_box_wellFormed _ _ _
    · cases h
      exact wellFormed_empty

theorem instance_mesh_wellFormed (M : Libm α) (fuel : Nat) (obj : RoadObject α)
    (road_ptr : Road α) (rot_mat : Mat3D α) (eps : α) (rep : RoadObjectRepeat α)
    (s_start s_end s : α) (m : Mesh3D α)
    (h : instance_mesh M fuel obj road_ptr rot_mat eps rep s_start s_end s = Result.ok m) :
    m.WellFormed := by
  unfold instance_mesh at h
  dsimp only at h
  split at h
  · next m0 hm0 =>
    have hw := single_road_obj_mesh_wellFormed _ _ _ _ _ _ _ hm0
    cases h
    exact ⟨hw.1, by simpa using hw.2⟩
  · cases h
  · cases h

theorem sample_loop_wellFormed (M : Libm α) (cfuel : Nat) (obj : RoadObject α)
    (road_ptr : Road α) (rot_mat : Mat3D α) (eps : α) (rep : RoadObjectRepeat α)
    (s_start s_end : α) :
    ∀ (fuel : Nat) (s : α) (acc m : Mesh3D α), acc.WellFormed →
      sample_loop M cfuel obj road_ptr rot_mat eps rep s_start s_end fuel s acc = Result.ok m →
      m.WellFormed := by
  intro fuel
  induction fuel with
  | zero => intro s acc m _ h; simp [sample_loop] at h
  | succ n ih =>
    intro s acc m hacc h
    unfold sample_loop at h
    split at h
    · split at h
      · next mi hmi =>
        exact ih _ _ _ (add_mesh_wellFormed _ _ hacc (instance_mesh_wellFormed _ _ _ _ _ _ _ _ _ _ _ hmi)) h
      · cases h
      · cases h
    · cases h
      exact hacc

theorem repeats_loop_wellFormed (M : Libm α) (fuel : Nat) (obj : RoadObject α)
    (road_ptr : Road α) (rot_mat : Mat3D α) (eps : α) :
    ∀ (reps : List (RoadObjectRepeat α)) (acc m : Mesh3D α), acc.WellFormed →
      repeats_loop M fuel obj road_ptr rot_mat eps reps acc = Result.ok m → m.WellFormed := by
  intro reps
  induction reps with
  | nil =>
    intro acc m hacc h
    simp only [repeats_loop, Result.ok.injEq] at h
    exact h ▸ hacc
  | cons rep rest ih =>
    intro acc m hacc h
    unfold repeats_loop at h
    split at h
    · split at h
      · next acc2 h2 =>
        exact ih _ _ (sample_loop_wellFormed _ _ _ _ _ _ _ _ _ _ _ _ _ hacc h2) h
      · cases h
      · cases h
    · exact ih _ _ hacc h

/-- C2: whenever `get_mesh` returns a mesh (live road, any repeat list, any
tolerance, any amount of fuel), the index list of that mesh has a length
divisible by 3 and every index is below the number of vertices; the merge
used is the one that appends the vertices and then the indices shifted by the
vertex count before the append. -/
theorem get_mesh_wellFormed (M : Libm α) (EulerAnglesToMatrix : α → α → α → Mat3D α)
    (fuel : Nat) (obj : RoadObject α) (eps : α) (m : Mesh3D α)
    (h : get_mesh M EulerAnglesToMatrix fuel obj eps = Result.ok m) :
    (3 ∣ m.indices.length ∧ ∀ i ∈ m.indices, i < m.vertices.length) ∧
    (∀ a b : Mesh3D α, (add_mesh a b).vertices = a.vertices ++ b.vertices ∧
      (add_mesh a b).indices = a.indices ++ b.indices.map (fun i => i + a.vertices.length)) := by
  refine ⟨?_, fun a b => ⟨rfl, rfl⟩⟩
  unfold get_mesh at h
  split at h
  · cases h
  · exact repeats_loop_wellFormed _ _ _ _ _ _ _ _ _ wellFormed_empty h

end WellFormed

/-! ## The sampled angles -/

section Angles

variable {α : Type} [LinearOrderedField α]

/-- When `n` is the first multiple count with `alpha + n * step` not below
`2 * M_PI`, the loop returns the `n` values `alpha + i * step`. -/
theorem angles_loop_eq (M_PI step : α) (n : Nat) :
    ∀ (alpha : α) (fuel : Nat), (∀ i < n, alpha + (i : α) * step < 2 * M_PI) →
      ¬ (alpha + (n : α) * step < 2 * M_PI) → n < fuel →
      angles_loop M_PI step fuel alpha
        = some ((List.range n).map (fun i : Nat => alpha + (i : α) * step)) := by
  induction n with
  | zero =>
    intro alpha fuel _ hn hf
    obtain ⟨f, rfl⟩ : ∃ f, fuel = f + 1 := ⟨fuel - 1, by omega⟩
    have h0 : ¬ alpha < 2 * M_PI := by simpa using hn
    simp [angles_loop, h0]
  | succ n ih =>
    intro alpha fuel hlt hn hf
    obtain ⟨f, rfl⟩ : ∃ f, fuel = f + 1 := ⟨fuel - 1, by omega⟩
    have h0 : alpha < 2 * M_PI := by simpa using hlt 0 (Nat.succ_pos n)
    have hrec := ih (alpha + step) f
      (fun i hi => by
        have h1 := hlt (i + 1) (by omega)
        push_cast at h1
        linarith)
      (by
        push_cast at hn
        intro h
        apply hn
        linarith)
      (by omega)
    simp only [angles_loop, h0, if_true, hrec, Option.map_some']
    rw [List.range_succ_eq_map, List.map_cons, List.map_map]
    congr 1
    · congr 1
      · simp
      · apply List.map_congr_left
        intro i _
        simp only [Function.comp_apply, Nat.succ_eq_add_one]
        push_cast
        ring

end Angles

/-! ## The cylinder over the reals -/

section RealCylinder

theorem acos_arg_eq (radius eps : ℝ) (hr : radius ≠ 0) :
    acos_arg radius eps = 2 * (1 - eps / radius) ^ 2 - 1 := by
  unfold acos_arg
  field_simp
  ring

theorem acos_arg_bounds (radius eps : ℝ) (he : 0 < eps) (hr : eps < radius) :
    -1 < acos_arg radius eps ∧ acos_arg radius eps < 1 := by
  have hrpos : 0 < radius := lt_trans he hr
  rw [acos_arg_eq radius eps (ne_of_gt hrpos)]
  have hq0 : 0 < eps / radius := div_pos he hrpos
  have hq1 : eps / radius < 1 := (div_lt_one hrpos).mpr hr
  constructor
  · have : 0 < (1 - eps / radius) ^ 2 := pow_pos (by linarith) 2
    linarith
  · nlinarith

/-- For a positive halved tolerance the angular step is positive and at most
a half turn. -/
theorem eps_angle_real_pos (radius eps : ℝ) (he : 0 < eps) :
    0 < eps_angle (Libm.mk Real.cos Real.sin Real.arccos Real.pi) radius eps ∧
    eps_angle (Libm.mk Real.cos Real.sin Real.arccos Real.pi) radius eps < Real.pi := by
  unfold eps_angle
  split
  · exact ⟨by positivity, by linarith [Real.pi_pos]⟩
  · next h =>
    have hb := acos_arg_bounds radius eps he (not_le.mp h)
    refine ⟨Real.arccos_pos.mpr hb.2, lt_of_le_of_ne (Real.arccos_le_pi _) ?_⟩
    intro heq
    have := Real.arccos_eq_pi.mp heq
    linarith [hb.1]

/-- Over the reals a positive step ends the angle loop after
`⌈2π / step⌉` values. -/
theorem angles_loop_real (step : ℝ) (hs : 0 < step) (fuel : Nat)
    (hf : ⌈2 * Real.pi / step⌉₊ < fuel) :
    angles_loop Real.pi step fuel 0
      = some ((List.range ⌈2 * Real.pi / step⌉₊).map (fun i : Nat => 0 + (i : ℝ) * step)) := by
  apply angles_loop_eq
  · intro i hi
    have := Nat.lt_ceil.mp hi
    rw [lt_div_iff₀ hs] at this
    linarith
  · intro h
    have := Nat.le_ceil (2 * Real.pi / step)
    rw [div_le_iff₀ hs] at this
    linarith
  · exact hf

/-- The angles sampled over the reals for a positive tolerance, in closed
form. -/
theorem angles_real (eps radius : ℝ) (he : 0 < eps) (fuel : Nat)
    (hf : ⌈2 * Real.pi /
      eps_angle (Libm.mk Real.cos Real.sin Real.arccos Real.pi) radius (1 / 2 * eps)⌉₊ < fuel) :
    angles (Libm.mk Real.cos Real.sin Real.arccos Real.pi) fuel eps radius
      = some (sampled_angles Real.pi
          (eps_angle (Libm.mk Real.cos Real.sin Real.arccos Real.pi) radius (1 / 2 * eps))
          ⌈2 * Real.pi /
            eps_angle (Libm.mk Real.cos Real.sin Real.arccos Real.pi) radius (1 / 2 * eps)⌉₊) := by
  have hpos := (eps_angle_real_pos radius (1 / 2 * eps) (by linarith)).1
  unfold angles sampled_angles
  simp only [angles_loop_real _ hpos fuel hf, Option.map_some']

/-- Over the reals, for a positive tolerance, `get_cylinder` returns the mesh
built on the closed form of the sampled angles. -/
theorem get_cylinder_real (eps radius height : ℝ) (heps : 0 < eps) (fuel : Nat)
    (hf : ⌈2 * Real.pi /
      eps_angle (Libm.mk Real.cos Real.sin Real.arccos Real.pi) radius (1 / 2 * eps)⌉₊ < fuel) :
    get_cylinder (Libm.mk Real.cos Real.sin Real.arccos Real.pi) fuel eps radius height
      = Result.ok (cylinder_of_angles (Libm.mk Real.cos Real.sin Real.arccos Real.pi) radius height
          (sampled_angles Real.pi
            (eps_angle (Libm.mk Real.cos Real.sin Real.arccos Real.pi) radius (1 / 2 * eps))
            ⌈2 * Real.pi /
              eps_angle (Libm.mk Real.cos Real.sin Real.arccos Real.pi) radius
                (1 / 2 * eps)⌉₊)) :=
  (get_cylinder_eq_ok_iff _ _ _ _ _ _).mpr ⟨_, angles_real eps radius heps fuel hf, rfl⟩

/-- C5: over the reals, for every positive tolerance and every radius and
height, `get_cylinder` returns (the same mesh for every sufficient fuel);
vertex 0 is `(0, 0, 0)` and vertex 1 is `(0, 0, height)`; the index list has a
length divisible by 3 and every index is below the vertex count; every patch
was emitted with `5 ≤ cur_idx`, so `cur_idx - 3` never underflows; a triangle
whose three vertices lie on the same cap (even indices: plane `z = 0`, odd
indices: plane `z = height`) starts with pole 0 or pole 1. -/
theorem get_cylinder_structure (eps radius height : ℝ) (heps : 0 < eps) :
    ∃ (N : Nat) (m : Mesh3D ℝ),
      (∀ fuel, N ≤ fuel →
        get_cylinder (Libm.mk Real.cos Real.sin Real.arccos Real.pi) fuel eps radius height
          = Result.ok m) ∧
      m.vertices[0]? = some ⟨0, 0, 0⟩ ∧
      m.vertices[1]? = some ⟨0, 0, height⟩ ∧
      3 ∣ m.indices.length ∧
      (∀ i ∈ m.indices, i < m.vertices.length) ∧
      (∃ cs : List Nat, m.indices = cs.flatMap cylinder_patch ∧
        ∀ c ∈ cs, 5 ≤ c ∧ c < m.vertices.length) ∧
      (∀ t ∈ triangles m.indices, is_cap_triangle t → t.1 = 0 ∨ t.1 = 1) ∧
      (∀ (i : Nat) (v : Vec3D ℝ), m.vertices[i]? = some v →
        v.z = if i % 2 = 0 then 0 else height) := by
  obtain ⟨N, as, has⟩ : ∃ (N : Nat) (as : List ℝ), ∀ fuel, N ≤ fuel →
      angles (Libm.mk Real.cos Real.sin Real.arccos Real.pi) fuel eps radius = some as :=
    ⟨_, _, fun fuel hf => angles_real eps radius heps fuel (Nat.lt_of_succ_le hf)⟩
  refine ⟨N, cylinder_of_angles (Libm.mk Real.cos Real.sin Real.arccos Real.pi) radius height as,
    ?_, cylinder_of_angles_structure _ radius height as⟩
  intro fuel hf
  rw [get_cylinder_eq_ok_iff]
  exact ⟨as, has fuel hf, rfl⟩

/-- Witness of C5: tolerance 1, radius 1, height 2. -/
theorem get_cylinder_structure_witness :
    (0 : ℝ) < 1 ∧
    ∃ (N : Nat) (m : Mesh3D ℝ),
      (∀ fuel, N ≤ fuel →
        get_cylinder (Libm.mk Real.cos Real.sin Real.arccos Real.pi) fuel 1 1 2
          = Result.ok m) ∧
      m.vertices[0]? = some ⟨0, 0, 0⟩ ∧
      m.vertices[1]? = some ⟨0, 0, 2⟩ ∧
      3 ∣ m.indices.length ∧
      (∀ i ∈ m.indices, i < m.vertices.length) ∧
      (∃ cs : List Nat, m.indices = cs.flatMap cylinder_patch ∧
        ∀ c ∈ cs, 5 ≤ c ∧ c < m.vertices.length) ∧
      (∀ t ∈ triangles m.indices, is_cap_triangle t → t.1 = 0 ∨ t.1 = 1) ∧
      (∀ (i : Nat) (v : Vec3D ℝ), m.vertices[i]? = some v →
        v.z = if i % 2 = 0 then 0 else 2) :=
  ⟨one_pos, get_cylinder_structure 1 1 2 one_pos⟩

theorem arccos_neg_half : Real.arccos (-(1 / 2)) = 2 * Real.pi / 3 := by
  rw [Real.arccos_neg, ← Real.cos_pi_div_three,
    Real.arccos_cos (by positivity) (by linarith [Real.pi_pos])]
  ring

/-- The step taken for radius 1 and tolerance 1 is a third of a turn. -/
theorem eps_angle_one_one :
    eps_angle (Libm.mk Real.cos Real.sin Real.arccos Real.pi) 1 (1 / 2 * 1) = 2 * Real.pi / 3 := by
  have h : ¬ (1 : ℝ) ≤ 1 / 2 * 1 := by norm_num
  simp only [eps_angle, if_neg h, acos_arg]
  rw [← arccos_neg_half]
  congr 1
  norm_num

/-- Counterexample to C7 as stated: radius 1 and caller tolerance 1 satisfy
`radius ≤ tolerance`, yet the step is 120°, not 30°. -/
theorem eps_angle_not_fallback_at_one_one :
    (1 : ℝ) ≤ 1 ∧
    eps_angle (Libm.mk Real.cos Real.sin Real.arccos Real.pi) 1 (1 / 2 * 1) = 2 * Real.pi / 3 ∧
    eps_angle (Libm.mk Real.cos Real.sin Real.arccos Real.pi) 1 (1 / 2 * 1) ≠ Real.pi / 6 := by
  refine ⟨le_refl 1, eps_angle_one_one, ?_⟩
  rw [eps_angle_one_one]
  intro h
  linarith [Real.pi_pos]

theorem range_twelve : List.range 12 = [0, 1, 2, 3, 4, 5, 6, 7, 8, 9, 10, 11] := by decide

/-- The angles sampled with the fixed step of 30 degrees. -/
theorem angles_loop_fallback (fuel : Nat) (hf : 13 ≤ fuel) :
    angles_loop Real.pi (Real.pi / 6) fuel 0
      = some ((List.range 12).map (fun i : Nat => 0 + (i : ℝ) * (Real.pi / 6))) := by
  apply angles_loop_eq
  · intro i hi
    have h11 : (i : ℝ) ≤ 11 := by exact_mod_cast Nat.le_of_lt_succ hi
    nlinarith [Real.pi_pos]
  · intro h
    push_cast at h
    linarith [Real.pi_pos]
  · omega

/-- C7 (amended): over the reals, whenever the radius is at most HALF the
caller's tolerance, the step is π/6, the loop ends, 13 angles are sampled and
any two consecutive ones are exactly π/6 apart. -/
theorem eps_angle_fallback (eps radius : ℝ) (h : radius ≤ 1 / 2 * eps) :
    eps_angle (Libm.mk Real.cos Real.sin Real.arccos Real.pi) radius (1 / 2 * eps)
      = Real.pi / 6 ∧
    ∃ as : List ℝ,
      (∀ fuel, 13 ≤ fuel →
        angles (Libm.mk Real.cos Real.sin Real.arccos Real.pi) fuel eps radius = some as) ∧
      as.length = 13 ∧
      List.Chain' (fun a b => b - a = Real.pi / 6) as := by
  have hstep : eps_angle (Libm.mk Real.cos Real.sin Real.arccos Real.pi) radius (1 / 2 * eps)
      = Real.pi / 6 := by
    simp only [eps_angle, if_pos h]
  refine ⟨hstep, (List.range 12).map (fun i : Nat => 0 + (i : ℝ) * (Real.pi / 6))
    ++ [2 * Real.pi], ?_, by simp, ?_⟩
  · intro fuel hf
    unfold angles
    simp only [hstep, angles_loop_fallback fuel hf, Option.map_some']
  · rw [range_twelve]
    simp only [List.map, List.cons_append, List.nil_append, List.chain'_cons,
      List.chain'_singleton, and_true]
    push_cast
    refine ⟨?_, ?_, ?_, ?_, ?_, ?_, ?_, ?_, ?_, ?_, ?_, ?_⟩ <;> ring

/-- Witness of C7 (amended): radius 0.001, tolerance 1. -/
theorem eps_angle_fallback_witness :
    (1 / 1000 : ℝ) ≤ 1 / 2 * 1 ∧
    eps_angle (Libm.mk Real.cos Real.sin Real.arccos Real.pi) (1 / 1000) (1 / 2 * 1)
      = Real.pi / 6 ∧
    ∃ as : List ℝ,
      (∀ fuel, 13 ≤ fuel →
        angles (Libm.mk Real.cos Real.sin Real.arccos Real.pi) fuel 1 (1 / 1000) = some as) ∧
      as.length = 13 ∧
      List.Chain' (fun a b => b - a = Real.pi / 6) as :=
  ⟨by norm_num, eps_angle_fallback 1 (1 / 1000) (by norm_num)⟩

end RealCylinder

/-! ## An object without repeat entry -/

section SingleInstance

variable {α : Type} [LinearOrderedField α]

/-- The mesh of an object without repeat entry whose sampled extent
`min length road.length` is below the unit step: one transformed box. -/
theorem get_mesh_of_short_box (M : Libm α) (EulerAnglesToMatrix : α → α → α → Mat3D α)
    (fuel : Nat) (obj : RoadObject α) (road_ptr : Road α) (eps : α)
    (hrep : obj.repeats = []) (hrad : obj.radius ≤ 0) (hw : 0 < obj.width)
    (hl : 0 < obj.length) (hroad : obj.road = some road_ptr) (hrl : 0 < road_ptr.length)
    (hshort : min obj.length road_ptr.length < 1) (hf : 2 ≤ fuel) :
    get_mesh M EulerAnglesToMatrix fuel obj eps
      = Result.ok
          { vertices := (get_box obj.width obj.length obj.height).vertices.map
              (transform_pt (EulerAnglesToMatrix obj.roll obj.pitch obj.hdg) road_ptr
                obj.s0 obj.t0 obj.z0)
            indices := (get_box obj.width obj.length obj.height).indices } := by
  obtain ⟨f, rfl⟩ : ∃ f, fuel = f + 2 := ⟨fuel - 2, by omega⟩
  have hmin : 0 < min obj.length road_ptr.length := lt_min hl hrl
  have hne : (1 : α) ≠ 0 := one_ne_zero
  have hlen0 : ¬ ((0 : α) > 0) := lt_irrefl 0
  have hs : s_start obj (default_repeat : RoadObjectRepeat α) = obj.s0 := rfl
  have he : s_end obj road_ptr (default_repeat : RoadObjectRepeat α)
      = obj.s0 + min obj.length road_ptr.length := by
    have hol : obj_len obj (default_repeat : RoadObjectRepeat α) = obj.length := by
      simp only [obj_len, default_repeat, if_neg hlen0]
    rw [s_end, hs, hol]
  have hse : ¬ obj.s0 = obj.s0 + min obj.length road_ptr.length := by
    intro h
    linarith
  have h1 : obj.s0 ≤ obj.s0 + min obj.length road_ptr.length := by linarith
  have h2 : ¬ obj.s0 + 1 ≤ obj.s0 + min obj.length road_ptr.length := by
    intro h
    linarith
  have hr : ¬ obj.radius > 0 := not_lt.mpr hrad
  have hinst : instance_mesh M (f + 2) obj road_ptr
      (EulerAnglesToMatrix obj.roll obj.pitch obj.hdg) eps default_repeat obj.s0
      (obj.s0 + min obj.length road_ptr.length) obj.s0
      = Result.ok
          { vertices := (get_box obj.width obj.length obj.height).vertices.map
              (transform_pt (EulerAnglesToMatrix obj.roll obj.pitch obj.hdg) road_ptr
                obj.s0 obj.t0 obj.z0)
            indices := (get_box obj.width obj.length obj.height).indices } := by
    simp only [instance_mesh, default_repeat, interpolate, single_road_obj_mesh, if_neg hr,
      gt_iff_lt, hw, hl, and_self, if_true]
  have hdist : (default_repeat : RoadObjectRepeat α).distance = 1 := rfl
  simp only [get_mesh, hroad, repeats_copy, hrep, List.isEmpty_nil, if_true, List.nil_append,
    repeats_loop, hdist, ne_eq, hne, not_false_eq_true, hs, he, sample_loop, h1, hinst, h2,
    if_false]
  simp [add_mesh]

/-- Witness of C2: the example object with length 1/2 on the straight road
of length 50, fuel 2: `get_mesh` returns one transformed box. -/
theorem get_mesh_wellFormed_witness :
    get_mesh (Libm.mk Real.cos Real.sin Real.arccos Real.pi) no_rotation 2
        (example_box_object (1 / 2 : ℝ)) 1 = Result.ok (example_box_mesh (1 / 2)) ∧
    (3 ∣ (example_box_mesh (1 / 2 : ℝ)).indices.length ∧
      ∀ i ∈ (example_box_mesh (1 / 2 : ℝ)).indices,
        i < (example_box_mesh (1 / 2 : ℝ)).vertices.length) ∧
    (∀ a b : Mesh3D ℝ, (add_mesh a b).vertices = a.vertices ++ b.vertices ∧
      (add_mesh a b).indices = a.indices ++ b.indices.map (fun i => i + a.vertices.length)) :=
  ⟨get_mesh_of_short_box (Libm.mk Real.cos Real.sin Real.arccos Real.pi) no_rotation 2 (example_box_object (1 / 2 : ℝ)) (straight_road 50) 1 rfl
      (by norm_num [example_box_object]) (by norm_num [example_box_object])
      (by norm_num [example_box_object]) rfl (by norm_num [straight_road])
      (by norm_num [example_box_object, straight_road]) (le_refl 2),
    get_mesh_wellFormed (Libm.mk Real.cos Real.sin Real.arccos Real.pi) no_rotation 2 (example_box_object (1 / 2 : ℝ)) 1 _
      (get_mesh_of_short_box (Libm.mk Real.cos Real.sin Real.arccos Real.pi) no_rotation 2 (example_box_object (1 / 2 : ℝ)) (straight_road 50) 1
        rfl (by norm_num [example_box_object]) (by norm_num [example_box_object])
        (by norm_num [example_box_object]) rfl (by norm_num [straight_road])
        (by norm_num [example_box_object, straight_road]) (le_refl 2))⟩

end SingleInstance

/-! ## The stations of a repeat span -/

section Span

variable {α : Type} [LinearOrderedField α]

/-- The loop over `s` merges the instances of the stations it visits. -/
theorem sample_loop_eq_span_fold (M : Libm α) (cfuel : Nat) (obj : RoadObject α)
    (road_ptr : Road α) (rot_mat : Mat3D α) (eps : α) (rep : RoadObjectRepeat α)
    (s_start s_end : α) :
    ∀ (fuel : Nat) (s : α) (acc : Mesh3D α) (sts : List α),
      stations_loop s_end rep.distance fuel s = some sts →
      sample_loop M cfuel obj road_ptr rot_mat eps rep s_start s_end fuel s acc
        = span_fold (instance_mesh M cfuel obj road_ptr rot_mat eps rep s_start s_end) sts acc := by
  intro fuel
  induction fuel with
  | zero => intro s acc sts h; simp [stations_loop] at h
  | succ f ih =>
    intro s acc sts h
    unfold stations_loop at h
    unfold sample_loop
    split at h
    · next hle =>
      rw [if_pos hle]
      cases hrest : stations_loop s_end rep.distance f (s + rep.distance) with
      | none =>
        rw [hrest] at h
        cases h
      | some rest =>
        rw [hrest] at h
        simp only [Option.map_some', Option.some.injEq] at h
        subst h
        unfold span_fold
        cases hi : instance_mesh M cfuel obj road_ptr rot_mat eps rep s_start s_end s with
        | ok m => exact ih _ _ _ hrest
        | fail e => rfl
        | div => rfl
    · next hgt =>
      rw [if_neg hgt]
      simp only [Option.some.injEq] at h
      subst h
      rfl

/-- When `n` is the first count with `s + n * distance` above `s_end`, the
loop visits the `n` stations `s + k * distance`. -/
theorem stations_loop_eq (s_end distance : α) (n : Nat) :
    ∀ (s : α) (fuel : Nat), (∀ k < n, s + (k : α) * distance ≤ s_end) →
      ¬ (s + (n : α) * distance ≤ s_end) → n < fuel →
      stations_loop s_end distance fuel s = some (stations s distance n) := by
  induction n with
  | zero =>
    intro s fuel _ hn hf
    obtain ⟨f, rfl⟩ : ∃ f, fuel = f + 1 := ⟨fuel - 1, by omega⟩
    have h0 : ¬ s ≤ s_end := by simpa using hn
    simp [stations_loop, stations, h0]
  | succ n ih =>
    intro s fuel hle hn hf
    obtain ⟨f, rfl⟩ : ∃ f, fuel = f + 1 := ⟨fuel - 1, by omega⟩
    have h0 : s ≤ s_end := by simpa using hle 0 (Nat.succ_pos n)
    have hrec := ih (s + distance) f
      (fun k hk => by
        have h1 := hle (k + 1) (by omega)
        push_cast at h1
        linarith)
      (by
        push_cast at hn
        intro h
        apply hn
        linarith)
      (by omega)
    simp only [stations_loop, h0, if_true, hrec, Option.map_some', stations]
    rw [List.range_succ_eq_map, List.map_cons, List.map_map]
    congr 1
    · congr 1
      · simp
      · apply List.map_congr_left
        intro k _
        simp only [Function.comp_apply, Nat.succ_eq_add_one]
        push_cast
        ring

end Span

/-! ## The stations of a span with a positive distance -/

section SpanFloor

variable {α : Type} [LinearOrderedField α] [FloorRing α]

/-- For a positive distance `d` and an extent `L ≥ 0` the loop visits
`⌊L / d⌋ + 1` stations. -/
theorem stations_loop_floor (s L d : α) (hd : 0 < d) (hL : 0 ≤ L) (fuel : Nat)
    (hf : ⌊L / d⌋₊ + 1 < fuel) :
    stations_loop (s + L) d fuel s = some (stations s d (⌊L / d⌋₊ + 1)) := by
  have hq : 0 ≤ L / d := div_nonneg hL (le_of_lt hd)
  apply stations_loop_eq
  · intro k hk
    have h1 : (k : α) ≤ L / d := (Nat.le_floor_iff hq).mp (Nat.le_of_lt_succ hk)
    have h2 : (k : α) * d ≤ L := (le_div_iff₀ hd).mp h1
    linarith
  · intro h
    have h1 : L / d < (⌊L / d⌋₊ : α) + 1 := Nat.lt_floor_add_one (L / d)
    have h2 : L < ((⌊L / d⌋₊ : α) + 1) * d := (div_lt_iff₀ hd).mp h1
    push_cast at h
    linarith
  · exact hf

theorem stations_length (s d : α) (n : Nat) : (stations s d n).length = n := by
  simp [stations]

theorem stations_getElem (s d : α) (n k : Nat) (hk : k < n) :
    (stations s d n)[k]? = some (s + (k : α) * d) := by
  simp [stations, List.getElem?_range hk]

theorem stations_chain (s d : α) (hd : 0 < d) (n : Nat) :
    List.Chain' (fun a b => a < b) (stations s d n) := by
  unfold stations
  rw [List.chain'_map]
  cases n with
  | zero => simp
  | succ n =>
    rw [List.chain'_range_succ]
    intro m _
    push_cast
    linarith

/-- A single-span object: `get_mesh` is the loop over `s` of that span. -/
theorem get_mesh_single_span (M : Libm α) (EulerAnglesToMatrix : α → α → α → Mat3D α)
    (fuel : Nat) (obj : RoadObject α) (road_ptr : Road α) (eps : α) (rep : RoadObjectRepeat α)
    (hroad : obj.road = some road_ptr) (hrep : obj.repeats = [rep]) (hd : rep.distance ≠ 0) :
    get_mesh M EulerAnglesToMatrix fuel obj eps
      = sample_loop M fuel obj road_ptr (EulerAnglesToMatrix obj.roll obj.pitch obj.hdg) eps rep
          (s_start obj rep) (s_end obj road_ptr rep) fuel (s_start obj rep)
          { vertices := [], indices := [] } := by
  simp only [get_mesh, hroad, repeats_copy, hrep, List.isEmpty_cons, Bool.false_eq_true,
    if_false, repeats_loop, ne_eq, hd, not_false_eq_true, if_true]
  cases sample_loop M fuel obj road_ptr (EulerAnglesToMatrix obj.roll obj.pitch obj.hdg) eps rep
      (s_start obj rep) (s_end obj road_ptr rep) fuel (s_start obj rep)
      { vertices := [], indices := [] } <;> rfl

end SpanFloor

/-! ## The station count of the repeat example -/

section SpanWitness

theorem example_repeat_floor :
    ⌊min (obj_len (example_repeat_object : RoadObject ℝ) example_repeat)
        (straight_road (100 : ℝ)).length / (example_repeat : RoadObjectRepeat ℝ).distance⌋₊
      = 4 := by
  have h : min (obj_len (example_repeat_object : RoadObject ℝ) example_repeat)
      (straight_road (100 : ℝ)).length / (example_repeat : RoadObjectRepeat ℝ).distance
      = ((4 : ℕ) : ℝ) := by
    norm_num [obj_len, example_repeat_object, example_repeat, straight_road]
  rw [h, Nat.floor_natCast]

end SpanWitness

/-! ## What the loops read of the object and of the road -/

section Congruence

variable {α : Type} [LinearOrderedField α]

theorem single_road_obj_mesh_congr (M : Libm α) (fuel : Nat) (a b : RoadObject α)
    (h : same_placement a b) (eps width_s height_s : α) :
    single_road_obj_mesh M fuel a eps width_s height_s
      = single_road_obj_mesh M fuel b eps width_s height_s := by
  obtain ⟨_, _, _, hl, _, _, hr⟩ := h
  simp only [single_road_obj_mesh, hl, hr]

theorem instance_mesh_congr (M : Libm α) (fuel : Nat) (a b : RoadObject α)
    (h : same_placement a b) (r1 r2 : Road α) (rot_mat : Mat3D α)
    (hr : ∀ s t z, transform_pt rot_mat r1 s t z = transform_pt rot_mat r2 s t z)
    (eps : α) (rep : RoadObjectRepeat α) (ss se s : α) :
    instance_mesh M fuel a r1 rot_mat eps rep ss se s
      = instance_mesh M fuel b r2 rot_mat eps rep ss se s := by
  have hs := single_road_obj_mesh_congr M fuel a b h
  obtain ⟨_, ht, hz, _, hw, hh, _⟩ := h
  simp only [instance_mesh, ht, hz, hw, hh, hs, hr]

theorem sample_loop_congr (M : Libm α) (cfuel : Nat) (a b : RoadObject α)
    (h : same_placement a b) (r1 r2 : Road α) (rot_mat : Mat3D α)
    (hr : ∀ s t z, transform_pt rot_mat r1 s t z = transform_pt rot_mat r2 s t z)
    (eps : α) (rep : RoadObjectRepeat α) (ss se : α) :
    ∀ (fuel : Nat) (s : α) (acc : Mesh3D α),
      sample_loop M cfuel a r1 rot_mat eps rep ss se fuel s acc
        = sample_loop M cfuel b r2 rot_mat eps rep ss se fuel s acc := by
  intro fuel
  induction fuel with
  | zero => intro s acc; rfl
  | succ f ih =>
    intro s acc
    unfold sample_loop
    rw [instance_mesh_congr M cfuel a b h r1 r2 rot_mat hr]
    split
    · split
      · exact ih _ _
      · rfl
      · rfl
    · rfl

theorem s_start_congr (a b : RoadObject α) (h : same_placement a b) (rep : RoadObjectRepeat α) :
    s_start a rep = s_start b rep := by
  simp only [s_start, h.1]

theorem s_end_congr (a b : RoadObject α) (h : same_placement a b) (r1 r2 : Road α)
    (hlen : r1.length = r2.length) (rep : RoadObjectRepeat α) :
    s_end a r1 rep = s_end b r2 rep := by
  simp only [s_end, s_start_congr a b h, obj_len, h.2.2.2.1, hlen]

theorem repeats_loop_congr (M : Libm α) (fuel : Nat) (a b : RoadObject α)
    (h : same_placement a b) (r1 r2 : Road α) (hlen : r1.length = r2.length)
    (rot_mat : Mat3D α)
    (hr : ∀ s t z, transform_pt rot_mat r1 s t z = transform_pt rot_mat r2 s t z) (eps : α) :
    ∀ (reps : List (RoadObjectRepeat α)) (acc : Mesh3D α),
      repeats_loop M fuel a r1 rot_mat eps reps acc
        = repeats_loop M fuel b r2 rot_mat eps reps acc := by
  intro reps
  induction reps with
  | nil => intro acc; rfl
  | cons rep rest ih =>
    intro acc
    unfold repeats_loop
    rw [sample_loop_congr M fuel a b h r1 r2 rot_mat hr, s_start_congr a b h,
      s_end_congr a b h r1 r2 hlen]
    split
    · split
      · exact ih _
      · rfl
      · rfl
    · exact ih _

/-- Spans of distance 0 are skipped by the loop over the spans. -/
theorem repeats_loop_filter (M : Libm α) (fuel : Nat) (obj : RoadObject α) (road_ptr : Road α)
    (rot_mat : Mat3D α) (eps : α) :
    ∀ (reps : List (RoadObjectRepeat α)) (acc : Mesh3D α),
      repeats_loop M fuel obj road_ptr rot_mat eps
          (reps.filter (fun rep => decide (rep.distance ≠ 0))) acc
        = repeats_loop M fuel obj road_ptr rot_mat eps reps acc := by
  intro reps
  induction reps with
  | nil => intro acc; rfl
  | cons rep rest ih =>
    intro acc
    by_cases hd : rep.distance = 0
    · have hf : (rep :: rest).filter (fun rep => decide (rep.distance ≠ 0))
          = rest.filter (fun rep => decide (rep.distance ≠ 0)) := by
        simp [List.filter, hd]
      rw [hf, ih]
      conv_rhs => unfold repeats_loop
      simp only [ne_eq, hd, not_true_eq_false, if_false]
    · have hf : (rep :: rest).filter (fun rep => decide (rep.distance ≠ 0))
          = rep :: rest.filter (fun rep => decide (rep.distance ≠ 0)) := by
        simp [List.filter, hd]
      rw [hf]
      unfold repeats_loop
      simp only [ne_eq, hd, not_false_eq_true, if_true]
      split
      · exact ih _
      · rfl
      · rfl

theorem same_placement_without_zero_spans (obj : RoadObject α) :
    same_placement (without_zero_spans obj) obj :=
  ⟨rfl, rfl, rfl, rfl, rfl, rfl, rfl⟩

/-- Taking the spans of distance 0 out of the repeat list does not change
`get_mesh`, provided a span is left. -/
theorem get_mesh_without_zero_spans_eq (M : Libm α)
    (EulerAnglesToMatrix : α → α → α → Mat3D α) (fuel : Nat) (obj : RoadObject α) (eps : α)
    (hne : obj.repeats.filter (fun rep => decide (rep.distance ≠ 0)) ≠ []) :
    get_mesh M EulerAnglesToMatrix fuel (without_zero_spans obj) eps
      = get_mesh M EulerAnglesToMatrix fuel obj eps := by
  have hne2 : obj.repeats ≠ [] := by
    intro h
    rw [h] at hne
    exact hne rfl
  have hc1 : repeats_copy (without_zero_spans obj)
      = obj.repeats.filter (fun rep => decide (rep.distance ≠ 0)) := by
    unfold repeats_copy
    have : (without_zero_spans obj).repeats
        = obj.repeats.filter (fun rep => decide (rep.distance ≠ 0)) := rfl
    rw [this, if_neg]
    simpa [List.isEmpty_iff] using hne
  have hc2 : repeats_copy obj = obj.repeats := by
    unfold repeats_copy
    rw [if_neg]
    simpa [List.isEmpty_iff] using hne2
  unfold get_mesh
  have hroad : (without_zero_spans obj).road = obj.road := rfl
  rw [hroad]
  cases obj.road with
  | none => rfl
  | some road_ptr =>
    simp only [hc1, hc2]
    have hrot : EulerAnglesToMatrix (without_zero_spans obj).roll (without_zero_spans obj).pitch
        (without_zero_spans obj).hdg = EulerAnglesToMatrix obj.roll obj.pitch obj.hdg := rfl
    rw [hrot, repeats_loop_congr M fuel (without_zero_spans obj) obj
      (same_placement_without_zero_spans obj) road_ptr road_ptr rfl _ (fun _ _ _ => rfl),
      repeats_loop_filter]

/-- A non-empty repeat list made of spans of distance 0 only gives the empty
mesh, whatever the fuel. -/
theorem get_mesh_all_zero_spans (M : Libm α) (EulerAnglesToMatrix : α → α → α → Mat3D α)
    (fuel : Nat) (obj : RoadObject α) (road_ptr : Road α) (eps : α)
    (hroad : obj.road = some road_ptr) (hne : obj.repeats ≠ [])
    (hz : ∀ rep ∈ obj.repeats, rep.distance = 0) :
    get_mesh M EulerAnglesToMatrix fuel obj eps
      = Result.ok { vertices := [], indices := [] } := by
  have hc2 : repeats_copy obj = obj.repeats := by
    unfold repeats_copy
    rw [if_neg]
    simpa [List.isEmpty_iff] using hne
  have hloop : ∀ (reps : List (RoadObjectRepeat α)) (acc : Mesh3D α),
      (∀ rep ∈ reps, rep.distance = 0) →
      repeats_loop M fuel obj road_ptr (EulerAnglesToMatrix obj.roll obj.pitch obj.hdg) eps
        reps acc = Result.ok acc := by
    intro reps
    induction reps with
    | nil => intro acc _; rfl
    | cons rep rest ih =>
      intro acc h
      unfold repeats_loop
      have hd : rep.distance = 0 := h rep (List.mem_cons_self _ _)
      simp only [ne_eq, hd, not_true_eq_false, if_false]
      exact ih acc (fun r hr => h r (List.mem_cons_of_mem _ hr))
  simp only [get_mesh, hroad, hc2]
  exact hloop _ _ hz

/-- C12 (amended): a span of distance 0 contributes no instance: taking every
span of distance 0 out of the repeat list leaves `get_mesh` unchanged (for
every fuel) as long as a span is left, and an object whose repeat list is not
empty and holds spans of distance 0 only gets the mesh without vertices and
indices. -/
theorem zero_distance_spans_contribute_nothing (M : Libm α)
    (EulerAnglesToMatrix : α → α → α → Mat3D α) (fuel : Nat) (obj : RoadObject α) (eps : α) :
    (obj.repeats.filter (fun rep => decide (rep.distance ≠ 0)) ≠ [] →
      get_mesh M EulerAnglesToMatrix fuel (without_zero_spans obj) eps
        = get_mesh M EulerAnglesToMatrix fuel obj eps) ∧
    (∀ road_ptr : Road α, obj.road = some road_ptr → obj.repeats ≠ [] →
      (∀ rep ∈ obj.repeats, rep.distance = 0) →
      get_mesh M EulerAnglesToMatrix fuel obj eps
        = Result.ok { vertices := [], indices := [] }) :=
  ⟨get_mesh_without_zero_spans_eq M EulerAnglesToMatrix fuel obj eps,
    fun road_ptr hroad hne hz =>
      get_mesh_all_zero_spans M EulerAnglesToMatrix fuel obj road_ptr eps hroad hne hz⟩

end Congruence

/-! ## Spans of distance 0: examples -/

section ZeroSpanExamples

theorem without_zero_spans_zero_span_box :
    without_zero_spans (zero_span_box_object : RoadObject ℝ) = example_box_object (1 / 2) := by
  simp [without_zero_spans, zero_span_box_object, example_box_object, zero_distance_repeat]

/-- Counterexample to C12 as stated: the example box with the single span of
distance 0 gets the empty mesh, but once that span is taken out the repeat
list is empty, the default span is used and the mesh is one box. -/
theorem zero_span_removal_changes_mesh :
    (zero_span_box_object : RoadObject ℝ).repeats ≠ [] ∧
    get_mesh (Libm.mk Real.cos Real.sin Real.arccos Real.pi) no_rotation 2
        (zero_span_box_object : RoadObject ℝ) 1
      = Result.ok { vertices := [], indices := [] } ∧
    get_mesh (Libm.mk Real.cos Real.sin Real.arccos Real.pi) no_rotation 2
        (without_zero_spans (zero_span_box_object : RoadObject ℝ)) 1
      = Result.ok (example_box_mesh (1 / 2)) ∧
    get_mesh (Libm.mk Real.cos Real.sin Real.arccos Real.pi) no_rotation 2
        (without_zero_spans (zero_span_box_object : RoadObject ℝ)) 1
      ≠ get_mesh (Libm.mk Real.cos Real.sin Real.arccos Real.pi) no_rotation 2
          (zero_span_box_object : RoadObject ℝ) 1 := by
  have h1 : get_mesh (Libm.mk Real.cos Real.sin Real.arccos Real.pi) no_rotation 2
        (zero_span_box_object : RoadObject ℝ) 1
      = Result.ok { vertices := [], indices := [] } :=
    get_mesh_all_zero_spans _ no_rotation 2 zero_span_box_object (straight_road 50) 1 rfl
      (by simp [zero_span_box_object])
      (by
        intro rep hrep
        simp only [zero_span_box_object, List.mem_singleton] at hrep
        subst hrep
        rfl)
  have h2 : get_mesh (Libm.mk Real.cos Real.sin Real.arccos Real.pi) no_rotation 2
        (without_zero_spans (zero_span_box_object : RoadObject ℝ)) 1
      = Result.ok (example_box_mesh (1 / 2)) := by
    rw [without_zero_spans_zero_span_box]
    exact get_mesh_of_short_box (Libm.mk Real.cos Real.sin Real.arccos Real.pi) no_rotation 2
      (example_box_object (1 / 2 : ℝ)) (straight_road 50) 1 rfl
      (by norm_num [example_box_object]) (by norm_num [example_box_object])
      (by norm_num [example_box_object]) rfl (by norm_num [straight_road])
      (by norm_num [example_box_object, straight_road]) (le_refl 2)
  refine ⟨by simp [zero_span_box_object], h1, h2, ?_⟩
  rw [h1, h2]
  intro h
  have hv := congrArg (fun r : Result (Mesh3D ℝ) =>
    match r with
    | Result.ok m => m.vertices.length
    | _ => 0) h
  simp [example_box_mesh, get_box] at hv

/-- Witness of C12 (amended): a span of distance 0 followed by a span of
distance 5 for the first part, the single span of distance 0 for the second. -/
theorem zero_distance_spans_contribute_nothing_witness :
    (mixed_span_box_object : RoadObject ℝ).repeats.filter
        (fun rep => decide (rep.distance ≠ 0)) ≠ [] ∧
    get_mesh (Libm.mk Real.cos Real.sin Real.arccos Real.pi) no_rotation 6
        (without_zero_spans (mixed_span_box_object : RoadObject ℝ)) 1
      = get_mesh (Libm.mk Real.cos Real.sin Real.arccos Real.pi) no_rotation 6
          (mixed_span_box_object : RoadObject ℝ) 1 ∧
    (zero_span_box_object : RoadObject ℝ).repeats ≠ [] ∧
    (∀ rep ∈ (zero_span_box_object : RoadObject ℝ).repeats, rep.distance = 0) ∧
    get_mesh (Libm.mk Real.cos Real.sin Real.arccos Real.pi) no_rotation 6
        (zero_span_box_object : RoadObject ℝ) 1
      = Result.ok { vertices := [], indices := [] } := by
  have hf : (mixed_span_box_object : RoadObject ℝ).repeats.filter
      (fun rep => decide (rep.distance ≠ 0)) ≠ [] := by
    simp [mixed_span_box_object, zero_distance_repeat, example_repeat, List.filter]
  have hz : ∀ rep ∈ (zero_span_box_object : RoadObject ℝ).repeats, rep.distance = 0 := by
    intro rep hrep
    simp only [zero_span_box_object, List.mem_singleton] at hrep
    subst hrep
    rfl
  have hne : (zero_span_box_object : RoadObject ℝ).repeats ≠ [] := by
    simp [zero_span_box_object]
  exact ⟨hf,
    (zero_distance_spans_contribute_nothing (Libm.mk Real.cos Real.sin Real.arccos Real.pi)
      no_rotation 6 (mixed_span_box_object : RoadObject ℝ) 1).1 hf,
    hne, hz,
    (zero_distance_spans_contribute_nothing (Libm.mk Real.cos Real.sin Real.arccos Real.pi)
      no_rotation 6 (zero_span_box_object : RoadObject ℝ) 1).2 (straight_road 50) rfl hne hz⟩

end ZeroSpanExamples

/-! ## A span stepping backwards -/

section NegativeDistance

variable {α : Type} [LinearOrderedField α]

/-- With a distance that is not positive the loop over `s` never leaves a
station at or below `s_end`: no fuel is enough. -/
theorem sample_loop_div_of_nonpos_distance (M : Libm α) (cfuel : Nat) (obj : RoadObject α)
    (road_ptr : Road α) (rot_mat : Mat3D α) (eps : α) (rep : RoadObjectRepeat α) (ss se : α)
    (hd : rep.distance ≤ 0) :
    ∀ (fuel : Nat) (s : α) (acc : Mesh3D α), s ≤ se →
      sample_loop M cfuel obj road_ptr rot_mat eps rep ss se fuel s acc = Result.div := by
  intro fuel
  induction fuel with
  | zero => intro s acc _; rfl
  | succ f ih =>
    intro s acc hs
    unfold sample_loop
    rw [if_pos hs]
    cases hi : instance_mesh M cfuel obj road_ptr rot_mat eps rep ss se s with
    | ok m => exact ih _ _ (by linarith)
    | fail e => exact absurd hi (instance_mesh_ne_fail _ _ _ _ _ _ _ _ _ _ _)
    | div => rfl

/-- An object whose first span has a negative distance and a non-negative
extent makes `get_mesh` run forever. -/
theorem get_mesh_div_of_negative_distance (M : Libm α)
    (EulerAnglesToMatrix : α → α → α → Mat3D α) (fuel : Nat) (obj : RoadObject α)
    (road_ptr : Road α) (eps : α) (rep : RoadObjectRepeat α) (rest : List (RoadObjectRepeat α))
    (hroad : obj.road = some road_ptr) (hrep : obj.repeats = rep :: rest)
    (hd : rep.distance < 0) (hL : 0 ≤ min (obj_len obj rep) road_ptr.length) :
    get_mesh M EulerAnglesToMatrix fuel obj eps = Result.div := by
  have hs : s_start obj rep ≤ s_end obj road_ptr rep := by
    unfold s_end
    linarith
  simp only [get_mesh, hroad, repeats_copy, hrep, List.isEmpty_cons, Bool.false_eq_true,
    if_false, repeats_loop, ne_eq, ne_of_lt hd, not_false_eq_true, if_true,
    sample_loop_div_of_nonpos_distance M fuel obj road_ptr _ eps rep _ _ (le_of_lt hd) fuel _ _ hs]

/-- C13, at the failing input: the object with `radius = 0` and `length = 0`
carrying a span of distance -5 over the extent 20: `get_mesh` never returns,
whatever the fuel and the tolerance. -/
theorem get_mesh_flat_object_negative_span (M : Libm α)
    (EulerAnglesToMatrix : α → α → α → Mat3D α) (fuel : Nat) (eps : α) :
    (flat_object_negative_span : RoadObject α).radius ≤ 0 ∧
    (flat_object_negative_span : RoadObject α).length ≤ 0 ∧
    get_mesh M EulerAnglesToMatrix fuel (flat_object_negative_span : RoadObject α) eps
      = Result.div := by
  refine ⟨le_refl 0, le_refl 0, ?_⟩
  apply get_mesh_div_of_negative_distance M EulerAnglesToMatrix fuel flat_object_negative_span
    (straight_road 100) eps negative_distance_repeat [] rfl rfl
  · simp [negative_distance_repeat]
  · simp [obj_len, flat_object_negative_span, negative_distance_repeat, straight_road]

/-- C15, at the failing input: the example box (`width = 1`, `length = 1`,
`height = 2`, road alive) carrying a span of distance -5 over the extent 20:
`get_mesh` never returns, whatever the fuel and the tolerance. -/
theorem get_mesh_box_object_negative_span (M : Libm α)
    (EulerAnglesToMatrix : α → α → α → Mat3D α) (fuel : Nat) (eps : α) :
    (box_object_negative_span : RoadObject α).road = some (straight_road 50) ∧
    get_mesh M EulerAnglesToMatrix fuel (box_object_negative_span : RoadObject α) eps
      = Result.div := by
  refine ⟨rfl, ?_⟩
  apply get_mesh_div_of_negative_distance M EulerAnglesToMatrix fuel box_object_negative_span
    (straight_road 50) eps negative_distance_repeat [] rfl rfl
  · simp [negative_distance_repeat]
  · simp [obj_len, box_object_negative_span, negative_distance_repeat, straight_road]

end NegativeDistance

/-! ## The calls of the road evaluator -/

section Evaluator

variable {α : Type} [LinearOrderedField α]

theorem transform_pt_ext (rot_mat : Mat3D α) (r1 r2 : Road α) (hlen : r1.length = r2.length)
    (h0 : 0 ≤ r1.length)
    (hagree : ∀ s t h : α, 0 ≤ s → s ≤ r1.length → r1.get_xyz s t h = r2.get_xyz s t h)
    (s t z : α) : transform_pt rot_mat r1 s t z = transform_pt rot_mat r2 s t z := by
  funext pt
  simp only [transform_pt, ← hlen]
  exact hagree _ _ _ (le_max_right _ _) (max_le (min_le_right _ _) h0)

/-- C14: for a road of length `≥ 0`, the one call of `get_xyz` (made in
`transform_pt`, for every vertex of every instance) has a first argument in
`[0, road.length]`; accordingly `get_mesh` gives the same outcome, for every
object, repeat list, tolerance and fuel, on two roads of that length whose
evaluators agree on the stations of `[0, road.length]`. -/
theorem get_xyz_called_inside_domain (M : Libm α) (EulerAnglesToMatrix : α → α → α → Mat3D α)
    (fuel : Nat) (obj : RoadObject α) (eps : α) (r1 r2 : Road α) (h0 : 0 ≤ r1.length)
    (hlen : r1.length = r2.length)
    (hagree : ∀ s t h : α, 0 ≤ s → s ≤ r1.length → r1.get_xyz s t h = r2.get_xyz s t h) :
    (∀ (rot_mat : Mat3D α) (s t_s z_s : α) (pt_uvz : Vec3D α),
      transform_pt rot_mat r1 s t_s z_s pt_uvz
        = r1.get_xyz
            (max (min (add (MatVecMultiplication rot_mat pt_uvz) ⟨s, t_s, z_s⟩).x r1.length) 0)
            (add (MatVecMultiplication rot_mat pt_uvz) ⟨s, t_s, z_s⟩).y
            (add (MatVecMultiplication rot_mat pt_uvz) ⟨s, t_s, z_s⟩).z ∧
      0 ≤ max (min (add (MatVecMultiplication rot_mat pt_uvz) ⟨s, t_s, z_s⟩).x r1.length) 0 ∧
      max (min (add (MatVecMultiplication rot_mat pt_uvz) ⟨s, t_s, z_s⟩).x r1.length) 0
        ≤ r1.length) ∧
    get_mesh M EulerAnglesToMatrix fuel { obj with road := some r1 } eps
      = get_mesh M EulerAnglesToMatrix fuel { obj with road := some r2 } eps := by
  refine ⟨fun rot_mat s t_s z_s pt_uvz =>
    ⟨rfl, le_max_right _ _, max_le (min_le_right _ _) h0⟩, ?_⟩
  have hsame : same_placement ({ obj with road := some r1 } : RoadObject α)
      ({ obj with road := some r2 } : RoadObject α) := ⟨rfl, rfl, rfl, rfl, rfl, rfl, rfl⟩
  have hcopy : repeats_copy ({ obj with road := some r1 } : RoadObject α)
      = repeats_copy ({ obj with road := some r2 } : RoadObject α) := rfl
  simp only [get_mesh, hcopy]
  exact repeats_loop_congr M fuel _ _ hsame r1 r2 hlen _
    (transform_pt_ext _ r1 r2 hlen h0 hagree) eps _ _

/-- Witness of C14: the straight road of length 50 and the road that clamps
the station into `[0, 50]`, for the example box. -/
theorem get_xyz_called_inside_domain_witness :
    (0 : ℝ) ≤ (straight_road (50 : ℝ)).length ∧
    (straight_road (50 : ℝ)).length = (clamped_road (50 : ℝ)).length ∧
    (∀ s t h : ℝ, 0 ≤ s → s ≤ (straight_road (50 : ℝ)).length →
      (straight_road (50 : ℝ)).get_xyz s t h = (clamped_road (50 : ℝ)).get_xyz s t h) ∧
    get_mesh (Libm.mk Real.cos Real.sin Real.arccos Real.pi) no_rotation 3
        { (example_box_object (1 : ℝ)) with road := some (straight_road 50) } 1
      = get_mesh (Libm.mk Real.cos Real.sin Real.arccos Real.pi) no_rotation 3
          { (example_box_object (1 : ℝ)) with road := some (clamped_road 50) } 1 := by
  have h0 : (0 : ℝ) ≤ (straight_road (50 : ℝ)).length := by norm_num [straight_road]
  have hagree : ∀ s t h : ℝ, 0 ≤ s → s ≤ (straight_road (50 : ℝ)).length →
      (straight_road (50 : ℝ)).get_xyz s t h = (clamped_road (50 : ℝ)).get_xyz s t h := by
    intro s t h hs0 hs1
    simp only [straight_road] at hs1
    simp [straight_road, clamped_road, min_eq_left hs1, max_eq_left hs0]
  exact ⟨h0, rfl, hagree,
    (get_xyz_called_inside_domain (Libm.mk Real.cos Real.sin Real.arccos Real.pi) no_rotation 3
      (example_box_object (1 : ℝ)) 1 (straight_road 50) (clamped_road 50) h0 rfl hagree).2⟩

/-- C16: the instance generated at station `s` has the indices of the local
primitive unchanged, and each vertex is `road.get_xyz` at
`(max (min p.x road.length) 0, p.y, p.z)` with `p = R·v + (s, t_s, z_s)`, `v`
the local vertex: rotation, then translation, then the evaluator at the
clamped station. `R` is the one matrix `EulerAnglesToMatrix roll pitch hdg`
that `get_mesh` hands to the loops. -/
theorem instance_mesh_transform (M : Libm α) (EulerAnglesToMatrix : α → α → α → Mat3D α)
    (fuel : Nat) (obj : RoadObject α) (road_ptr : Road α) (rot_mat : Mat3D α) (eps : α)
    (rep : RoadObjectRepeat α) (ss se s : α) :
    instance_mesh M fuel obj road_ptr rot_mat eps rep ss se s
      = (match single_road_obj_mesh M fuel obj eps
            (interpolate rep.width_start rep.width_end obj.width (progress ss se s))
            (interpolate rep.height_start rep.height_end obj.height (progress ss se s)) with
        | Result.ok m =>
          Result.ok
            { vertices := m.vertices.map (fun v =>
                road_ptr.get_xyz
                  (max (min (rot_mat.r0.x * v.x + rot_mat.r0.y * v.y + rot_mat.r0.z * v.z + s)
                    road_ptr.length) 0)
                  (rot_mat.r1.x * v.x + rot_mat.r1.y * v.y + rot_mat.r1.z * v.z
                    + interpolate rep.t_start rep.t_end obj.t0 (progress ss se s))
                  (rot_mat.r2.x * v.x + rot_mat.r2.y * v.y + rot_mat.r2.z * v.z
                    + interpolate rep.z_offset_start rep.z_offset_end obj.z0 (progress ss se s)))
              indices := m.indices }
        | Result.fail e => Result.fail e
        | Result.div => Result.div) ∧
    (obj.road = some road_ptr →
      get_mesh M EulerAnglesToMatrix fuel obj eps
        = repeats_loop M fuel obj road_ptr (EulerAnglesToMatrix obj.roll obj.pitch obj.hdg) eps
            (repeats_copy obj) { vertices := [], indices := [] }) ∧
    (∀ x L : α, 0 ≤ L →
      max (min x L) 0 = if x < 0 then 0 else if L < x then L else x) := by
  refine ⟨rfl, ?_, ?_⟩
  · intro hroad
    simp only [get_mesh, hroad]
  · intro x L hL
    split
    · next hx => exact max_eq_right (le_trans (min_le_left _ _) (le_of_lt hx))
    · next hx =>
      split
      · next hLx => rw [min_eq_right (le_of_lt hLx), max_eq_left hL]
      · next hLx => rw [min_eq_left (not_lt.mp hLx), max_eq_left (not_lt.mp hx)]

end Evaluator

/-! ## The interpolation fraction -/

section Progress

variable {α : Type} [LinearOrderedField α]

end Progress

/-! ## The sectors of the cylinder -/

section Sectors

variable {α : Type} [LinearOrderedField α]

theorem triangles_patch_sector (j : Nat) :
    triangles (cylinder_patch (2 * j + 5)) = sector_triangles j := by
  simp only [cylinder_patch, List.cons_append, List.nil_append, triangles, sector_triangles,
    bottom_idx, top_idx]
  have h1 : 2 * j + 5 - 1 = 2 + 2 * (j + 1) := by omega
  have h2 : 2 * j + 5 - 3 = 2 + 2 * j := by omega
  have h3 : 2 * j + 5 - 2 = 3 + 2 * j := by omega
  have h4 : 2 * j + 5 = 3 + 2 * (j + 1) := by omega
  rw [h1, h2, h3, h4]

theorem cylinder_of_angles_triangles (M : Libm α) (radius height : α) (as : List α) :
    triangles (cylinder_of_angles M radius height as).indices
      = (List.range (as.length - 1)).flatMap sector_triangles := by
  have hidx : (cylinder_of_angles M radius height as).indices
      = ((List.range (as.length - 1)).map (fun j => 2 * j + 5)).flatMap cylinder_patch := by
    simp [cylinder_of_angles, List.flatMap_map]
  rw [hidx, triangles_flatMap_patch, List.flatMap_map]
  congr 1
  funext j
  exact triangles_patch_sector j

theorem circle_pts_getElem (M : Libm α) (radius height : α) :
    ∀ (as : List α) (i : Nat) (a : α), as[i]? = some a →
      (as.flatMap (circle_pts M radius height))[2 * i]?
        = some ⟨radius * M.cos a, radius * M.sin a, 0⟩ ∧
      (as.flatMap (circle_pts M radius height))[2 * i + 1]?
        = some ⟨radius * M.cos a, radius * M.sin a, height⟩ := by
  intro as
  induction as with
  | nil => intro i a h; simp at h
  | cons a0 rest ih =>
    intro i a h
    match i with
    | 0 =>
      simp only [List.getElem?_cons_zero, Option.some.injEq] at h
      subst h
      simp [circle_pts]
    | k + 1 =>
      simp only [List.getElem?_cons_succ] at h
      have hk := ih k a h
      have e1 : 2 * (k + 1) = 2 * k + 2 := by ring
      have e2 : 2 * k + 2 + 1 = 2 * k + 1 + 2 := by ring
      rw [e1, e2]
      simpa [circle_pts] using hk

theorem cylinder_of_angles_ring (M : Libm α) (radius height : α) (as : List α) (i : Nat) (a : α)
    (h : as[i]? = some a) :
    (cylinder_of_angles M radius height as).vertices[bottom_idx i]?
      = some ⟨radius * M.cos a, radius * M.sin a, 0⟩ ∧
    (cylinder_of_angles M radius height as).vertices[top_idx i]?
      = some ⟨radius * M.cos a, radius * M.sin a, height⟩ := by
  have hk := circle_pts_getElem M radius height as i a h
  have e1 : bottom_idx i = 2 * i + 2 := by unfold bottom_idx; ring
  have e2 : top_idx i = 2 * i + 1 + 2 := by unfold top_idx; ring
  rw [e1, e2]
  simpa [cylinder_of_angles] using hk

end Sectors

section RealSectors

theorem sampled_angles_length {α : Type} [LinearOrderedField α] (M_PI step : α) (n : Nat) :
    (sampled_angles M_PI step n).length = n + 1 := by
  simp [sampled_angles]

theorem ceil_two_pi_div_pos (step : ℝ) (hs : 0 < step) : 1 ≤ ⌈2 * Real.pi / step⌉₊ :=
  Nat.ceil_pos.mpr (div_pos (by linarith [Real.pi_pos]) hs)

/-- C17: over the reals, for a positive tolerance, `get_cylinder` samples
`k ≥ 2` angles and returns (for every sufficient fuel) a mesh of `2 + 2k`
vertices and `12 (k - 1)` indices; the bottom and top vertex of the angle
number `i` sit at the indices `2 + 2i` and `3 + 2i`, and the triangles are,
sector after sector, `(0, bottom (i+1), bottom i)`, `(1, top i, top (i+1))`
and the two wall triangles `(top (i+1), top i, bottom i)`,
`(top (i+1), bottom i, bottom (i+1))` that split the quad
`bottom i, top i, top (i+1), bottom (i+1)`. -/
theorem get_cylinder_sectors (eps radius height : ℝ) (heps : 0 < eps) :
    ∃ (N : Nat) (as : List ℝ),
      2 ≤ as.length ∧
      (∀ fuel, N ≤ fuel →
        angles (Libm.mk Real.cos Real.sin Real.arccos Real.pi) fuel eps radius = some as ∧
        get_cylinder (Libm.mk Real.cos Real.sin Real.arccos Real.pi) fuel eps radius height
          = Result.ok
              (cylinder_of_angles (Libm.mk Real.cos Real.sin Real.arccos Real.pi) radius height
                as)) ∧
      (cylinder_of_angles (Libm.mk Real.cos Real.sin Real.arccos Real.pi) radius height
        as).vertices.length = 2 + 2 * as.length ∧
      (cylinder_of_angles (Libm.mk Real.cos Real.sin Real.arccos Real.pi) radius height
        as).indices.length = 12 * (as.length - 1) ∧
      triangles (cylinder_of_angles (Libm.mk Real.cos Real.sin Real.arccos Real.pi) radius height
          as).indices
        = (List.range (as.length - 1)).flatMap sector_triangles ∧
      (∀ (i : Nat) (a : ℝ), as[i]? = some a →
        (cylinder_of_angles (Libm.mk Real.cos Real.sin Real.arccos Real.pi) radius height
            as).vertices[bottom_idx i]?
          = some ⟨radius * Real.cos a, radius * Real.sin a, 0⟩ ∧
        (cylinder_of_angles (Libm.mk Real.cos Real.sin Real.arccos Real.pi) radius height
            as).vertices[top_idx i]?
          = some ⟨radius * Real.cos a, radius * Real.sin a, height⟩) := by
  have hpos := (eps_angle_real_pos radius (1 / 2 * eps) (by linarith)).1
  refine ⟨⌈2 * Real.pi /
      eps_angle (Libm.mk Real.cos Real.sin Real.arccos Real.pi) radius (1 / 2 * eps)⌉₊ + 1,
    sampled_angles Real.pi
      (eps_angle (Libm.mk Real.cos Real.sin Real.arccos Real.pi) radius (1 / 2 * eps))
      ⌈2 * Real.pi /
        eps_angle (Libm.mk Real.cos Real.sin Real.arccos Real.pi) radius (1 / 2 * eps)⌉₊,
    ?_, ?_, cylinder_of_angles_length _ _ _ _, cylinder_of_angles_indices_length _ _ _ _,
    cylinder_of_angles_triangles _ _ _ _,
    fun i a h => cylinder_of_angles_ring _ radius height _ i a h⟩
  · rw [sampled_angles_length]
    have := ceil_two_pi_div_pos _ hpos
    omega
  · intro fuel hf
    exact ⟨angles_real eps radius heps fuel (Nat.lt_of_succ_le hf),
      get_cylinder_real eps radius height heps fuel (Nat.lt_of_succ_le hf)⟩

end RealSectors

/-! ## Where the first patch is emitted, and the closing of the ring -/

section FirstPatch

variable {α : Type} [LinearOrderedField α]

/-- C18 (amended): triangles are emitted starting from the SECOND sampled
angle: processing the first angle appends no index (4 vertices), processing
the second one appends the first patch, emitted with `cur_idx = 5`, and that
patch opens the index list of every cylinder with at least two angles. -/
theorem first_patch_at_second_angle (M : Libm α) (radius height a0 a1 : α) (rest : List α) :
    ([a0].foldl (cylinder_step M radius height)
        { vertices := [⟨0, 0, 0⟩, ⟨0, 0, height⟩], indices := [] }).indices = [] ∧
    ([a0].foldl (cylinder_step M radius height)
        { vertices := [⟨0, 0, 0⟩, ⟨0, 0, height⟩], indices := [] }).vertices.length = 4 ∧
    ([a0, a1].foldl (cylinder_step M radius height)
        { vertices := [⟨0, 0, 0⟩, ⟨0, 0, height⟩], indices := [] }).indices
      = [0, 4, 2, 1, 3, 5, 5, 3, 2, 5, 2, 4] ∧
    ((a0 :: a1 :: rest).foldl (cylinder_step M radius height)
        { vertices := [⟨0, 0, 0⟩, ⟨0, 0, height⟩], indices := [] }).indices.take 12
      = [0, 4, 2, 1, 3, 5, 5, 3, 2, 5, 2, 4] := by
  refine ⟨rfl, rfl, rfl, ?_⟩
  rw [foldl_cylinder_step]
  simp only [cylinder_of_angles, List.length_cons, Nat.add_sub_cancel]
  rw [List.range_succ_eq_map, List.flatMap_cons]
  simp [cylinder_patch]

end FirstPatch

section RealRing

/-- Counterexample to C18 as stated: for radius 1, height 2 and the first two
angles 0 and 2π/3 sampled at tolerance 1, the second angle already appends
twelve indices. -/
theorem second_angle_appends_patch :
    ((cylinder_step (Libm.mk Real.cos Real.sin Real.arccos Real.pi) 1 2
      (cylinder_step (Libm.mk Real.cos Real.sin Real.arccos Real.pi) 1 2
        { vertices := [⟨0, 0, 0⟩, ⟨0, 0, 2⟩], indices := [] } 0)
      (2 * Real.pi / 3)).indices = [0, 4, 2, 1, 3, 5, 5, 3, 2, 5, 2, 4]) ∧
    ((cylinder_step (Libm.mk Real.cos Real.sin Real.arccos Real.pi) 1 2
      (cylinder_step (Libm.mk Real.cos Real.sin Real.arccos Real.pi) 1 2
        { vertices := [⟨0, 0, 0⟩, ⟨0, 0, 2⟩], indices := [] } 0)
      (2 * Real.pi / 3)).indices ≠ []) := by
  have h : (cylinder_step (Libm.mk Real.cos Real.sin Real.arccos Real.pi) 1 2
      (cylinder_step (Libm.mk Real.cos Real.sin Real.arccos Real.pi) 1 2
        { vertices := [⟨0, 0, 0⟩, ⟨0, 0, 2⟩], indices := [] } 0)
      (2 * Real.pi / 3)).indices = [0, 4, 2, 1, 3, 5, 5, 3, 2, 5, 2, 4] := rfl
  refine ⟨h, ?_⟩
  rw [h]
  exact List.cons_ne_nil _ _

end RealRing

/-! ## Termination when no span steps backwards -/

section Returns

theorem span_fold_returns {α : Type} [LinearOrderedField α] (inst : α → Result (Mesh3D α))
    (hinst : ∀ s, ∃ m, inst s = Result.ok m) :
    ∀ (sts : List α) (acc : Mesh3D α), ∃ m, span_fold inst sts acc = Result.ok m := by
  intro sts
  induction sts with
  | nil => intro acc; exact ⟨acc, rfl⟩
  | cons s rest ih =>
    intro acc
    obtain ⟨mi, hmi⟩ := hinst s
    obtain ⟨m, hm⟩ := ih (add_mesh acc mi)
    exact ⟨m, by simp only [span_fold, hmi, hm]⟩

/-- Over the reals, the primitive of an instance is returned as soon as the
fuel exceeds the number of rounds of the angle loop; no angle is sampled when
the radius is not positive. -/
theorem single_road_obj_mesh_returns (obj : RoadObject ℝ) (eps : ℝ)
    (h : obj.radius ≤ 0 ∨ 0 < eps) (fuel : Nat)
    (hf : ⌈2 * Real.pi /
      eps_angle (Libm.mk Real.cos Real.sin Real.arccos Real.pi) obj.radius (1 / 2 * eps)⌉₊
        < fuel)
    (width_s height_s : ℝ) :
    ∃ m, single_road_obj_mesh (Libm.mk Real.cos Real.sin Real.arccos Real.pi) fuel obj eps
      width_s height_s = Result.ok m := by
  unfold single_road_obj_mesh
  split
  · next hr =>
    rcases h with h | h
    · exact absurd hr (not_lt.mpr h)
    · exact ⟨_, get_cylinder_real eps obj.radius height_s h fuel hf⟩
  · split
    · exact ⟨_, rfl⟩
    · exact ⟨_, rfl⟩

theorem instance_mesh_returns (obj : RoadObject ℝ) (road_ptr : Road ℝ) (rot_mat : Mat3D ℝ)
    (eps : ℝ) (h : obj.radius ≤ 0 ∨ 0 < eps) (fuel : Nat)
    (hf : ⌈2 * Real.pi /
      eps_angle (Libm.mk Real.cos Real.sin Real.arccos Real.pi) obj.radius (1 / 2 * eps)⌉₊
        < fuel)
    (rep : RoadObjectRepeat ℝ) (ss se s : ℝ) :
    ∃ m, instance_mesh (Libm.mk Real.cos Real.sin Real.arccos Real.pi) fuel obj road_ptr rot_mat
      eps rep ss se s = Result.ok m := by
  unfold instance_mesh
  dsimp only
  obtain ⟨m, hm⟩ := single_road_obj_mesh_returns obj eps h fuel hf
    (interpolate rep.width_start rep.width_end obj.width (progress ss se s))
    (interpolate rep.height_start rep.height_end obj.height (progress ss se s))
  rw [hm]
  exact ⟨_, rfl⟩

/-- With a positive distance the loop over `s` ends: it visits no station
when `s_end < s_start`, and `⌊L / d⌋ + 1` stations otherwise. -/
theorem stations_loop_returns (ss L d : ℝ) (hd : 0 < d) :
    ∃ (n : Nat) (sts : List ℝ), ∀ fuel, n ≤ fuel →
      stations_loop (ss + L) d fuel ss = some sts := by
  rcases le_or_lt 0 L with hL | hL
  · exact ⟨⌊L / d⌋₊ + 2, _, fun fuel hf => stations_loop_floor ss L d hd hL fuel (by omega)⟩
  · refine ⟨1, [], fun fuel hf => ?_⟩
    obtain ⟨f, rfl⟩ : ∃ f, fuel = f + 1 := ⟨fuel - 1, by omega⟩
    have : ¬ ss ≤ ss + L := by
      intro h
      linarith
    simp only [stations_loop, this, if_false]

theorem repeats_loop_returns (obj : RoadObject ℝ) (road_ptr : Road ℝ) (rot_mat : Mat3D ℝ)
    (eps : ℝ) (h : obj.radius ≤ 0 ∨ 0 < eps) :
    ∀ reps : List (RoadObjectRepeat ℝ), (∀ rep ∈ reps, 0 ≤ rep.distance) →
      ∃ N : Nat, ∀ fuel, N ≤ fuel → ∀ acc : Mesh3D ℝ,
        ∃ m, repeats_loop (Libm.mk Real.cos Real.sin Real.arccos Real.pi) fuel obj road_ptr
          rot_mat eps reps acc = Result.ok m := by
  intro reps
  induction reps with
  | nil => intro _; exact ⟨0, fun fuel _ acc => ⟨acc, rfl⟩⟩
  | cons rep rest ih =>
    intro hall
    obtain ⟨N1, hN1⟩ := ih (fun r hr => hall r (List.mem_cons_of_mem _ hr))
    have hd0 : 0 ≤ rep.distance := hall rep (List.mem_cons_self _ _)
    rcases eq_or_lt_of_le hd0 with hz | hpos
    · refine ⟨N1, fun fuel hf acc => ?_⟩
      unfold repeats_loop
      simp only [ne_eq, ← hz, not_true_eq_false, if_false]
      exact hN1 fuel hf acc
    · obtain ⟨n, sts, hsts⟩ := stations_loop_returns (s_start obj rep)
        (min (obj_len obj rep) road_ptr.length) rep.distance hpos
      refine ⟨max N1 (max n (⌈2 * Real.pi /
        eps_angle (Libm.mk Real.cos Real.sin Real.arccos Real.pi) obj.radius
          (1 / 2 * eps)⌉₊ + 1)), fun fuel hf acc => ?_⟩
      have hf1 : N1 ≤ fuel := le_trans (le_max_left _ _) hf
      have hf2 : n ≤ fuel := le_trans (le_trans (le_max_left _ _) (le_max_right _ _)) hf
      have hf3 : ⌈2 * Real.pi /
          eps_angle (Libm.mk Real.cos Real.sin Real.arccos Real.pi) obj.radius
            (1 / 2 * eps)⌉₊ < fuel :=
        Nat.lt_of_succ_le (le_trans (le_trans (le_max_right _ _) (le_max_right _ _)) hf)
      have hloop := sample_loop_eq_span_fold (Libm.mk Real.cos Real.sin Real.arccos Real.pi)
        fuel obj road_ptr rot_mat eps rep (s_start obj rep) (s_end obj road_ptr rep) fuel
        (s_start obj rep) acc sts (hsts fuel hf2)
      obtain ⟨m1, hm1⟩ := span_fold_returns
        (instance_mesh (Libm.mk Real.cos Real.sin Real.arccos Real.pi) fuel obj road_ptr rot_mat
          eps rep (s_start obj rep) (s_end obj road_ptr rep))
        (fun s => instance_mesh_returns obj road_ptr rot_mat eps h fuel hf3 rep _ _ s) sts acc
      obtain ⟨m, hm⟩ := hN1 fuel hf1 m1
      refine ⟨m, ?_⟩
      unfold repeats_loop
      simp only [ne_eq, ne_of_gt hpos, not_false_eq_true, if_true, hloop, hm1, hm]

/-- Over the reals `get_mesh` returns a mesh, for every sufficient fuel, when
the road is alive, no span has a negative distance, and the tolerance is
positive or the radius is not. -/
theorem get_mesh_returns (EulerAnglesToMatrix : ℝ → ℝ → ℝ → Mat3D ℝ) (obj : RoadObject ℝ)
    (road_ptr : Road ℝ) (eps : ℝ) (hroad : obj.road = some road_ptr)
    (hdist : ∀ rep ∈ obj.repeats, 0 ≤ rep.distance) (h : obj.radius ≤ 0 ∨ 0 < eps) :
    ∃ N : Nat, ∀ fuel, N ≤ fuel →
      ∃ m, get_mesh (Libm.mk Real.cos Real.sin Real.arccos Real.pi) EulerAnglesToMatrix fuel obj
        eps = Result.ok m := by
  have hcopy : ∀ rep ∈ repeats_copy obj, 0 ≤ rep.distance := by
    intro rep hrep
    unfold repeats_copy at hrep
    split at hrep
    · next hemp =>
      have : obj.repeats = [] := List.isEmpty_iff.mp hemp
      rw [this] at hrep
      simp only [List.nil_append, List.mem_singleton] at hrep
      subst hrep
      exact zero_le_one
    · exact hdist rep hrep
  obtain ⟨N, hN⟩ := repeats_loop_returns obj road_ptr
    (EulerAnglesToMatrix obj.roll obj.pitch obj.hdg) eps h (repeats_copy obj) hcopy
  refine ⟨N, fun fuel hf => ?_⟩
  obtain ⟨m, hm⟩ := hN fuel hf { vertices := [], indices := [] }
  exact ⟨m, by simp only [get_mesh, hroad, hm]⟩

end Returns

/-! ## Witnesses for the cylinder statements -/

section RealWitnesses

/-- Witness of C17: tolerance 1, radius 1, height 2. -/
theorem get_cylinder_sectors_witness :
    (0 : ℝ) < 1 ∧
    ∃ (N : Nat) (as : List ℝ),
      2 ≤ as.length ∧
      (∀ fuel, N ≤ fuel →
        angles (Libm.mk Real.cos Real.sin Real.arccos Real.pi) fuel 1 1 = some as ∧
        get_cylinder (Libm.mk Real.cos Real.sin Real.arccos Real.pi) fuel 1 1 2
          = Result.ok
              (cylinder_of_angles (Libm.mk Real.cos Real.sin Real.arccos Real.pi) 1 2
                as)) ∧
      (cylinder_of_angles (Libm.mk Real.cos Real.sin Real.arccos Real.pi) 1 2
        as).vertices.length = 2 + 2 * as.length ∧
      (cylinder_of_angles (Libm.mk Real.cos Real.sin Real.arccos Real.pi) 1 2
        as).indices.length = 12 * (as.length - 1) ∧
      triangles (cylinder_of_angles (Libm.mk Real.cos Real.sin Real.arccos Real.pi) 1 2
          as).indices
        = (List.range (as.length - 1)).flatMap sector_triangles ∧
      (∀ (i : Nat) (a : ℝ), as[i]? = some a →
        (cylinder_of_angles (Libm.mk Real.cos Real.sin Real.arccos Real.pi) 1 2
            as).vertices[bottom_idx i]?
          = some ⟨1 * Real.cos a, 1 * Real.sin a, 0⟩ ∧
        (cylinder_of_angles (Libm.mk Real.cos Real.sin Real.arccos Real.pi) 1 2
            as).vertices[top_idx i]?
          = some ⟨1 * Real.cos a, 1 * Real.sin a, 2⟩) :=
  ⟨one_pos, get_cylinder_sectors 1 1 2 one_pos⟩

/-- Witness of C16: the example box of length 1/2 instantiated at `s = 10`
on the straight road of length 50 without rotation: the vertices are the box
corners moved to `s = 10`, the indices are those of the box. -/
theorem instance_mesh_transform_witness :
    (example_box_object (1 / 2 : ℝ)).road = some (straight_road 50) ∧
    get_mesh (Libm.mk Real.cos Real.sin Real.arccos Real.pi) no_rotation 2
        (example_box_object (1 / 2 : ℝ)) 1
      = repeats_loop (Libm.mk Real.cos Real.sin Real.arccos Real.pi) 2
          (example_box_object (1 / 2 : ℝ)) (straight_road 50)
          (no_rotation (example_box_object (1 / 2 : ℝ)).roll
            (example_box_object (1 / 2 : ℝ)).pitch (example_box_object (1 / 2 : ℝ)).hdg) 1
          (repeats_copy (example_box_object (1 / 2 : ℝ))) { vertices := [], indices := [] } ∧
    instance_mesh (Libm.mk Real.cos Real.sin Real.arccos Real.pi) 2
        (example_box_object (1 / 2 : ℝ)) (straight_road 50) (no_rotation 0 0 0) 1
        default_repeat 10 (10 + 1 / 2) 10
      = Result.ok
          { vertices := [⟨41 / 4, 1 / 2, 0⟩, ⟨39 / 4, 1 / 2, 0⟩, ⟨39 / 4, -1 / 2, 0⟩,
              ⟨41 / 4, -1 / 2, 0⟩, ⟨41 / 4, 1 / 2, 2⟩, ⟨39 / 4, 1 / 2, 2⟩,
              ⟨39 / 4, -1 / 2, 2⟩, ⟨41 / 4, -1 / 2, 2⟩]
            indices := (get_box (1 : ℝ) (1 / 2) 2).indices } := by
  refine ⟨rfl,
    (instance_mesh_transform (Libm.mk Real.cos Real.sin Real.arccos Real.pi) no_rotation 2
      (example_box_object (1 / 2 : ℝ)) (straight_road 50) (no_rotation 0 0 0) 1 default_repeat
      10 (10 + 1 / 2) 10).2.1 rfl, ?_⟩
  rw [(instance_mesh_transform (Libm.mk Real.cos Real.sin Real.arccos Real.pi) no_rotation 2
      (example_box_object (1 / 2 : ℝ)) (straight_road 50) (no_rotation 0 0 0) 1 default_repeat
      10 (10 + 1 / 2) 10).1]
  norm_num [single_road_obj_mesh, example_box_object, get_box, interpolate, default_repeat,
    no_rotation, straight_road]

end RealWitnesses

/-! ## The primitive of an instance, and a zero tolerance -/

section Selection

variable {α : Type} [LinearOrderedField α]

/-- The primitive selection: a positive radius gives the cylinder whatever
the width and length are; otherwise a positive interpolated width and a
positive base length give the box; otherwise the instance is empty. -/
theorem single_road_obj_mesh_selection (M : Libm α) (fuel : Nat) (obj : RoadObject α)
    (eps width_s height_s : α) :
    (0 < obj.radius →
      single_road_obj_mesh M fuel obj eps width_s height_s
        = get_cylinder M fuel eps obj.radius height_s) ∧
    (obj.radius ≤ 0 → 0 < width_s → 0 < obj.length →
      single_road_obj_mesh M fuel obj eps width_s height_s
        = Result.ok (get_box width_s obj.length height_s)) ∧
    (obj.radius ≤ 0 → width_s ≤ 0 ∨ obj.length ≤ 0 →
      single_road_obj_mesh M fuel obj eps width_s height_s
        = Result.ok { vertices := [], indices := [] }) := by
  refine ⟨?_, ?_, ?_⟩
  · intro hr
    simp only [single_road_obj_mesh, gt_iff_lt, hr, if_true]
  · intro hr hw hl
    simp only [single_road_obj_mesh, gt_iff_lt, not_lt.mpr hr, if_false, hw, hl, and_self,
      if_true]
  · intro hr h
    have hn : ¬ (0 < width_s ∧ 0 < obj.length) := by
      rintro ⟨hw, hl⟩
      rcases h with h | h
      · exact absurd hw (not_lt.mpr h)
      · exact absurd hl (not_lt.mpr h)
    simp only [single_road_obj_mesh, gt_iff_lt, not_lt.mpr hr, if_false, hn]

theorem add_mesh_empty : add_mesh (⟨[], []⟩ : Mesh3D α) ⟨[], []⟩ = ⟨[], []⟩ := rfl

/-- An object with neither a positive radius nor a positive length: whenever
`get_mesh` returns, it returns the mesh without vertices and indices. -/
theorem get_mesh_empty_of_no_primitive (M : Libm α) (EulerAnglesToMatrix : α → α → α → Mat3D α)
    (fuel : Nat) (obj : RoadObject α) (eps : α) (m : Mesh3D α) (hr : obj.radius ≤ 0)
    (hl : obj.length ≤ 0) (h : get_mesh M EulerAnglesToMatrix fuel obj eps = Result.ok m) :
    m = { vertices := [], indices := [] } := by
  have hinst : ∀ (road_ptr : Road α) (rot_mat : Mat3D α) (rep : RoadObjectRepeat α)
      (ss se s : α), instance_mesh M fuel obj road_ptr rot_mat eps rep ss se s
        = Result.ok { vertices := [], indices := [] } := by
    intro road_ptr rot_mat rep ss se s
    simp only [instance_mesh,
      (single_road_obj_mesh_selection M fuel obj eps _ _).2.2 hr (Or.inr hl), List.map_nil]
  have hsample : ∀ (road_ptr : Road α) (rot_mat : Mat3D α) (rep : RoadObjectRepeat α)
      (ss se : α) (f : Nat) (s : α) (m1 : Mesh3D α),
      sample_loop M fuel obj road_ptr rot_mat eps rep ss se f s { vertices := [], indices := [] }
        = Result.ok m1 → m1 = { vertices := [], indices := [] } := by
    intro road_ptr rot_mat rep ss se f
    induction f with
    | zero => intro s m1 h1; simp [sample_loop] at h1
    | succ f ih =>
      intro s m1 h1
      unfold sample_loop at h1
      rw [hinst] at h1
      split at h1
      · simp only [add_mesh_empty] at h1
        exact ih _ _ h1
      · simp only [Result.ok.injEq] at h1
        exact h1.symm
  have hreps : ∀ (road_ptr : Road α) (rot_mat : Mat3D α) (reps : List (RoadObjectRepeat α))
      (m1 : Mesh3D α),
      repeats_loop M fuel obj road_ptr rot_mat eps reps { vertices := [], indices := [] }
        = Result.ok m1 → m1 = { vertices := [], indices := [] } := by
    intro road_ptr rot_mat reps
    induction reps with
    | nil =>
      intro m1 h1
      simp only [repeats_loop, Result.ok.injEq] at h1
      exact h1.symm
    | cons rep rest ih =>
      intro m1 h1
      unfold repeats_loop at h1
      split at h1
      · split at h1
        · next acc2 h2 =>
          have := hsample _ _ _ _ _ _ _ _ h2
          subst this
          exact ih _ h1
        · cases h1
        · cases h1
      · exact ih _ h1
  unfold get_mesh at h
  split at h
  · cases h
  · exact hreps _ _ _ _ h

end Selection

section ZeroTolerance

theorem angles_loop_zero_step (M_PI : ℝ) (alpha : ℝ) (h : alpha < 2 * M_PI) :
    ∀ fuel : Nat, angles_loop M_PI 0 fuel alpha = none := by
  intro fuel
  induction fuel with
  | zero => rfl
  | succ f ih =>
    simp only [angles_loop, h, if_true, add_zero, ih, Option.map_none']

/-- Over the reals a tolerance of 0 makes the angle loop of a cylinder of
positive radius run forever: the step is `acos 1 = 0`. -/
theorem get_cylinder_div_of_zero_tolerance (radius height : ℝ) (hr : 0 < radius) (fuel : Nat) :
    get_cylinder (Libm.mk Real.cos Real.sin Real.arccos Real.pi) fuel 0 radius height
      = Result.div := by
  have hstep : eps_angle (Libm.mk Real.cos Real.sin Real.arccos Real.pi) radius (1 / 2 * 0)
      = 0 := by
    have h1 : ¬ radius ≤ 1 / 2 * 0 := by
      intro h
      linarith
    have h2 : acos_arg radius (1 / 2 * 0) = 1 := by
      unfold acos_arg
      have : radius * radius ≠ 0 := ne_of_gt (mul_pos hr hr)
      field_simp
    simp only [eps_angle, if_neg h1, h2, Real.arccos_one]
  have hang : angles (Libm.mk Real.cos Real.sin Real.arccos Real.pi) fuel 0 radius = none := by
    unfold angles
    simp only [hstep, angles_loop_zero_step Real.pi 0 (by linarith [Real.pi_pos]) fuel,
      Option.map_none']
  simp only [get_cylinder, hang]

end ZeroTolerance

/-! ## The loop over `s` with rounded sums -/

section RoundedSpan

variable {α : Type} [LinearOrderedField α]

theorem stations_loop_rnd_id (s_end distance : α) :
    ∀ (fuel : Nat) (s : α),
      stations_loop_rnd (fun x => x) s_end distance fuel s = stations_loop s_end distance fuel s := by
  intro fuel
  induction fuel with
  | zero => intro s; rfl
  | succ f ih =>
    intro s
    simp only [stations_loop_rnd, stations_loop, ih]

theorem sample_loop_rnd_id (M : Libm α) (cfuel : Nat) (obj : RoadObject α) (road_ptr : Road α)
    (rot_mat : Mat3D α) (eps : α) (rep : RoadObjectRepeat α) (s_start s_end : α) :
    ∀ (fuel : Nat) (s : α) (acc : Mesh3D α),
      sample_loop_rnd (fun x => x) M cfuel obj road_ptr rot_mat eps rep s_start s_end fuel s acc
        = sample_loop M cfuel obj road_ptr rot_mat eps rep s_start s_end fuel s acc := by
  intro fuel
  induction fuel with
  | zero => intro s acc; rfl
  | succ f ih =>
    intro s acc
    simp only [sample_loop_rnd, sample_loop, ih]

theorem repeats_loop_rnd_id (M : Libm α) (fuel : Nat) (obj : RoadObject α) (road_ptr : Road α)
    (rot_mat : Mat3D α) (eps : α) :
    ∀ (reps : List (RoadObjectRepeat α)) (acc : Mesh3D α),
      repeats_loop_rnd (fun x => x) M fuel obj road_ptr rot_mat eps reps acc
        = repeats_loop M fuel obj road_ptr rot_mat eps reps acc := by
  intro reps
  induction reps with
  | nil => intro acc; rfl
  | cons rep rest ih =>
    intro acc
    simp only [repeats_loop_rnd, repeats_loop, sample_loop_rnd_id, s_end_rnd, s_end, ih]

/-- With no rounding the rounded model is `get_mesh`. -/
theorem get_mesh_rnd_id (M : Libm α) (EulerAnglesToMatrix : α → α → α → Mat3D α) (fuel : Nat)
    (obj : RoadObject α) (eps : α) :
    get_mesh_rnd (fun x => x) M EulerAnglesToMatrix fuel obj eps
      = get_mesh M EulerAnglesToMatrix fuel obj eps := by
  simp only [get_mesh_rnd, get_mesh, repeats_loop_rnd_id]

/-- The rounded loop over `s` merges the instances of the stations it
visits. -/
theorem sample_loop_rnd_eq_span_fold (rnd : α → α) (M : Libm α) (cfuel : Nat)
    (obj : RoadObject α) (road_ptr : Road α) (rot_mat : Mat3D α) (eps : α)
    (rep : RoadObjectRepeat α) (s_start s_end : α) :
    ∀ (fuel : Nat) (s : α) (acc : Mesh3D α) (sts : List α),
      stations_loop_rnd rnd s_end rep.distance fuel s = some sts →
      sample_loop_rnd rnd M cfuel obj road_ptr rot_mat eps rep s_start s_end fuel s acc
        = span_fold (instance_mesh M cfuel obj road_ptr rot_mat eps rep s_start s_end) sts acc := by
  intro fuel
  induction fuel with
  | zero => intro s acc sts h; simp [stations_loop_rnd] at h
  | succ f ih =>
    intro s acc sts h
    unfold stations_loop_rnd at h
    unfold sample_loop_rnd
    split at h
    · next hle =>
      rw [if_pos hle]
      cases hrest : stations_loop_rnd rnd s_end rep.distance f (rnd (s + rep.distance)) with
      | none =>
        rw [hrest] at h
        cases h
      | some rest =>
        rw [hrest] at h
        simp only [Option.map_some', Option.some.injEq] at h
        subst h
        unfold span_fold
        cases hi : instance_mesh M cfuel obj road_ptr rot_mat eps rep s_start s_end s with
        | ok m => exact ih _ _ _ hrest
        | fail e => rfl
        | div => rfl
    · next hgt =>
      rw [if_neg hgt]
      simp only [Option.some.injEq] at h
      subst h
      rfl

/-- When every sum `s + distance` formed at a station of the exact loop is
left unchanged by the rounding, the rounded loop visits the same stations. -/
theorem stations_loop_rnd_of_exact (rnd : α → α) (s_end distance : α) :
    ∀ (fuel : Nat) (s : α) (sts : List α),
      stations_loop s_end distance fuel s = some sts →
      (∀ x ∈ sts, rnd (x + distance) = x + distance) →
      stations_loop_rnd rnd s_end distance fuel s = some sts := by
  intro fuel
  induction fuel with
  | zero => intro s sts h; simp [stations_loop] at h
  | succ f ih =>
    intro s sts h hex
    unfold stations_loop at h
    unfold stations_loop_rnd
    split at h
    · next hle =>
      rw [if_pos hle]
      cases hrest : stations_loop s_end distance f (s + distance) with
      | none =>
        rw [hrest] at h
        cases h
      | some rest =>
        rw [hrest] at h
        simp only [Option.map_some', Option.some.injEq] at h
        subst h
        rw [hex s (List.mem_cons_self _ _),
          ih (s + distance) rest hrest (fun x hx => hex x (List.mem_cons_of_mem _ hx))]
        rfl
    · next hgt =>
      rw [if_neg hgt]
      exact h

theorem stations_loop_rnd_step (rnd : α → α) (s_end distance : α) (fuel : Nat) (s s2 : α)
    (rest : List α) (hle : s ≤ s_end) (hr : rnd (s + distance) = s2)
    (hrest : stations_loop_rnd rnd s_end distance fuel s2 = some rest) :
    stations_loop_rnd rnd s_end distance (fuel + 1) s = some (s :: rest) := by
  rw [stations_loop_rnd, if_pos hle, hr, hrest]
  rfl

theorem stations_loop_rnd_stop (rnd : α → α) (s_end distance : α) (fuel : Nat) (s : α)
    (hgt : ¬ s ≤ s_end) :
    stations_loop_rnd rnd s_end distance (fuel + 1) s = some [] := by
  rw [stations_loop_rnd, if_neg hgt]

/-- A single-span object: the rounded `get_mesh` is the rounded loop over `s`
of that span. -/
theorem get_mesh_rnd_single_span (rnd : α → α) (M : Libm α)
    (EulerAnglesToMatrix : α → α → α → Mat3D α) (fuel : Nat) (obj : RoadObject α)
    (road_ptr : Road α) (eps : α) (rep : RoadObjectRepeat α)
    (hroad : obj.road = some road_ptr) (hrep : obj.repeats = [rep]) (hd : rep.distance ≠ 0) :
    get_mesh_rnd rnd M EulerAnglesToMatrix fuel obj eps
      = sample_loop_rnd rnd M fuel obj road_ptr (EulerAnglesToMatrix obj.roll obj.pitch obj.hdg)
          eps rep (s_start obj rep) (s_end_rnd rnd obj road_ptr rep) fuel (s_start obj rep)
          { vertices := [], indices := [] } := by
  simp only [get_mesh_rnd, hroad, repeats_copy, hrep, List.isEmpty_cons, Bool.false_eq_true,
    if_false, repeats_loop_rnd, ne_eq, hd, not_false_eq_true, if_true]
  cases sample_loop_rnd rnd M fuel obj road_ptr (EulerAnglesToMatrix obj.roll obj.pitch obj.hdg)
      eps rep (s_start obj rep) (s_end_rnd rnd obj road_ptr rep) fuel (s_start obj rep)
      { vertices := [], indices := [] } <;> rfl

end RoundedSpan

/-! ## Rounding to binary64 -/

section Binary64

variable {α : Type} [LinearOrderedField α] [FloorRing α]

theorem round_ties_even_of_near (x : α) (m : ℤ) (h1 : (m : α) - 1 / 2 < x)
    (h2 : x < (m : α) + 1 / 2) : round_ties_even x = m := by
  by_cases hx : (m : α) ≤ x
  · have hf : ⌊x⌋ = m := Int.floor_eq_iff.mpr ⟨hx, by linarith⟩
    unfold round_ties_even
    rw [hf, if_pos (by linarith)]
  · have hf : ⌊x⌋ = m - 1 :=
      Int.floor_eq_iff.mpr ⟨by push_cast; linarith, by push_cast; linarith⟩
    unfold round_ties_even
    rw [hf]
    push_cast
    rw [if_neg (by linarith), if_pos (by linarith)]
    ring

theorem round_ties_even_of_tie (x : α) (m : ℤ) (h : x = (m : α) + 1 / 2) :
    round_ties_even x = if m % 2 = 0 then m else m + 1 := by
  have hf : ⌊x⌋ = m := Int.floor_eq_iff.mpr ⟨by linarith, by linarith⟩
  unfold round_ties_even
  rw [hf, if_neg (by linarith), if_neg (by linarith)]

/-- A positive `q` of the binade `[2 ^ e, 2 ^ (e + 1))` is rounded on the grid
of step `2 ^ (e - 52)`. -/
theorem binary64_round_of_binade (q : α) (e : ℤ) (h1 : (2 : α) ^ e ≤ q)
    (h2 : q < (2 : α) ^ (e + 1)) :
    binary64_round q
      = (round_ties_even (q / (2 : α) ^ (e - 52)) : α) * (2 : α) ^ (e - 52) := by
  have hq : 0 < q := lt_of_lt_of_le (zpow_pos (by norm_num) e) h1
  have hlog : Int.log 2 |q| = e := by
    rw [abs_of_pos hq]
    apply le_antisymm
    · have h := (Int.lt_zpow_iff_log_lt (b := 2) (by norm_num) hq (x := e + 1)).mp
        (by exact_mod_cast h2)
      omega
    · exact (Int.zpow_le_iff_le_log (b := 2) (by norm_num) hq).mp (by exact_mod_cast h1)
  unfold binary64_round
  rw [if_neg (ne_of_gt hq), hlog]

/-- Rounding to the nearest grid point `m * 2 ^ (e - 52)`. -/
theorem binary64_round_near (q : α) (e m : ℤ) (h1 : (2 : α) ^ e ≤ q)
    (h2 : q < (2 : α) ^ (e + 1)) (h3 : ((m : α) - 1 / 2) * (2 : α) ^ (e - 52) < q)
    (h4 : q < ((m : α) + 1 / 2) * (2 : α) ^ (e - 52)) :
    binary64_round q = (m : α) * (2 : α) ^ (e - 52) := by
  have hu : (0 : α) < (2 : α) ^ (e - 52) := zpow_pos (by norm_num) _
  rw [binary64_round_of_binade q e h1 h2,
    round_ties_even_of_near _ m ((lt_div_iff₀ hu).mpr h3) ((div_lt_iff₀ hu).mpr h4)]

/-- Rounding a value half way between two grid points: the even one wins. -/
theorem binary64_round_tie (q : α) (e m : ℤ) (h1 : (2 : α) ^ e ≤ q)
    (h2 : q < (2 : α) ^ (e + 1)) (h3 : q = ((m : α) + 1 / 2) * (2 : α) ^ (e - 52)) :
    binary64_round q
      = ((if m % 2 = 0 then m else m + 1 : ℤ) : α) * (2 : α) ^ (e - 52) := by
  have hu : (0 : α) < (2 : α) ^ (e - 52) := zpow_pos (by norm_num) _
  rw [binary64_round_of_binade q e h1 h2,
    round_ties_even_of_tie _ m ((div_eq_iff (ne_of_gt hu)).mpr h3)]

end Binary64
/-! ## The stations of a span when the sums of the loop are exact -/

section RoundedSpanFloor

variable {α : Type} [LinearOrderedField α] [FloorRing α]

/-- C11 (amended): `rnd` is the rounding of the `double` sums of lines 76 and
80. For a span with distance `d > 0` and extent
`L = min(obj_len, road.length) ≥ 0` such that `rnd` leaves `s_start + L` and
every `s_start + k * d + d` with `k ≤ ⌊L / d⌋` unchanged, the span is sampled
at exactly `⌊L / d⌋ + 1` stations, `s_start + k * d` for `k = 0 … ⌊L / d⌋`,
in increasing order, none beyond `s_end`, and `s_end` itself when some
`s_start + k * d` hits it: the loop over `s` (and `get_mesh` itself for a
single-span object) merges the instances of these stations in this order. -/
theorem repeat_span_stations_of_exact_sums (rnd : α → α) (M : Libm α)
    (EulerAnglesToMatrix : α → α → α → Mat3D α)
    (fuel : Nat) (obj : RoadObject α) (road_ptr : Road α) (eps : α) (rep : RoadObjectRepeat α)
    (acc : Mesh3D α) (hd : 0 < rep.distance)
    (hL : 0 ≤ min (obj_len obj rep) road_ptr.length)
    (hf : ⌊min (obj_len obj rep) road_ptr.length / rep.distance⌋₊ + 1 < fuel)
    (hse : rnd (s_start obj rep + min (obj_len obj rep) road_ptr.length)
      = s_start obj rep + min (obj_len obj rep) road_ptr.length)
    (hex : ∀ k : Nat, k ≤ ⌊min (obj_len obj rep) road_ptr.length / rep.distance⌋₊ →
      rnd (s_start obj rep + (k : α) * rep.distance + rep.distance)
        = s_start obj rep + (k : α) * rep.distance + rep.distance) :
    sample_loop_rnd rnd M fuel obj road_ptr (EulerAnglesToMatrix obj.roll obj.pitch obj.hdg) eps
        rep (s_start obj rep) (s_end_rnd rnd obj road_ptr rep) fuel (s_start obj rep) acc
      = span_fold
          (instance_mesh M fuel obj road_ptr (EulerAnglesToMatrix obj.roll obj.pitch obj.hdg)
            eps rep (s_start obj rep) (s_end_rnd rnd obj road_ptr rep))
          (stations (s_start obj rep) rep.distance
            (⌊min (obj_len obj rep) road_ptr.length / rep.distance⌋₊ + 1)) acc ∧
    (obj.road = some road_ptr → obj.repeats = [rep] →
      get_mesh_rnd rnd M EulerAnglesToMatrix fuel obj eps
        = span_fold
            (instance_mesh M fuel obj road_ptr (EulerAnglesToMatrix obj.roll obj.pitch obj.hdg)
              eps rep (s_start obj rep) (s_end_rnd rnd obj road_ptr rep))
            (stations (s_start obj rep) rep.distance
              (⌊min (obj_len obj rep) road_ptr.length / rep.distance⌋₊ + 1))
            { vertices := [], indices := [] }) ∧
    (stations (s_start obj rep) rep.distance
      (⌊min (obj_len obj rep) road_ptr.length / rep.distance⌋₊ + 1)).length
      = ⌊min (obj_len obj rep) road_ptr.length / rep.distance⌋₊ + 1 ∧
    (∀ k : Nat, k ≤ ⌊min (obj_len obj rep) road_ptr.length / rep.distance⌋₊ →
      (stations (s_start obj rep) rep.distance
        (⌊min (obj_len obj rep) road_ptr.length / rep.distance⌋₊ + 1))[k]?
        = some (s_start obj rep + (k : α) * rep.distance)) ∧
    List.Chain' (fun a b => a < b)
      (stations (s_start obj rep) rep.distance
        (⌊min (obj_len obj rep) road_ptr.length / rep.distance⌋₊ + 1)) ∧
    (∀ s ∈ stations (s_start obj rep) rep.distance
        (⌊min (obj_len obj rep) road_ptr.length / rep.distance⌋₊ + 1),
      s ≤ s_end_rnd rnd obj road_ptr rep) ∧
    (∀ k : Nat, s_start obj rep + (k : α) * rep.distance = s_end_rnd rnd obj road_ptr rep →
      s_end_rnd rnd obj road_ptr rep ∈ stations (s_start obj rep) rep.distance
        (⌊min (obj_len obj rep) road_ptr.length / rep.distance⌋₊ + 1)) := by
  have hq : 0 ≤ min (obj_len obj rep) road_ptr.length / rep.distance :=
    div_nonneg hL (le_of_lt hd)
  have hE : s_end_rnd rnd obj road_ptr rep
      = s_start obj rep + min (obj_len obj rep) road_ptr.length := hse
  have hst : stations_loop_rnd rnd (s_end_rnd rnd obj road_ptr rep) rep.distance fuel
      (s_start obj rep)
      = some (stations (s_start obj rep) rep.distance
          (⌊min (obj_len obj rep) road_ptr.length / rep.distance⌋₊ + 1)) := by
    rw [hE]
    refine stations_loop_rnd_of_exact rnd _ _ fuel _ _
      (stations_loop_floor (s_start obj rep) (min (obj_len obj rep) road_ptr.length)
        rep.distance hd hL fuel hf) ?_
    intro x hx
    simp only [stations, List.mem_map, List.mem_range] at hx
    obtain ⟨k, hk, rfl⟩ := hx
    exact hex k (Nat.le_of_lt_succ hk)
  have hloop : ∀ acc0 : Mesh3D α,
      sample_loop_rnd rnd M fuel obj road_ptr (EulerAnglesToMatrix obj.roll obj.pitch obj.hdg)
        eps rep (s_start obj rep) (s_end_rnd rnd obj road_ptr rep) fuel (s_start obj rep) acc0
      = span_fold
          (instance_mesh M fuel obj road_ptr (EulerAnglesToMatrix obj.roll obj.pitch obj.hdg)
            eps rep (s_start obj rep) (s_end_rnd rnd obj road_ptr rep))
          (stations (s_start obj rep) rep.distance
            (⌊min (obj_len obj rep) road_ptr.length / rep.distance⌋₊ + 1)) acc0 :=
    fun acc0 => sample_loop_rnd_eq_span_fold rnd M fuel obj road_ptr _ eps rep _ _ fuel _ acc0 _ hst
  refine ⟨hloop acc, ?_, stations_length _ _ _, ?_, stations_chain _ _ hd _, ?_, ?_⟩
  · intro hroad hrep
    rw [get_mesh_rnd_single_span rnd M EulerAnglesToMatrix fuel obj road_ptr eps rep hroad hrep
      (ne_of_gt hd)]
    exact hloop _
  · intro k hk
    exact stations_getElem _ _ _ k (Nat.lt_succ_of_le hk)
  · intro s hs
    simp only [stations, List.mem_map, List.mem_range] at hs
    obtain ⟨k, hk, rfl⟩ := hs
    have h1 : (k : α) ≤ min (obj_len obj rep) road_ptr.length / rep.distance :=
      (Nat.le_floor_iff hq).mp (Nat.le_of_lt_succ hk)
    have h2 := (le_div_iff₀ hd).mp h1
    rw [hE]
    linarith
  · intro k hk
    simp only [stations, List.mem_map, List.mem_range]
    refine ⟨k, ?_, hk⟩
    have h1 : (k : α) * rep.distance = min (obj_len obj rep) road_ptr.length := by
      rw [hE] at hk
      linarith
    have h2 : (k : α) ≤ min (obj_len obj rep) road_ptr.length / rep.distance := by
      rw [le_div_iff₀ hd, h1]
    exact Nat.lt_succ_of_le ((Nat.le_floor_iff hq).mpr h2)

end RoundedSpanFloor

/-! ## The station count in binary64 arithmetic -/

section Binary64Span

/-- The sums of the span with distance 5 over the extent 20 are exact in
binary64. -/
theorem binary64_round_multiples_of_five :
    binary64_round (5 : ℝ) = 5 ∧ binary64_round (10 : ℝ) = 10 ∧ binary64_round (15 : ℝ) = 15 ∧
    binary64_round (20 : ℝ) = 20 ∧ binary64_round (25 : ℝ) = 25 := by
  refine ⟨?_, ?_, ?_, ?_, ?_⟩
  · rw [binary64_round_near _ 2 (5 * 2 ^ 50) (by norm_num) (by norm_num) (by norm_num)
      (by norm_num)]
    norm_num
  · rw [binary64_round_near _ 3 (5 * 2 ^ 50) (by norm_num) (by norm_num) (by norm_num)
      (by norm_num)]
    norm_num
  · rw [binary64_round_near _ 3 (15 * 2 ^ 49) (by norm_num) (by norm_num) (by norm_num)
      (by norm_num)]
    norm_num
  · rw [binary64_round_near _ 4 (5 * 2 ^ 50) (by norm_num) (by norm_num) (by norm_num)
      (by norm_num)]
    norm_num
  · rw [binary64_round_near _ 4 (25 * 2 ^ 48) (by norm_num) (by norm_num) (by norm_num)
      (by norm_num)]
    norm_num

/-- Witness of C11 (amended): distance 5, `s0 = 0`, length 20 on a road of
length 100, fuel 6, the sums rounded to binary64: every sum is exact and five
stations are visited. -/
theorem repeat_span_stations_of_exact_sums_witness :
    (0 : ℝ) < (example_repeat : RoadObjectRepeat ℝ).distance ∧
    (0 : ℝ) ≤ min (obj_len (example_repeat_object : RoadObject ℝ) example_repeat)
      (straight_road (100 : ℝ)).length ∧
    (stations (s_start (example_repeat_object : RoadObject ℝ) example_repeat)
      (example_repeat : RoadObjectRepeat ℝ).distance
      (⌊min (obj_len (example_repeat_object : RoadObject ℝ) example_repeat)
          (straight_road (100 : ℝ)).length
        / (example_repeat : RoadObjectRepeat ℝ).distance⌋₊ + 1)).length = 4 + 1 ∧
    get_mesh_rnd binary64_round (Libm.mk Real.cos Real.sin Real.arccos Real.pi) no_rotation 6
        (example_repeat_object : RoadObject ℝ) 1
      = span_fold
          (instance_mesh (Libm.mk Real.cos Real.sin Real.arccos Real.pi) 6
            (example_repeat_object : RoadObject ℝ) (straight_road 100)
            (no_rotation (example_repeat_object : RoadObject ℝ).roll
              (example_repeat_object : RoadObject ℝ).pitch
              (example_repeat_object : RoadObject ℝ).hdg) 1 example_repeat
            (s_start (example_repeat_object : RoadObject ℝ) example_repeat)
            (s_end_rnd binary64_round (example_repeat_object : RoadObject ℝ) (straight_road 100)
              example_repeat))
          (stations (s_start (example_repeat_object : RoadObject ℝ) example_repeat)
            (example_repeat : RoadObjectRepeat ℝ).distance
            (⌊min (obj_len (example_repeat_object : RoadObject ℝ) example_repeat)
                (straight_road (100 : ℝ)).length
              / (example_repeat : RoadObjectRepeat ℝ).distance⌋₊ + 1))
          { vertices := [], indices := [] } :=
  ⟨by norm_num [example_repeat],
    by norm_num [obj_len, example_repeat_object, example_repeat, straight_road],
    by rw [stations_length, example_repeat_floor],
    (repeat_span_stations_of_exact_sums binary64_round
      (Libm.mk Real.cos Real.sin Real.arccos Real.pi) no_rotation 6
      (example_repeat_object : RoadObject ℝ) (straight_road 100) 1 example_repeat
      { vertices := [], indices := [] } (by norm_num [example_repeat])
      (by norm_num [obj_len, example_repeat_object, example_repeat, straight_road])
      (by rw [example_repeat_floor]; norm_num)
      (by
        have h : s_start (example_repeat_object : RoadObject ℝ) example_repeat
            + min (obj_len (example_repeat_object : RoadObject ℝ) example_repeat)
              (straight_road (100 : ℝ)).length = 20 := by
          norm_num [s_start, obj_len, example_repeat_object, example_repeat, straight_road]
        rw [h]
        exact binary64_round_multiples_of_five.2.2.2.1)
      (by
        intro k hk
        rw [example_repeat_floor] at hk
        have h0 : s_start (example_repeat_object : RoadObject ℝ) example_repeat = 0 := rfl
        have h5 : (example_repeat : RoadObjectRepeat ℝ).distance = 5 := rfl
        rw [h0, h5]
        interval_cases k
        · have e : (0 : ℝ) + ((0 : ℕ) : ℝ) * 5 + 5 = 5 := by norm_num
          rw [e]
          exact binary64_round_multiples_of_five.1
        · have e : (0 : ℝ) + ((1 : ℕ) : ℝ) * 5 + 5 = 10 := by norm_num
          rw [e]
          exact binary64_round_multiples_of_five.2.1
        · have e : (0 : ℝ) + ((2 : ℕ) : ℝ) * 5 + 5 = 15 := by norm_num
          rw [e]
          exact binary64_round_multiples_of_five.2.2.1
        · have e : (0 : ℝ) + ((3 : ℕ) : ℝ) * 5 + 5 = 20 := by norm_num
          rw [e]
          exact binary64_round_multiples_of_five.2.2.2.1
        · have e : (0 : ℝ) + ((4 : ℕ) : ℝ) * 5 + 5 = 25 := by norm_num
          rw [e]
          exact binary64_round_multiples_of_five.2.2.2.2)).2.1 rfl rfl⟩

/-- The eleven sums of the span with distance 0.1 in binary64 arithmetic; the
third and the fourth lie half way between two neighbours. -/
theorem binary64_round_tenth_sums :
    binary64_round ((0 : ℚ) + 3602879701896397 / 36028797018963968)
      = 3602879701896397 / 36028797018963968 ∧
    binary64_round ((3602879701896397 / 36028797018963968 : ℚ)
        + 3602879701896397 / 36028797018963968) = 3602879701896397 / 18014398509481984 ∧
    binary64_round ((3602879701896397 / 18014398509481984 : ℚ)
        + 3602879701896397 / 36028797018963968) = 1351079888211149 / 4503599627370496 ∧
    binary64_round ((1351079888211149 / 4503599627370496 : ℚ)
        + 3602879701896397 / 36028797018963968) = 3602879701896397 / 9007199254740992 ∧
    binary64_round ((3602879701896397 / 9007199254740992 : ℚ)
        + 3602879701896397 / 36028797018963968) = 1 / 2 ∧
    binary64_round ((1 / 2 : ℚ)
        + 3602879701896397 / 36028797018963968) = 5404319552844595 / 9007199254740992 ∧
    binary64_round ((5404319552844595 / 9007199254740992 : ℚ)
        + 3602879701896397 / 36028797018963968) = 3152519739159347 / 4503599627370496 ∧
    binary64_round ((3152519739159347 / 4503599627370496 : ℚ)
        + 3602879701896397 / 36028797018963968) = 7205759403792793 / 9007199254740992 ∧
    binary64_round ((7205759403792793 / 9007199254740992 : ℚ)
        + 3602879701896397 / 36028797018963968) = 2026619832316723 / 2251799813685248 ∧
    binary64_round ((2026619832316723 / 2251799813685248 : ℚ)
        + 3602879701896397 / 36028797018963968) = 9007199254740991 / 9007199254740992 ∧
    binary64_round ((9007199254740991 / 9007199254740992 : ℚ)
        + 3602879701896397 / 36028797018963968) = 4953959590107545 / 4503599627370496 := by
  refine ⟨?_, ?_, ?_, ?_, ?_, ?_, ?_, ?_, ?_, ?_, ?_⟩
  · rw [binary64_round_near _ (-4) 7205759403792794 (by norm_num) (by norm_num) (by norm_num)
      (by norm_num)]
    norm_num
  · rw [binary64_round_near _ (-3) 7205759403792794 (by norm_num) (by norm_num) (by norm_num)
      (by norm_num)]
    norm_num
  · rw [binary64_round_tie _ (-2) 5404319552844595 (by norm_num) (by norm_num) (by norm_num)]
    norm_num
  · rw [binary64_round_tie _ (-2) 7205759403792794 (by norm_num) (by norm_num) (by norm_num)]
    norm_num
  · rw [binary64_round_near _ (-1) 4503599627370496 (by norm_num) (by norm_num) (by norm_num)
      (by norm_num)]
    norm_num
  · rw [binary64_round_near _ (-1) 5404319552844595 (by norm_num) (by norm_num) (by norm_num)
      (by norm_num)]
    norm_num
  · rw [binary64_round_near _ (-1) 6305039478318694 (by norm_num) (by norm_num) (by norm_num)
      (by norm_num)]
    norm_num
  · rw [binary64_round_near _ (-1) 7205759403792793 (by norm_num) (by norm_num) (by norm_num)
      (by norm_num)]
    norm_num
  · rw [binary64_round_near _ (-1) 8106479329266892 (by norm_num) (by norm_num) (by norm_num)
      (by norm_num)]
    norm_num
  · rw [binary64_round_near _ (-1) 9007199254740991 (by norm_num) (by norm_num) (by norm_num)
      (by norm_num)]
    norm_num
  · rw [binary64_round_near _ 0 4953959590107545 (by norm_num) (by norm_num) (by norm_num)
      (by norm_num)]
    norm_num

theorem binary64_round_one : binary64_round (1 : ℚ) = 1 := by
  rw [binary64_round_near _ 0 (2 ^ 52) (by norm_num) (by norm_num) (by norm_num) (by norm_num)]
  norm_num

/-- The span `tenth_repeat` in binary64 arithmetic: `s_end` is 1 and the loop
visits the eleven stations `tenth_stations`. -/
theorem tenth_repeat_stations :
    s_end_rnd binary64_round (tenth_repeat_object : RoadObject ℚ) (straight_road 100)
      tenth_repeat = 1 ∧
    stations_loop_rnd binary64_round
      (s_end_rnd binary64_round (tenth_repeat_object : RoadObject ℚ) (straight_road 100)
        tenth_repeat)
      (tenth_repeat : RoadObjectRepeat ℚ).distance 12
      (s_start (tenth_repeat_object : RoadObject ℚ) tenth_repeat) = some tenth_stations := by
  have hE : s_end_rnd binary64_round (tenth_repeat_object : RoadObject ℚ) (straight_road 100)
      tenth_repeat = 1 := by
    have h : s_start (tenth_repeat_object : RoadObject ℚ) tenth_repeat
        + min (obj_len (tenth_repeat_object : RoadObject ℚ) tenth_repeat)
          (straight_road (100 : ℚ)).length = 1 := by
      norm_num [s_start, obj_len, tenth_repeat_object, tenth_repeat, straight_road]
    unfold s_end_rnd
    rw [h]
    exact binary64_round_one
  refine ⟨hE, ?_⟩
  rw [hE]
  have hs : s_start (tenth_repeat_object : RoadObject ℚ) tenth_repeat = 0 := rfl
  have hd : (tenth_repeat : RoadObjectRepeat ℚ).distance
      = 3602879701896397 / 36028797018963968 := rfl
  rw [hs, hd]
  obtain ⟨h0, h1, h2, h3, h4, h5, h6, h7, h8, h9, h10⟩ := binary64_round_tenth_sums
  unfold tenth_stations
  refine stations_loop_rnd_step _ _ _ _ _ _ _ (by norm_num) h0 ?_
  refine stations_loop_rnd_step _ _ _ _ _ _ _ (by norm_num) h1 ?_
  refine stations_loop_rnd_step _ _ _ _ _ _ _ (by norm_num) h2 ?_
  refine stations_loop_rnd_step _ _ _ _ _ _ _ (by norm_num) h3 ?_
  refine stations_loop_rnd_step _ _ _ _ _ _ _ (by norm_num) h4 ?_
  refine stations_loop_rnd_step _ _ _ _ _ _ _ (by norm_num) h5 ?_
  refine stations_loop_rnd_step _ _ _ _ _ _ _ (by norm_num) h6 ?_
  refine stations_loop_rnd_step _ _ _ _ _ _ _ (by norm_num) h7 ?_
  refine stations_loop_rnd_step _ _ _ _ _ _ _ (by norm_num) h8 ?_
  refine stations_loop_rnd_step _ _ _ _ _ _ _ (by norm_num) h9 ?_
  refine stations_loop_rnd_step _ _ _ _ _ _ _ (by norm_num) h10 ?_
  exact stations_loop_rnd_stop _ _ _ _ _ (by norm_num)

/-- Counterexample to C11 as stated: the span `s0 = 0`, `length = 1` with the
`double` nearest to 0.1 as distance, on a road of length 100. The distance is
positive, the extent is `L = 1` and `⌊L / d⌋ + 1 = 10`, but with the sums of
the loop rounded to binary64 the loop visits eleven stations, the fourth of
which is not `s_start + 3 * d`, and `get_mesh` merges eleven instances. -/
theorem repeat_span_rounded_sums_add_station :
    (0 : ℚ) < (tenth_repeat : RoadObjectRepeat ℚ).distance ∧
    (0 : ℚ) ≤ min (obj_len (tenth_repeat_object : RoadObject ℚ) tenth_repeat)
      (straight_road (100 : ℚ)).length ∧
    ⌊min (obj_len (tenth_repeat_object : RoadObject ℚ) tenth_repeat)
        (straight_road (100 : ℚ)).length
      / (tenth_repeat : RoadObjectRepeat ℚ).distance⌋₊ + 1 = 10 ∧
    stations_loop_rnd binary64_round
      (s_end_rnd binary64_round (tenth_repeat_object : RoadObject ℚ) (straight_road 100)
        tenth_repeat)
      (tenth_repeat : RoadObjectRepeat ℚ).distance 12
      (s_start (tenth_repeat_object : RoadObject ℚ) tenth_repeat) = some tenth_stations ∧
    (tenth_stations : List ℚ).length = 11 ∧
    (tenth_stations : List ℚ)[3]?
      ≠ some (s_start (tenth_repeat_object : RoadObject ℚ) tenth_repeat
          + ((3 : ℕ) : ℚ) * (tenth_repeat : RoadObjectRepeat ℚ).distance) ∧
    (∀ M : Libm ℚ,
      get_mesh_rnd binary64_round M no_rotation 12 (tenth_repeat_object : RoadObject ℚ) 1
        = span_fold
            (instance_mesh M 12 (tenth_repeat_object : RoadObject ℚ) (straight_road 100)
              (no_rotation (tenth_repeat_object : RoadObject ℚ).roll
                (tenth_repeat_object : RoadObject ℚ).pitch
                (tenth_repeat_object : RoadObject ℚ).hdg) 1 tenth_repeat
              (s_start (tenth_repeat_object : RoadObject ℚ) tenth_repeat)
              (s_end_rnd binary64_round (tenth_repeat_object : RoadObject ℚ)
                (straight_road 100) tenth_repeat))
            tenth_stations { vertices := [], indices := [] }) := by
  have hfl : ⌊min (obj_len (tenth_repeat_object : RoadObject ℚ) tenth_repeat)
        (straight_road (100 : ℚ)).length
      / (tenth_repeat : RoadObjectRepeat ℚ).distance⌋₊ = 9 := by
    rw [Nat.floor_eq_iff (by norm_num [obj_len, tenth_repeat_object, tenth_repeat, straight_road])]
    norm_num [obj_len, tenth_repeat_object, tenth_repeat, straight_road]
  refine ⟨by norm_num [tenth_repeat],
    by norm_num [obj_len, tenth_repeat_object, tenth_repeat, straight_road],
    by rw [hfl], tenth_repeat_stations.2, rfl, ?_, ?_⟩
  · norm_num [tenth_stations, s_start, tenth_repeat_object, tenth_repeat]
  · intro M
    rw [get_mesh_rnd_single_span binary64_round M no_rotation 12
      (tenth_repeat_object : RoadObject ℚ) (straight_road 100) 1 tenth_repeat rfl rfl
      (by norm_num [tenth_repeat])]
    exact sample_loop_rnd_eq_span_fold binary64_round M 12 _ _ _ 1 tenth_repeat _ _ 12 _ _ _
      tenth_repeat_stations.2

end Binary64Span
/-! ## The ring of the cylinder for any `<cmath>` -/

section Ring

variable {α : Type} [LinearOrderedField α] [FloorRing α]

end Ring

/-! ## The ring with the binary64 constant `M_PI` -/

section Binary64Ring

end Binary64Ring
end odr
